import Mathlib

/-!
# SCRT-Bridge: shallow embedding of the semantic knowledge graph core

This file embeds, in Lean 4, the core operations of the SCRT-Bridge
repository (`src/services/conceptResolver.ts`, `src/services/grammarService.ts`)
and proves properties of them.

Modelling conventions:
* JavaScript numbers are modelled as rationals (`ℚ`); all arithmetic in the
  embedded code is exact on the inputs considered.
* JavaScript dynamic values (`any`) are modelled by the closed variant
  `JSValue` (null / boolean / number / string); `undefined` map lookups are
  modelled with `Option`.
* The implicit `localStorage` snapshot is modelled as explicit store values
  passed in and returned (the spec's §9 note prescribes exactly this
  translation).  `Date.now()` / `Math.random()` based identifiers are
  modelled by an explicit `now : Nat` parameter.
* `String.prototype.toLowerCase` is modelled on the ASCII range
  (`Char.toLower`); the `normalize("NFD").replace(/[̀-ͯ]/g,"")`
  accent-stripping step is modelled by removing combining-mark code points
  (U+0300–U+036F).  All concrete inputs used below are ASCII, where the
  model is exact.
-/

/-- JavaScript runtime values flowing through the engine
(`null`/`undefined` collapsed to `jnull` where the source treats them alike;
`undefined` as "absent key" is `Option.none` at the lookup sites). -/
inductive JSValue where
  | jnull : JSValue
  | jbool : Bool → JSValue
  | jnum : ℚ → JSValue
  | jstr : String → JSValue
deriving DecidableEq, Repr

/-- JavaScript truthiness-based defaulting `x || 1` applied to an optional
numeric field: `undefined` and `0` both yield the default `1`. -/
def jsOr1 (x : Option ℚ) : ℚ :=
  match x with
  | none => 1
  | some q => if q = 0 then 1 else q

/-- `x || 1` on an optional count field. -/
def jsOr1N (x : Option ℕ) : ℕ :=
  match x with
  | none => 1
  | some n => if n = 0 then 1 else n

/-!
Rational arithmetic in the embedding goes through `mkRat`-based wrappers:
the library's `Rat.add`/`Rat.mul`/`Rat.div` do not reduce in the kernel,
while `mkRat` does, so these wrappers keep concrete runs of the embedded
code decidable.  `qAdd_eq`/`qMul_eq`/`qDiv_eq`/`qOfNat_eq` below rewrite
them to the ordinary operations for proofs.
-/

/-- Kernel-reducible rational addition. -/
def qAdd (a b : ℚ) : ℚ := mkRat (a.num * b.den + b.num * a.den) (a.den * b.den)

/-- Kernel-reducible rational multiplication. -/
def qMul (a b : ℚ) : ℚ := mkRat (a.num * b.num) (a.den * b.den)

/-- Kernel-reducible rational division (0 when dividing by 0, as `Rat.div`). -/
def qDiv (a b : ℚ) : ℚ :=
  if 0 ≤ b.num then mkRat (a.num * (b.den : Int)) (a.den * b.num.toNat)
  else mkRat (-(a.num * (b.den : Int))) (a.den * (-b.num).toNat)

/-- Kernel-reducible cast of a natural number. -/
def qOfNat (n : ℕ) : ℚ := mkRat n 1

theorem qAdd_eq (a b : ℚ) : qAdd a b = a + b := by
  unfold qAdd
  rw [Rat.mkRat_eq_div]
  have ha : ((a.den : ℚ)) ≠ 0 := by exact_mod_cast a.den_nz
  have hb : ((b.den : ℚ)) ≠ 0 := by exact_mod_cast b.den_nz
  conv_rhs => rw [← Rat.num_div_den a, ← Rat.num_div_den b]
  rw [div_add_div _ _ ha hb]
  push_cast
  ring_nf

theorem qMul_eq (a b : ℚ) : qMul a b = a * b := by
  unfold qMul
  rw [Rat.mkRat_eq_div]
  have ha : ((a.den : ℚ)) ≠ 0 := by exact_mod_cast a.den_nz
  have hb : ((b.den : ℚ)) ≠ 0 := by exact_mod_cast b.den_nz
  conv_rhs => rw [← Rat.num_div_den a, ← Rat.num_div_den b]
  rw [div_mul_div_comm]
  push_cast
  ring_nf

theorem qDiv_eq (a b : ℚ) : qDiv a b = a / b := by
  unfold qDiv
  by_cases hb0 : b = 0
  · subst hb0
    simp [Rat.mkRat_eq_div]
  · have hbnum : b.num ≠ 0 := Rat.num_ne_zero.mpr hb0
    have ha : ((a.den : ℚ)) ≠ 0 := by exact_mod_cast a.den_nz
    have hbd : ((b.den : ℚ)) ≠ 0 := by exact_mod_cast b.den_nz
    have hbq : ((b.num : ℚ)) ≠ 0 := by exact_mod_cast hbnum
    have ha' : ((a.num : ℚ)) = a * a.den := (div_eq_iff ha).mp (Rat.num_div_den a)
    have hb' : ((b.num : ℚ)) = b * b.den := (div_eq_iff hbd).mp (Rat.num_div_den b)
    have key : ((a.num : ℚ) * b.den) / ((a.den : ℚ) * b.num) = a / b := by
      rw [div_eq_div_iff (mul_ne_zero ha hbq) hb0]
      rw [ha', hb']
      ring
    by_cases hs : 0 ≤ b.num
    · rw [if_pos hs, Rat.mkRat_eq_div]
      have ht : ((b.num.toNat : ℕ) : ℚ) = (b.num : ℚ) := by
        exact_mod_cast Int.toNat_of_nonneg hs
      rw [show ((a.num * (b.den : Int) : Int) : ℚ) = (a.num : ℚ) * (b.den : ℚ) by
        push_cast; ring]
      rw [show ((a.den * b.num.toNat : ℕ) : ℚ) = (a.den : ℚ) * (b.num : ℚ) by
        push_cast; rw [ht]]
      exact key
    · rw [if_neg hs, Rat.mkRat_eq_div]
      have ht : (((-b.num).toNat : ℕ) : ℚ) = -(b.num : ℚ) := by
        exact_mod_cast Int.toNat_of_nonneg (by omega : (0:Int) ≤ -b.num)
      rw [show ((-(a.num * (b.den : Int)) : Int) : ℚ) = -((a.num : ℚ) * (b.den : ℚ)) by
        push_cast; ring]
      rw [show ((a.den * (-b.num).toNat : ℕ) : ℚ) = -((a.den : ℚ) * (b.num : ℚ)) by
        push_cast; rw [ht]; ring]
      rw [neg_div_neg_eq]
      exact key

theorem qOfNat_eq (n : ℕ) : qOfNat n = (n : ℚ) := by
  unfold qOfNat
  rw [Rat.mkRat_eq_div]
  simp

/-- Combining diacritical marks range removed by
`.normalize("NFD").replace(/[̀-ͯ]/g, "")`. -/
def isCombiningMark (c : Char) : Bool :=
  0x300 ≤ c.val && c.val ≤ 0x36f

/-!
Core `String` functions (`trim`, `toLower`, `split`, …) are re-implemented
below by structural recursion on the character list, because the library
versions use byte-position well-founded recursion that does not reduce in
the kernel (needed for `decide`/`rfl` on concrete inputs).
-/

/-- `String.toLower` (ASCII). -/
def myLower (s : String) : String := (s.toList.map Char.toLower).asString

/-- `String.toUpper` (ASCII). -/
def myUpper (s : String) : String := (s.toList.map Char.toUpper).asString

/-- `String.trim` on character lists. -/
def listTrim (l : List Char) : List Char :=
  ((l.dropWhile Char.isWhitespace).reverse.dropWhile Char.isWhitespace).reverse

/-- `String.trim`. -/
def myTrim (s : String) : String := (listTrim s.toList).asString

/-- Split at every separator character (the splitter of `String.split`,
producing empty pieces between consecutive separators). -/
def splitChars (p : Char → Bool) : List Char → List (List Char)
  | [] => [[]]
  | c :: rest =>
      match splitChars p rest with
      | [] => [[]]
      | w :: ws => if p c then [] :: w :: ws else (c :: w) :: ws

/-- `s.startsWith pre`. -/
def myStartsWith (s pre : String) : Bool := pre.toList.isPrefixOf s.toList

/-- `s.endsWith post`. -/
def myEndsWith (s post : String) : Bool := post.toList.isSuffixOf s.toList

/-- Whitespace-separated words of a string (empty pieces dropped). -/
def wordsOf (s : String) : List String :=
  ((splitChars Char.isWhitespace s.toList).map List.asString).filter (fun w => !w.isEmpty)

/-- NFD decomposition restricted to the precomposed Latin letters appearing
in this code base: the base letter of a lowercase accented letter (the
combining mark the decomposition produces is dropped by the subsequent
filter anyway, so only the base letter is returned). -/
def foldDiacritic (c : Char) : Char :=
  if c ∈ ['á', 'à', 'â', 'ä', 'ã', 'å'] then 'a'
  else if c ∈ ['é', 'è', 'ê', 'ë'] then 'e'
  else if c ∈ ['í', 'ì', 'î', 'ï'] then 'i'
  else if c ∈ ['ó', 'ò', 'ô', 'ö', 'õ'] then 'o'
  else if c ∈ ['ú', 'ù', 'û', 'ü'] then 'u'
  else if c = 'ç' then 'c'
  else if c = 'ñ' then 'n'
  else if c = 'ý' then 'y'
  else c

/-- `s.toLowerCase().normalize("NFD").replace(/[̀-ͯ]/g, "")`. -/
def lowerStripAccents (s : String) : String :=
  (((myLower s).toList.map foldDiacritic).filter (fun c => !isCombiningMark c)).asString

/-- `conceptResolver.ts` `norm`: lowercase, strip accents, trim
(no whitespace collapsing in this variant). -/
def normNC (s : String) : String :=
  myTrim (lowerStripAccents s)

/-- `grammarService.ts` / `semanticLinkService.ts` / `scrtService.ts` `norm` /
`normalizeString`: lowercase, strip accents, trim, collapse whitespace runs.
Trim-then-collapse is realised as joining the whitespace-separated words. -/
def normC (s : String) : String :=
  String.intercalate " " (wordsOf (lowerStripAccents s))

/-- `generateNodeKey`'s local normalizer `n`: `s.trim().toLowerCase()`. -/
def normKey (s : String) : String :=
  myLower (myTrim s)

/-- `String.prototype.includes` (substring test) on character lists. -/
def listInfix (needle hay : List Char) : Bool :=
  match hay with
  | [] => needle.isEmpty
  | _ :: t => needle.isPrefixOf hay || listInfix needle t

/-- `a.includes(b)` for strings. -/
def strIncludes (hay needle : String) : Bool :=
  listInfix needle.toList hay.toList

/-- `Array.from(new Set(l))`: deduplicate keeping the first occurrence, in
insertion order (JavaScript `Set` semantics). -/
def jsSetDedup {α : Type} [DecidableEq α] (l : List α) : List α :=
  l.foldl (fun acc a => if acc.contains a then acc else acc ++ [a]) []

-- ===========================================================================
-- Semantic links (`semanticLinkService` section of grammarService.ts,
-- plus `conceptResolver.ts`)
-- ===========================================================================

/-- `SemanticLink` of `types.ts`: optional evidence fields kept optional,
`last_seen` as a numeric timestamp. -/
structure SemanticLink where
  id : Option String := none
  concept_source : String
  relation : String
  concept_cible : String
  strength : Option ℚ := none
  count_seen : Option ℕ := none
  last_seen : Option Nat := none
  sources : Option (List String) := none
deriving DecidableEq, Repr

/-- Normalized key equality used by `saveSemanticLink`'s `findIndex`. -/
def linkKeyMatches (sN rN tN : String) (l : SemanticLink) : Bool :=
  normC l.concept_source == sN && normC l.relation == rN && normC l.concept_cible == tN

/-- The reinforcement applied to an existing link by `saveSemanticLink`. -/
def reinforceLink (now : Nat) (p : SemanticLink) (existing : SemanticLink) : SemanticLink :=
  { existing with
      count_seen := some (jsOr1N existing.count_seen + 1)
      strength := some (qAdd (jsOr1 existing.strength) (jsOr1 p.strength))
      last_seen := some now
      sources :=
        match p.sources with
        | none => existing.sources
        | some ps => some (jsSetDedup ((existing.sources.getD []) ++ ps)) }

/-- The fresh record inserted by `saveSemanticLink` when no key matches. -/
def freshLink (now : Nat) (p : SemanticLink) : SemanticLink :=
  { p with
      id := some (p.id.getD ("LINK_" ++ toString now))
      strength := some (jsOr1 p.strength)
      count_seen := some 1
      last_seen := some now
      sources := some (p.sources.getD ["user_action"]) }

/-- Update-first-match-or-append, the `findIndex` / in-place-update / `push`
pattern of `saveSemanticLink`. -/
def upsertLinkList (now : Nat) (p : SemanticLink) (sN rN tN : String) :
    List SemanticLink → List SemanticLink
  | [] => [freshLink now p]
  | l :: rest =>
      if linkKeyMatches sN rN tN l then reinforceLink now p l :: rest
      else l :: upsertLinkList now p sN rN tN rest

/-- `saveSemanticLink` (grammarService.ts lines 441–492): rejects empty keys
and self-loops, otherwise reinforces-or-inserts by normalized key. -/
def saveSemanticLink (now : Nat) (p : SemanticLink) (links : List SemanticLink) :
    List SemanticLink :=
  let sN := normC p.concept_source
  let tN := normC p.concept_cible
  let rN := normC p.relation
  if sN = "" || tN = "" || rN = "" then links
  else if sN = tN then links
  else upsertLinkList now p sN rN tN links

-- ---------------------------------------------------------------------------
-- Transitive resolution
-- ---------------------------------------------------------------------------

/-- The link followed by `resolveLabelSemantics` at one hop: the FIRST link in
store order whose normalized source is the current label and whose relation is
`synonyme_de` or `est_un` (conceptResolver.ts lines 32–35, `links.find`). -/
def firstOutgoingLink (links : List SemanticLink) (current : String) : Option SemanticLink :=
  links.find? (fun l =>
    normNC l.concept_source == current &&
      (l.relation == "synonyme_de" || l.relation == "est_un"))

/-- Loop body of `resolveLabelSemantics`, fuelled by `maxHops`; also returns
the number of hops actually taken. -/
def resolveLabelSemanticsAux (links : List SemanticLink) :
    Nat → List String → String → String × Nat
  | 0, _, current => (current, 0)
  | fuel + 1, visited, current =>
      match firstOutgoingLink links current with
      | none => (current, 0)
      | some link =>
          let next := normNC link.concept_cible
          if visited.contains next then (current, 0)
          else
            let r := resolveLabelSemanticsAux links fuel (next :: visited) next
            (r.1, r.2 + 1)

/-- `resolveLabelSemantics` (conceptResolver.ts lines 24–50). -/
def resolveLabelSemantics (links : List SemanticLink) (label : String)
    (maxHops : Nat := 6) : String :=
  (resolveLabelSemanticsAux links maxHops [normNC label] (normNC label)).1

/-- Number of hops taken by `resolveLabelSemantics`. -/
def resolveLabelSemanticsHops (links : List SemanticLink) (label : String)
    (maxHops : Nat := 6) : Nat :=
  (resolveLabelSemanticsAux links maxHops [normNC label] (normNC label)).2

/-- Candidate outgoing links considered by `resolveConcept` at one hop
(grammarService.ts lines 517–520): relation names compared through `norm`. -/
def candidateLinks (links : List SemanticLink) (currentNorm : String) : List SemanticLink :=
  links.filter (fun l =>
    normC l.concept_source == currentNorm &&
      (normC l.relation == "synonyme_de" || normC l.relation == "est_un"))

/-- `(strength desc, count_seen desc)` preference used by `resolveConcept`'s
sort: `a` is strictly preferred to `b`. -/
def strictlyStronger (a b : SemanticLink) : Bool :=
  jsOr1 a.strength > jsOr1 b.strength ||
    (jsOr1 a.strength == jsOr1 b.strength && jsOr1N a.count_seen > jsOr1N b.count_seen)

/-- `candidates.sort(desc)[0]` with a stable sort: the first element attaining
the lexicographic maximum of `(strength, count_seen)`. -/
def chooseBest : List SemanticLink → Option SemanticLink
  | [] => none
  | c :: rest =>
      match chooseBest rest with
      | none => some c
      | some b => if strictlyStronger b c then some b else some c

/-- Loop body of `resolveConcept`, fuelled by `maxHops`.  Carries the raw
(current-casing) label and its normalization, as the source does. -/
def resolveConceptAux (links : List SemanticLink) :
    Nat → List String → String → String → String
  | 0, _, current, _ => current
  | fuel + 1, visited, current, currentNorm =>
      match chooseBest (candidateLinks links currentNorm) with
      | none => current
      | some best =>
          let nextNorm := normC best.concept_cible
          if visited.contains nextNorm then current
          else resolveConceptAux links fuel (nextNorm :: visited) best.concept_cible nextNorm

/-- `resolveConcept` (grammarService.ts lines 505–544). -/
def resolveConcept (links : List SemanticLink) (label : String) : String :=
  resolveConceptAux links 6 [normC label] label (normC label)

-- ===========================================================================
-- Node-to-node graph edges (`scrt_get_edges` / `scrt_upsert_edge`,
-- grammarService.ts lines 566–594)
-- ===========================================================================

/-- `SCRTEdge` of types.ts. -/
structure SCRTEdge where
  source_id : String
  relation : String
  target_id : String
  strength : Option ℚ := none
  count_seen : Option ℕ := none
  last_seen : Option Nat := none
  sources : Option (List String) := none
deriving DecidableEq, Repr

/-- The normalized `source|relation|target` key of `scrt_upsert_edge`. -/
def edgeKey (e : SCRTEdge) : String × String × String :=
  (normC e.source_id, normC e.relation, normC e.target_id)

/-- Reinforcement of an existing edge record. -/
def reinforceEdge (now : Nat) (e : SCRTEdge) (existing : SCRTEdge) : SCRTEdge :=
  { existing with
      count_seen := some (jsOr1N existing.count_seen + 1)
      strength := some (qAdd (jsOr1 existing.strength) (jsOr1 e.strength))
      last_seen := some now
      sources :=
        match e.sources with
        | none => existing.sources
        | some es => some (jsSetDedup ((existing.sources.getD []) ++ es)) }

/-- Fresh edge record pushed when no key matches. -/
def freshEdge (now : Nat) (e : SCRTEdge) : SCRTEdge :=
  { e with
      count_seen := some 1
      strength := some (jsOr1 e.strength)
      last_seen := some now
      sources := some (e.sources.getD ["ingestion"]) }

/-- Update-first-match-or-append for the edge store. -/
def upsertEdgeList (now : Nat) (e : SCRTEdge) : List SCRTEdge → List SCRTEdge
  | [] => [freshEdge now e]
  | x :: rest =>
      if edgeKey x = edgeKey e then reinforceEdge now e x :: rest
      else x :: upsertEdgeList now e rest

/-- `scrt_upsert_edge` (grammarService.ts lines 571–594).  Note: unlike
`saveSemanticLink`, there is no empty-key or self-loop guard. -/
def scrt_upsert_edge (now : Nat) (e : SCRTEdge) (edges : List SCRTEdge) : List SCRTEdge :=
  upsertEdgeList now e edges

-- ===========================================================================
-- Grammar service: vocabulary lists and the concept admission gate
-- (grammarService.ts lines 7–359)
-- ===========================================================================

/-- `ElementType` of types.ts. -/
inductive ElementType where
  | symptome | signe_clinique | signe_paraclinique | antecedent | mesure
  | pathology | syndrome | facteur_risque | anatomie | contexte_lesionnel
deriving DecidableEq, Repr, Fintype

/-- `MainSectionId` of types.ts. -/
inductive MainSectionId where
  | motif_histoire | antecedent | symptome | parametres_vitaux
  | examen_physique | paraclinique
deriving DecidableEq, Repr

/-- `STOP_WORDS` (grammarService.ts lines 7–10). -/
def STOP_WORDS : List String :=
  ["the", "of", "and", "in", "to", "a", "with", "for", "on", "at", "by", "from",
   "is", "are", "was", "were", "has", "have", "had", "as", "or", "but"]

/-- `STANDALONE_CLINICAL_ENTITIES` (grammarService.ts lines 12–19). -/
def STANDALONE_CLINICAL_ENTITIES : List String :=
  ["hematemesis", "melena", "jaundice", "cyanosis", "dyspnea", "syncope",
   "palpitation", "purpura", "weight loss", "anorexia",
   "fever", "cough", "vomiting", "nausea", "diarrhea", "asthenia", "fatigue",
   "ascites", "asterixis", "gynecomastia", "hepatomegaly", "splenomegaly",
   "anemia", "thrombocytopenia", "leukopenia", "leukocytosis", "clubbing",
   "confusion", "coma", "seizure", "rash", "pruritus", "hippocratism"]

/-- `CONTEXTUAL_DISCARDS` (grammarService.ts lines 21–27). -/
def CONTEXTUAL_DISCARDS : List String :=
  ["pre-pyloric", "prepyloric", "antral", "antrum", "pyloric",
   "upper digestive", "lower digestive", "physiopathological", "lesional",
   "stenosing", "gastric", "duodenal", "esophageal", "body", "system",
   "acute", "chronic", "mild", "moderate", "severe", "history", "family",
   "left", "right", "upper", "lower", "bilateral", "unilateral"]

/-- `BLOCK_SINGLE_TOKENS` (grammarService.ts lines 30–37). -/
def BLOCK_SINGLE_TOKENS : List String :=
  ["palmar", "spider", "shifting", "collateral", "digital", "white",
   "testicular", "neutrophil", "abdominal", "thoracic", "hepatic",
   "renal", "cardiac", "pulmonary", "red", "blue",
   "pitting", "systolic", "diastolic", "rhythmic", "arrhythmic",
   "left", "right", "upper", "lower", "bilateral", "unilateral",
   "acute", "chronic", "mild", "moderate", "severe"]

/-- `GENERIC_BODY_PARTS` (grammarService.ts lines 40–44). -/
def GENERIC_BODY_PARTS : List String :=
  ["liver", "heart", "lung", "kidney", "spleen", "brain", "stomach",
   "pancreas", "skin", "eye", "ear", "nose", "throat", "hand", "foot",
   "arm", "leg", "abdomen", "chest", "head", "neck", "back", "testicle", "testis"]

/-- `MEDICAL_HEAD_NOUNS` (grammarService.ts lines 47–60). -/
def MEDICAL_HEAD_NOUNS : List String :=
  ["erythema", "angioma", "angiomas", "dullness", "edema", "circulation",
   "foetor", "fetor", "sign", "syndrome", "count", "level", "time",
   "pressure", "temperature", "pain", "rate", "rhythm", "deficit",
   "murmur", "rub", "gallop", "click", "snap", "node", "nodes",
   "hippocratism", "clubbing", "jaundice", "ascites", "encephalopathy",
   "breath", "sounds", "rales", "crackles", "wheeze", "stridor",
   "mass", "tenderness", "guarding", "rigidity", "rebound", "distension",
   "neutrophilia", "neutropenia", "thrombocytosis", "thrombocytopenia",
   "erythrose", "angiome", "varices", "gastropathie", "atrophie",
   "oedeme", "œdeme", "hippocratisme", "splenomegalie", "hepatomegalie",
   "ascite", "ictere", "ictère"]

/-- `LAB_KEYWORDS` local to `shouldAutoApprove`. -/
def LAB_KEYWORDS : List String :=
  ["taux", "serique", "sérique", "plasmatique", "facteur", "bilirubine",
   "albumine", "creatinine", "gamma", "gammagt", "gammaglutamyl", "prothrombine"]

/-- Morphology suffixes local to `shouldAutoApprove`. -/
def APPROVE_SUFFIXES : List String :=
  ["ite", "ose", "emie", "émie", "urie", "pathie", "mégalie", "megalie", "ome"]

/-- `deduceSection` (grammarService.ts lines 72–81). -/
def deduceSection (type : ElementType) : MainSectionId :=
  match type with
  | .symptome => .symptome
  | .antecedent => .antecedent
  | .signe_clinique => .examen_physique
  | .mesure => .parametres_vitaux
  | .signe_paraclinique => .paraclinique
  | _ => .motif_histoire

/-- `cleanClinicalTerm` (grammarService.ts lines 97–101): drop stop words
(compared lowercased), rejoin with single spaces. -/
def cleanClinicalTerm (term : String) : String :=
  String.intercalate " "
    ((wordsOf term).filter (fun w => !STOP_WORDS.contains (myLower w)))

/-- Space-separated parts of the normalized label
(`normalized.split(' ')` on a collapsed string). -/
def labelParts (normalized : String) : List String :=
  (splitChars (fun c => c = ' ') normalized.toList).map List.asString

/-- `shouldAutoApprove` (grammarService.ts lines 107–132). -/
def shouldAutoApprove (label : String) (type : ElementType) : Bool :=
  let normalized := normC label
  let parts := labelParts normalized
  if BLOCK_SINGLE_TOKENS.contains normalized then false
  else if CONTEXTUAL_DISCARDS.contains normalized then false
  else if GENERIC_BODY_PARTS.contains normalized then false
  else if STANDALONE_CLINICAL_ENTITIES.contains normalized then true
  else if LAB_KEYWORDS.any (fun k => strIncludes normalized k) then true
  else if (type = .mesure || type = .signe_paraclinique) && parts.length > 1 then true
  else if parts.any (fun p => MEDICAL_HEAD_NOUNS.contains p) then true
  else if APPROVE_SUFFIXES.any (fun s => myEndsWith normalized s) then true
  else false

/-- `isValidConceptLabel` (grammarService.ts lines 138–182). -/
def isValidConceptLabel (label : String) (type : ElementType) : Bool :=
  let normalized := normC label
  let parts := labelParts normalized
  if normalized = "" then false
  else if CONTEXTUAL_DISCARDS.contains normalized then false
  else if GENERIC_BODY_PARTS.contains normalized then
    -- generic body part: only allowed as an explicit measure
    decide (type = .mesure)
  else if parts.length = 1 then
    if type = .mesure || type = .signe_paraclinique then true
    else if STANDALONE_CLINICAL_ENTITIES.contains normalized then true
    else if BLOCK_SINGLE_TOKENS.contains normalized then false
    else false
  else
    if parts.any (fun p => MEDICAL_HEAD_NOUNS.contains p) then true
    else if STANDALONE_CLINICAL_ENTITIES.contains normalized then true
    else if parts.length > 2 then true
    else false

-- ---------------------------------------------------------------------------
-- Grammar elements, temporary memory and the admission flow
-- ---------------------------------------------------------------------------

/-- Value-mode discriminator of `mode_description` / `ui_config.widget_type`. -/
inductive ModeType where
  | boolean | numeric | scale | options
deriving DecidableEq, Repr

/-- `mode_description` of a `ClinicalElement` (unused optional numeric bounds
and interpretation rules omitted: the embedded code never reads them). -/
structure ModeDescription where
  type : ModeType
  unit : Option String := none
  options : Option (List String) := none
deriving DecidableEq, Repr

/-- `ClinicalElement` of types.ts (`ippa_method` omitted, never used here). -/
structure ClinicalElement where
  id : String
  name : String
  type : ElementType
  section_observation : MainSectionId
  subsection : String
  synonymes : List String
  mode_description : ModeDescription
deriving DecidableEq, Repr

/-- Quarantine status of a `TemporaryConcept`. -/
inductive TempStatus where
  | pending | validated | rejected
deriving DecidableEq, Repr

/-- `TemporaryConcept` of types.ts (timestamps as `Nat`). -/
structure TemporaryConcept where
  id : String
  raw_label : String
  source_document : String
  context_snippet : String
  detected_type_guess : ElementType
  status : TempStatus
  description : Option String := none
  affinities : Option (List String) := none
  count_seen : ℕ
  last_seen : Nat
deriving DecidableEq, Repr

/-- `ClinicalOntology` of types.ts: the grammar snapshot. -/
structure ClinicalOntology where
  elements : List ClinicalElement
  temporary_memory : List TemporaryConcept
deriving DecidableEq, Repr

/-- `Partial<TemporaryConcept>` as passed to `addTemporaryConcept`. -/
structure TempPartial where
  raw_label : Option String := none
  source_document : Option String := none
  context_snippet : Option String := none
  detected_type_guess : Option ElementType := none
  status : Option TempStatus := none
  description : Option String := none
  affinities : Option (List String) := none
deriving DecidableEq, Repr

/-- `Partial<ClinicalElement>` as passed to `addValidatedElement`. -/
structure ElementPartial where
  id : Option String := none
  name : Option String := none
  type : Option ElementType := none
  section_observation : Option MainSectionId := none
  synonymes : Option (List String) := none
  mode_description : Option ModeDescription := none
deriving DecidableEq, Repr

/-- `rawName.charAt(0).toUpperCase() + rawName.slice(1)`. -/
def capitalizeFirst (s : String) : String :=
  match s.toList with
  | [] => ""
  | c :: rest => (c.toUpper :: rest).asString

/-- `addTemporaryConcept` (grammarService.ts lines 269–309): create or
reinforce a quarantine record, unless the label is empty or already a
validated element. -/
def addTemporaryConcept (now : Nat) (concept : TempPartial) (ont : ClinicalOntology) :
    ClinicalOntology :=
  let label := cleanClinicalTerm (myTrim (concept.raw_label.getD ""))
  let labelNorm := normC label
  if label = "" then ont
  else if ont.elements.any (fun e => normC e.name == labelNorm) then ont
  else
    match ont.temporary_memory.findIdx? (fun t => normC t.raw_label == labelNorm) with
    | some i =>
        { ont with
            temporary_memory := ont.temporary_memory.modify
              (fun t => { t with
                count_seen := (if t.count_seen = 0 then 1 else t.count_seen) + 1
                last_seen := now }) i }
    | none =>
        { ont with
            temporary_memory := ont.temporary_memory ++
              [{ id := "TEMP_" ++ toString now
                 raw_label := label
                 source_document := concept.source_document.getD "Auto-GSI v12"
                 context_snippet := concept.context_snippet.getD ""
                 detected_type_guess := concept.detected_type_guess.getD .symptome
                 status := concept.status.getD .pending
                 description := concept.description
                 affinities := concept.affinities
                 count_seen := 1
                 last_seen := now }] }

/-- One promotion step of `consolidateTemporaryMemory` for a candidate. -/
def promoteCandidate (now : Nat) (ont : ClinicalOntology) (cand : TemporaryConcept) :
    ClinicalOntology :=
  let isFrequent := cand.count_seen ≥ 2
  let isAutoSafe := shouldAutoApprove cand.raw_label cand.detected_type_guess
  if isFrequent || isAutoSafe then
    let newEl : ClinicalElement :=
      { id := "EL_AUTO_" ++ toString now
        name := capitalizeFirst cand.raw_label
        type := cand.detected_type_guess
        section_observation := deduceSection cand.detected_type_guess
        subsection := "Auto-Learned"
        synonymes := []
        mode_description := { type := .boolean } }
    let elements' :=
      if (ont.elements.find? (fun e => normC e.name == normC newEl.name)).isSome
      then ont.elements else ont.elements ++ [newEl]
    { elements := elements'
      temporary_memory := ont.temporary_memory.filter (fun t => t.id ≠ cand.id) }
  else ont

/-- `consolidateTemporaryMemory` (grammarService.ts lines 326–359): promote
pending quarantined concepts seen ≥ 2 times or now auto-approvable. -/
def consolidateTemporaryMemory (now : Nat) (ont : ClinicalOntology) : ClinicalOntology :=
  let pending := ont.temporary_memory.filter (fun t => t.status = .pending)
  pending.foldl (promoteCandidate now) ont

/-- Result id prefix marking a gate rejection. -/
def TEMP_REJECT_PREFIX : String := "TEMP_REJECT"

/-- The `findIndex`-then-update branch of `addValidatedElement`'s step 3:
locate the first element whose normalized name matches and merge the new
options into it; `none` when no element matches. -/
def upsertExistingElement (finalOptions : List String) (normalizedLabel : String) :
    List ClinicalElement → Option (ClinicalElement × List ClinicalElement)
  | [] => none
  | e :: rest =>
      if normC e.name == normalizedLabel then
        let e' :=
          if finalOptions.length > 0 then
            { e with mode_description :=
                { e.mode_description with
                    type := .options
                    options := some (jsSetDedup
                      ((e.mode_description.options.getD []) ++ finalOptions)) } }
          else e
        some (e', e' :: rest)
      else
        match upsertExistingElement finalOptions normalizedLabel rest with
        | some (r, rest') => some (r, e :: rest')
        | none => none

/-- `addValidatedElement` (grammarService.ts lines 184–264).  Returns the
resulting element (a `TEMP_REJECT_…` placeholder when quarantined) together
with the updated grammar snapshot. -/
def addValidatedElement (now : Nat) (element : ElementPartial) (ont : ClinicalOntology) :
    ClinicalElement × ClinicalOntology :=
  let rawName := cleanClinicalTerm (myTrim (element.name.getD "Unknown"))
  let normalizedLabel := normC rawName
  let atomicRoot := capitalizeFirst rawName
  let isValid := isValidConceptLabel rawName (element.type.getD .symptome)
  let isAutoApprovable := shouldAutoApprove rawName (element.type.getD .symptome)
  if !isValid && !isAutoApprovable then
    let ont1 := addTemporaryConcept now
      { raw_label := some rawName
        detected_type_guess := element.type
        status := some .pending
        source_document := some "Ingestion Gate Rejection" } ont
    let ont2 := consolidateTemporaryMemory now ont1
    ({ id := TEMP_REJECT_PREFIX ++ "_" ++ toString now
       name := rawName
       type := element.type.getD .symptome
       section_observation := .motif_histoire
       subsection := "Rejected"
       synonymes := []
       mode_description := { type := .boolean } }, ont2)
  else
    let uniqueOptions := jsSetDedup
      (((element.mode_description.bind (·.options)).getD []).filterMap (fun opt =>
        let cleaned := cleanClinicalTerm opt
        if cleaned = "" then none else some cleaned))
    let finalOptions := uniqueOptions.map capitalizeFirst
    match upsertExistingElement finalOptions normalizedLabel ont.elements with
    | some (existing', elements') =>
        (existing', { ont with elements := elements' })
    | none =>
        let newEl : ClinicalElement :=
          { id := element.id.getD ("EL_" ++ toString now)
            name := atomicRoot
            type := element.type.getD .symptome
            section_observation :=
              (element.section_observation).getD (deduceSection (element.type.getD .symptome))
            subsection := "GSI Atomic v12"
            synonymes := element.synonymes.getD []
            mode_description :=
              { type := if finalOptions.length > 0 then .options else .boolean
                options := some finalOptions } }
        (newEl, { ont with elements := ont.elements ++ [newEl] })

-- ===========================================================================
-- SCRT store data model (types.ts) and concept store operations
-- ===========================================================================

/-- `LogicalOperator` of types.ts. -/
inductive LogicalOperator where
  | gt | lt | eq | gte | lte | contains
deriving DecidableEq, Repr

/-- Modality severity class (`'M1' | … | 'M5'`); the source field is named
`class`, a Lean keyword, rendered here as `mclass`. -/
inductive MClass where
  | M1 | M2 | M3 | M4 | M5
deriving DecidableEq, Repr

/-- A modality condition `{operator, threshold}`; `threshold : any` is a
`JSValue`. -/
structure ModCondition where
  operator : LogicalOperator
  threshold : JSValue
deriving DecidableEq, Repr

/-- `SCRTModality` of types.ts. -/
structure SCRTModality where
  label : String
  mclass : MClass
  score : ℚ
  condition : ModCondition
deriving DecidableEq, Repr

/-- `SCRTConceptTree` of types.ts. -/
structure SCRTConceptTree where
  concept_id : String
  characteristics : List String
  modalities : List SCRTModality
deriving DecidableEq, Repr

/-- `SCRTSyndrome` of types.ts. -/
structure SCRTSyndrome where
  id : String
  label : String
  description : String
  concept_ids : List String
deriving DecidableEq, Repr

/-- `NodeKind` of types.ts. -/
inductive NodeKind where
  | pathology | syndrome | protocol | guideline | reference | rule
deriving DecidableEq, Repr

/-- `SCRTNodeLink` of types.ts. -/
structure SCRTNodeLink where
  relation : String
  target_node_id : String
deriving DecidableEq, Repr

/-- Role of an evidence exam in `SCRTContext`. -/
inductive ExamRole where
  | gold_standard | orientation | exclusion
deriving DecidableEq, Repr

/-- One entry of `contexte.examens_preuves`. -/
structure ExamenPreuve where
  concept_ref : String
  label : String
  role : ExamRole
  notes : Option String := none
deriving DecidableEq, Repr

/-- `contexte.epidemiologie`. -/
structure Epidemiologie where
  age_peak : Option String := none
  sex_ratio : Option String := none
  prevalence : Option String := none
  risk_factors : Option (List String) := none
deriving DecidableEq, Repr

/-- `contexte.lesionnel`. -/
structure Lesionnel where
  typical_sites : List String
  red_flags : List String
  anatomical_context : String
deriving DecidableEq, Repr

/-- `contexte.prise_en_charge`. -/
structure PriseEnCharge where
  medicale : List String
  chirurgicale : List String
  surveillance : List String
deriving DecidableEq, Repr

/-- `SCRTContext` of types.ts. -/
structure SCRTContext where
  definition : String
  epidemiologie : Epidemiologie
  lesionnel : Lesionnel
  examens_preuves : List ExamenPreuve
  prise_en_charge : PriseEnCharge
  commentaire_pedagogique : List String
deriving DecidableEq, Repr

/-- `ui_config` of an `SCRTConcept`. -/
structure UIConfig where
  section_default : MainSectionId
  widget_type : ModeType
  options : List String := []
deriving DecidableEq, Repr

/-- `SCRTConcept` of types.ts (unused optional `definition` and
`interpretation_rules` omitted). -/
structure SCRTConcept where
  concept_id : String
  label : String
  type : ElementType
  synonyms : List String
  negatable : Bool
  unit : Option String := none
  ui_config : UIConfig
deriving DecidableEq, Repr

/-- `ConceptStore` of types.ts. -/
structure ConceptStore where
  concepts : List SCRTConcept
deriving DecidableEq, Repr

/-- `clinique` of an `SCRTNode`. -/
structure SCRTClinique where
  symptomes : List SCRTConceptTree
  signes : List SCRTConceptTree
  modalites_pivots : List String
deriving DecidableEq, Repr

/-- `SCRTNode` of types.ts (timestamps as `Nat`). -/
structure SCRTNode where
  node_id : String
  node_key : Option String := none
  pathology : String
  title : Option String := none
  node_kind : Option NodeKind := none
  links : Option (List SCRTNodeLink) := none
  discipline : String
  specialty : String
  contexte : SCRTContext
  clinique : SCRTClinique
  syndromes : List String
  last_updated : Nat
  description : Option String := none
  tree : List SCRTConceptTree
  clinical_forms : List String
deriving DecidableEq, Repr

/-- `MedicalIndexNode` of types.ts. -/
inductive MedicalIndexNode where
  | mk (id : String) (label : String) (children : List MedicalIndexNode)
      (linked_pathologies : List String)
deriving Repr

def MedicalIndexNode.id : MedicalIndexNode → String
  | .mk i _ _ _ => i

def MedicalIndexNode.label : MedicalIndexNode → String
  | .mk _ l _ _ => l

def MedicalIndexNode.children : MedicalIndexNode → List MedicalIndexNode
  | .mk _ _ c _ => c

def MedicalIndexNode.linked_pathologies : MedicalIndexNode → List String
  | .mk _ _ _ p => p

/-- `MedicalIndex` of types.ts (`trigger_index` never populated, omitted). -/
structure MedicalIndex where
  root : MedicalIndexNode

/-- `SCRTStore` of types.ts. -/
structure SCRTStore where
  nodes : List SCRTNode
  syndromes : List SCRTSyndrome
  concept_store : ConceptStore
  index : MedicalIndex

/-- `resolveToConceptId` (conceptResolver.ts lines 56–79): direct
label/synonym match, then semantic resolution and retry.  The semantic link
store, read via `getSemanticLinks()` in the source, is passed explicitly. -/
def resolveToConceptId (links : List SemanticLink) (store : SCRTStore)
    (label : String) : Option String :=
  let target := normNC label
  if target = "" then none
  else
    let directMatch := store.concept_store.concepts.find? (fun c =>
      normNC c.label == target || c.synonyms.any (fun syn => normNC syn == target))
    match directMatch with
    | some c => some c.concept_id
    | none =>
        let resolvedLabel := resolveLabelSemantics links label
        if resolvedLabel ≠ target then
          match store.concept_store.concepts.find? (fun c =>
              normNC c.label == resolvedLabel ||
                c.synonyms.any (fun syn => normNC syn == resolvedLabel)) with
          | some c => some c.concept_id
          | none => none
        else none

/-- Input of `scrt_upsert_concept`. -/
structure ConceptPartial where
  label : String
  type : ElementType
  synonyms : Option (List String) := none
  unit : Option String := none
deriving DecidableEq, Repr

/-- Merge step of `scrt_upsert_concept` on the matched concept: append the
genuinely new synonyms, backfill a missing unit. -/
def mergeConcept (partial_ : ConceptPartial) (c : SCRTConcept) : SCRTConcept :=
  let withSyns :=
    match partial_.synonyms with
    | none => c
    | some syns =>
        { c with synonyms := c.synonyms ++ syns.filter (fun s => !c.synonyms.contains s) }
  match partial_.unit with
  | some u => if withSyns.unit.isNone then { withSyns with unit := some u } else withSyns
  | none => withSyns

/-- `sectionMap[partial.type] || 'motif_histoire'` of `scrt_upsert_concept`. -/
def conceptSectionOf (t : ElementType) : MainSectionId :=
  match t with
  | .symptome => .symptome
  | .signe_clinique => .examen_physique
  | .mesure => .parametres_vitaux
  | .signe_paraclinique => .paraclinique
  | .antecedent => .antecedent
  | _ => .motif_histoire

/-- `scrt_upsert_concept` (grammarService.ts lines 706–753): resolve to an
existing canonical concept and merge, or create a new one.  Returns the
concept id and the updated store. -/
def scrt_upsert_concept (now : Nat) (links : List SemanticLink) (store : SCRTStore)
    (partial_ : ConceptPartial) : String × SCRTStore :=
  match resolveToConceptId links store partial_.label with
  | some existingId =>
      -- the source re-finds the concept by id and mutates it in place
      ( existingId,
        { store with concept_store :=
            { concepts :=
                match store.concept_store.concepts.findIdx? (fun c => c.concept_id = existingId) with
                | some i => store.concept_store.concepts.modify (mergeConcept partial_) i
                | none => store.concept_store.concepts } } )
  | none =>
      let newId := "CPT_" ++ toString now
      let newConcept : SCRTConcept :=
        { concept_id := newId
          label := partial_.label
          type := partial_.type
          synonyms := partial_.synonyms.getD []
          negatable := true
          unit := partial_.unit
          ui_config :=
            { section_default := conceptSectionOf partial_.type
              widget_type := if partial_.unit.isSome then .numeric else .boolean
              options := [] } }
      (newId, { store with concept_store :=
          { concepts := store.concept_store.concepts ++ [newConcept] } })

/-- `searchMedicalIndex` (grammarService.ts lines 785–792): currently a
pass-through returning every node id. -/
def searchMedicalIndex (store : SCRTStore) (activeConcepts : List String) : List String :=
  if activeConcepts.length = 0 then store.nodes.map (·.node_id)
  else store.nodes.map (·.node_id)

/-- One step of `rebuildMedicalIndex`'s `forEach`: insert a node under its
discipline → specialty chain. -/
def indexInsertNode (root : MedicalIndexNode) (node : SCRTNode) : MedicalIndexNode :=
  let discLabel := if node.discipline = "" then "General" else node.discipline
  let specLabel := if node.specialty = "" then "General" else node.specialty
  let insertSpec (disc : MedicalIndexNode) : MedicalIndexNode :=
    match disc.children.findIdx? (fun c => c.label = specLabel) with
    | some j =>
        .mk disc.id disc.label
          (disc.children.modify (fun spec =>
            .mk spec.id spec.label spec.children
              (if spec.linked_pathologies.contains node.node_id
               then spec.linked_pathologies
               else spec.linked_pathologies ++ [node.node_id])) j)
          disc.linked_pathologies
    | none =>
        .mk disc.id disc.label
          (disc.children ++
            [.mk ("SPEC_" ++ specLabel) specLabel [] [node.node_id]])
          disc.linked_pathologies
  match root.children.findIdx? (fun c => c.label = discLabel) with
  | some i =>
      .mk root.id root.label (root.children.modify insertSpec i) root.linked_pathologies
  | none =>
      .mk root.id root.label
        (root.children ++
          [insertSpec (.mk ("DISC_" ++ discLabel) discLabel [] [])])
        root.linked_pathologies

/-- `rebuildMedicalIndex` (grammarService.ts lines 757–783). -/
def rebuildMedicalIndex (store : SCRTStore) : SCRTStore :=
  { store with index :=
      { root := store.nodes.foldl indexInsertNode
          (.mk "MEDICINE" "Medicine" [] []) } }

-- ===========================================================================
-- Inference engine (`querySCRT`, grammarService.ts lines 795–1146)
-- ===========================================================================

/-- `ObservationValue` of types.ts. -/
structure ObservationValue where
  element_id : String
  value : JSValue
deriving DecidableEq, Repr

/-- `ClinicalObservationData` of types.ts. -/
structure ClinicalObservationData where
  values : List ObservationValue
  reconstructedText : String
deriving DecidableEq, Repr

/-- Decimal numeric literal `[sign] digits [. digits]` (at least one digit,
whole string).  Models `Number(s)` on the plain-decimal fragment; hex,
exponent and Infinity forms are outside the inputs considered here. -/
def decimalDigitsVal (digits : List Char) : ℕ :=
  digits.foldl (fun acc c => acc * 10 + (c.toNat - '0'.toNat)) 0

def parseDecimalChars : List Char → Option ℚ :=
  fun cs =>
    let (neg, rest) :=
      match cs with
      | '-' :: r => (true, r)
      | '+' :: r => (false, r)
      | r => (false, r)
    let intDigits := rest.takeWhile Char.isDigit
    let afterInt := rest.drop intDigits.length
    let intVal : ℕ := decimalDigitsVal intDigits
    let signed : Int → Int := fun z => if neg then -z else z
    match afterInt with
    | [] => if intDigits.isEmpty then none else some (mkRat (signed intVal) 1)
    | '.' :: fracPart =>
        let fracDigits := fracPart.takeWhile Char.isDigit
        let afterFrac := fracPart.drop fracDigits.length
        if afterFrac.isEmpty ∧ ¬(intDigits.isEmpty ∧ fracDigits.isEmpty) then
          some (mkRat (signed (intVal * 10 ^ fracDigits.length + decimalDigitsVal fracDigits))
            (10 ^ fracDigits.length))
        else none
    | _ => none

/-- `Number(s)` on a string: trims; empty/whitespace coerces to `0`;
otherwise a full decimal literal, else NaN (`none`). -/
def jsNumber (s : String) : Option ℚ :=
  let t := myTrim s
  if t = "" then some 0 else parseDecimalChars t.toList

/-- `parseFloat(s)`: skip leading whitespace, read the longest decimal prefix
`[sign] digits [. digits]`; NaN (`none`) when no digit starts the prefix. -/
def jsParseFloat (s : String) : Option ℚ :=
  let cs := s.toList.dropWhile Char.isWhitespace
  let (neg, rest) :=
    match cs with
    | '-' :: r => (true, r)
    | '+' :: r => (false, r)
    | r => (false, r)
  let intDigits := rest.takeWhile Char.isDigit
  let afterInt := rest.drop intDigits.length
  let intVal : ℕ := decimalDigitsVal intDigits
  let signed : Int → Int := fun z => if neg then -z else z
  match afterInt with
  | '.' :: fracPart =>
      let fracDigits := fracPart.takeWhile Char.isDigit
      if intDigits.isEmpty ∧ fracDigits.isEmpty then none
      else
        some (mkRat (signed (intVal * 10 ^ fracDigits.length + decimalDigitsVal fracDigits))
          (10 ^ fracDigits.length))
  | _ => if intDigits.isEmpty then none else some (mkRat (signed intVal) 1)

/-- `normalizeObsValue` (grammarService.ts lines 798–812). -/
def normalizeObsValue (val : Option JSValue) : JSValue :=
  match val with
  | none => .jnull
  | some .jnull => .jnull
  | some (.jnum q) => .jnum q
  | some (.jbool b) => .jbool b
  | some (.jstr s) =>
      let trimmed := myTrim s
      if trimmed = "" then .jnull
      else if myLower trimmed = "true" then .jbool true
      else if myLower trimmed = "false" then .jbool false
      else
        match jsNumber trimmed with
        | some q => .jnum q
        | none => .jstr trimmed

/-- `new Map(grammar.elements.map(e => [e.id, e]))` lookup: the LAST element
with the given id wins (JavaScript `Map` constructor overwrite semantics). -/
def grammarByIdGet (elements : List ClinicalElement) (id : String) : Option ClinicalElement :=
  elements.reverse.find? (fun e => e.id == id)

/-- The concept value type resolved by `isPresentByConcept`
(store widget → legacy grammar mode → runtime guess from the value). -/
inductive PresenceType where
  | boolean | numeric | text
deriving DecidableEq, Repr

/-- Type-resolution steps 1–3 of `isPresentByConcept`
(grammarService.ts lines 822–844). -/
def presenceTypeOf (store : SCRTStore) (elements : List ClinicalElement)
    (conceptId : String) (value : JSValue) : PresenceType :=
  match store.concept_store.concepts.find? (fun c => c.concept_id == conceptId) with
  | some c =>
      if c.ui_config.widget_type = .numeric || c.ui_config.widget_type = .scale
          || c.unit.isSome then .numeric
      else if c.ui_config.widget_type = .boolean then .boolean
      else .text
  | none =>
      match grammarByIdGet elements conceptId with
      | some el =>
          if el.mode_description.type = .numeric || el.mode_description.type = .scale
          then .numeric
          else if el.mode_description.type = .boolean then .boolean
          else .text
      | none =>
          match value with
          | .jnum _ => .numeric
          | .jbool _ => .boolean
          | _ => .text

/-- `isPresentByConcept` (grammarService.ts lines 815–853). -/
def isPresentByConcept (store : SCRTStore) (elements : List ClinicalElement)
    (branch : SCRTConceptTree) (value : JSValue) : Bool :=
  match value with
  | .jnull => false
  | _ =>
      match presenceTypeOf store elements branch.concept_id value with
      | .boolean => value == .jbool true
      | .numeric => match value with | .jnum _ => true | _ => false
      | .text => match value with | .jstr s => s.length > 0 | _ => false

/-- JavaScript abstract (loose) equality `v == t` restricted to the
`JSValue` variants. -/
def jsLooseEq : JSValue → JSValue → Bool
  | .jnull, .jnull => true
  | .jnull, _ => false
  | _, .jnull => false
  | .jbool a, .jbool b => a == b
  | .jbool a, .jnum q => ((if a then (1 : ℚ) else 0) == q)
  | .jnum q, .jbool a => (q == (if a then (1 : ℚ) else 0))
  | .jbool a, .jstr s =>
      match jsNumber s with
      | some q => ((if a then (1 : ℚ) else 0) == q)
      | none => false
  | .jstr s, .jbool a =>
      match jsNumber s with
      | some q => (q == (if a then (1 : ℚ) else 0))
      | none => false
  | .jnum q, .jnum q' => q == q'
  | .jnum q, .jstr s =>
      match jsNumber s with
      | some q' => q == q'
      | none => false
  | .jstr s, .jnum q =>
      match jsNumber s with
      | some q' => q' == q
      | none => false
  | .jstr s, .jstr s' => s == s'

/-- `String(v)` for the `contains` test (rational rendering is exact for
integers; non-integral rationals are rendered as fractions, a deviation from
JS float formatting that no input below exercises). -/
def jsToString : JSValue → String
  | .jnull => "null"
  | .jbool true => "true"
  | .jbool false => "false"
  | .jnum q => if q.den = 1 then toString q.num else toString q.num ++ "/" ++ toString q.den
  | .jstr s => s

/-- `evaluateCondition` (grammarService.ts lines 855–895). -/
def evaluateCondition (condition : ModCondition) (value : JSValue) : Bool :=
  match value with
  | .jnull => false
  | _ =>
      match condition.threshold with
      | .jnum t =>
          let v? : Option ℚ :=
            match value with
            | .jstr s => jsParseFloat s
            | .jnum q => some q
            | _ => none
          match v? with
          | none => false
          | some v =>
              match condition.operator with
              | .gt => v > t
              | .lt => v < t
              | .gte => v ≥ t
              | .lte => v ≤ t
              | .eq => v == t
              | .contains => false
      | t =>
          match condition.operator with
          | .eq =>
              match value, t with
              | .jstr vs, .jstr ts => myTrim (myLower vs) == myTrim (myLower ts)
              | _, _ => jsLooseEq value t
          | .contains =>
              strIncludes (myLower (jsToString value)) (myLower (jsToString t))
          | _ => false

-- ---------------------------------------------------------------------------
-- Observation map (Step 1 of querySCRT)
-- ---------------------------------------------------------------------------

/-- The observation lookup map: an association list where the most recent
`set` is at the head (a later `Map.set` overrides an earlier one). -/
abbrev ObsMap := List (String × JSValue)

def obsMapSet (m : ObsMap) (k : String) (v : JSValue) : ObsMap := (k, v) :: m

def obsMapGet (m : ObsMap) (k : String) : Option JSValue :=
  (m.find? (fun p => p.1 == k)).map (·.2)

/-- `Array.from(obsMap.keys())`: distinct keys in first-insertion order. -/
def obsMapKeys (m : ObsMap) : List String :=
  jsSetDedup (m.reverse.map (·.1))

/-- Step 1 of `querySCRT` for one observation value (lines 909–943): index
the value under its element id, normalized name, semantically resolved label
and any canonical concept ids. -/
def obsMapAddValue (links : List SemanticLink) (store : SCRTStore)
    (grammar : ClinicalOntology) (m : ObsMap) (v : ObservationValue) : ObsMap :=
  let m := obsMapSet m v.element_id v.value
  match grammar.elements.find? (fun e => e.id == v.element_id) with
  | none => m
  | some el =>
      let rawName := el.name
      let normalizedName := normNC rawName
      let m := obsMapSet m normalizedName v.value
      let resolvedLabel := resolveLabelSemantics links rawName
      let m :=
        if resolvedLabel ≠ "" ∧ resolvedLabel ≠ normalizedName
        then obsMapSet m resolvedLabel v.value else m
      let m :=
        match resolveToConceptId links store rawName with
        | some cid1 => obsMapSet m cid1 v.value
        | none => m
      if resolvedLabel ≠ "" then
        match resolveToConceptId links store resolvedLabel with
        | some cid2 => obsMapSet m cid2 v.value
        | none => m
      else m

/-- The full observation map of a query. -/
def buildObsMap (links : List SemanticLink) (store : SCRTStore)
    (grammar : ClinicalOntology) (observation : ClinicalObservationData) : ObsMap :=
  observation.values.foldl (obsMapAddValue links store grammar) []

-- ---------------------------------------------------------------------------
-- Convolution (Step 3 of querySCRT)
-- ---------------------------------------------------------------------------

/-- `SCRTInferenceResult` of types.ts. -/
structure SCRTInferenceResult where
  node : SCRTNode
  score : ℚ
  activeModalities : List SCRTModality
  activeSyndromes : List SCRTSyndrome
  reasoningPath : List String
  matchedConcepts : List String
  unmatchedConcepts : List String
  obsKeys : List String
deriving DecidableEq, Repr

/-- Raw observed value of a branch (lines 965–983): direct concept-id key,
else the legacy grammar element's normalized name, else its semantically
resolved label. -/
def branchRawValue (links : List SemanticLink) (elements : List ClinicalElement)
    (m : ObsMap) (branch : SCRTConceptTree) : Option JSValue :=
  match obsMapGet m branch.concept_id with
  | some v => some v
  | none =>
      match grammarByIdGet elements branch.concept_id with
      | none => none
      | some grammarEl =>
          match obsMapGet m (normNC grammarEl.name) with
          | some v => some v
          | none => obsMapGet m (resolveLabelSemantics links grammarEl.name)

/-- `modalities.filter(triggered).sort(score desc)[0]`: the first modality, in
declaration order, attaining the maximal score among those whose condition
holds (stable-sort-then-head). -/
def chooseTopModality : List SCRTModality → Option SCRTModality
  | [] => none
  | m :: rest =>
      match chooseTopModality rest with
      | none => some m
      | some b => if b.score > m.score then some b else some m

/-- Accumulator of the branch loop: score, active modalities, active concept
id set, matched and unmatched concept lists. -/
structure BranchAcc where
  score : ℚ
  activeModalities : List SCRTModality
  activeConceptIds : List String
  matchedConcepts : List String
  unmatchedConcepts : List String
deriving Repr

/-- One iteration of the branch loop (lines 964–1006). -/
def convolveBranch (links : List SemanticLink) (store : SCRTStore)
    (elements : List ClinicalElement) (m : ObsMap) (acc : BranchAcc)
    (branch : SCRTConceptTree) : BranchAcc :=
  let vNorm := normalizeObsValue (branchRawValue links elements m branch)
  if isPresentByConcept store elements branch vNorm then
    let acc :=
      { acc with
          score := qAdd acc.score 1
          activeConceptIds :=
            if acc.activeConceptIds.contains branch.concept_id then acc.activeConceptIds
            else acc.activeConceptIds ++ [branch.concept_id]
          matchedConcepts := acc.matchedConcepts ++ [branch.concept_id] }
    match chooseTopModality
        (branch.modalities.filter (fun mo => evaluateCondition mo.condition vNorm)) with
    | some triggered =>
        { acc with
            activeModalities := acc.activeModalities ++ [triggered]
            score := qAdd acc.score triggered.score }
    | none => acc
  else
    { acc with unmatchedConcepts := acc.unmatchedConcepts ++ [branch.concept_id] }

/-- `m.class` rendered for the reasoning path. -/
def MClass.str : MClass → String
  | .M1 => "M1" | .M2 => "M2" | .M3 => "M3" | .M4 => "M4" | .M5 => "M5"

/-- `s.toLowerCase().replace(/[^a-z0-9\s]/g, '')` of the keyword-rescue step. -/
def normalizeForSearch (s : String) : String :=
  ((myLower s).toList.filter (fun c =>
    ('a' ≤ c ∧ c ≤ 'z') ∨ c.isDigit ∨ c.isWhitespace)).asString

/-- `node.title || node.pathology` (JS truthiness: empty titles fall back). -/
def jsStrOr (o : Option String) (d : String) : String :=
  match o with
  | some t => if t = "" then d else t
  | none => d

/-- Stop words of the keyword-rescue bonus (lines 1033–1037). -/
def QUERY_STOP_WORDS : List String :=
  ["acute", "chronic", "syndrome", "disease", "disorder", "condition",
   "with", "from", "type", "left", "right", "mild", "severe",
   "primary", "secondary", "idiopathic", "recurrent", "management", "protocol"]

/-- Meaningful label tokens of a node for the keyword-rescue bonus. -/
def meaningfulTokens (targetLabel : String) : List String :=
  ((((splitChars Char.isWhitespace (normalizeForSearch targetLabel).toList).map
      List.asString).filter (fun t => t.length > 3)).filter
    (fun t => !QUERY_STOP_WORDS.contains t))

/-- Full convolution of one node against the observation map
(lines 952–1066). -/
def convolveNode (links : List SemanticLink) (store : SCRTStore)
    (elements : List ClinicalElement) (m : ObsMap)
    (observation : ClinicalObservationData) (node : SCRTNode) : SCRTInferenceResult :=
  let clinicalTree := node.clinique.symptomes ++ node.clinique.signes
  let acc := clinicalTree.foldl (convolveBranch links store elements m)
    { score := 0, activeModalities := [], activeConceptIds := []
      matchedConcepts := [], unmatchedConcepts := [] }
  -- Pivot bonus
  let pivotScore : ℚ :=
    qMul (qOfNat (node.clinique.modalites_pivots.filter (fun pivot =>
        strIncludes (myLower observation.reconstructedText) (myLower pivot))).length) 15
  -- Syndrome bonus
  let activeSyndromes := store.syndromes.filter (fun syn =>
    node.syndromes.contains syn.id &&
      (syn.concept_ids.filter (fun cid => acc.activeConceptIds.contains cid)).length ≥ 1)
  let syndromeScore : ℚ := qMul (qOfNat activeSyndromes.length) 10
  -- Keyword-rescue bonus
  let userTextNorm := normalizeForSearch observation.reconstructedText
  let targetLabel := jsStrOr node.title node.pathology
  let matchedKeywords :=
    (meaningfulTokens targetLabel).filter (fun token => strIncludes userTextNorm token)
  let nameMatchScore : ℚ := qMul (qOfNat matchedKeywords.length) 5
  let score := qAdd (qAdd (qAdd acc.score pivotScore) syndromeScore) nameMatchScore
  let reasoningPath :=
    acc.activeModalities.map (fun mo => mo.mclass.str ++ ": " ++ mo.label) ++
      (if matchedKeywords.length > 0
       then ["Keyword Match: " ++ String.intercalate ", " matchedKeywords]
       else [])
  { node := node
    score := score
    activeModalities := acc.activeModalities
    activeSyndromes := activeSyndromes
    reasoningPath := reasoningPath
    matchedConcepts := acc.matchedConcepts
    unmatchedConcepts := acc.unmatchedConcepts
    obsKeys := obsMapKeys m }

/-- Stable descending insertion by score: an earlier element stays before
later elements of equal score (ES2019 stable `Array.prototype.sort`). -/
def insertResultDesc (x : SCRTInferenceResult) :
    List SCRTInferenceResult → List SCRTInferenceResult
  | [] => [x]
  | h :: t => if x.score ≥ h.score then x :: h :: t else h :: insertResultDesc x t

/-- Stable sort of results by descending score. -/
def sortResultsDesc : List SCRTInferenceResult → List SCRTInferenceResult
  | [] => []
  | a :: rest => insertResultDesc a (sortResultsDesc rest)

/-- The scored ("sorted") convolution results of a query, before graph
expansion (lines 948–1069). -/
def convResults (links : List SemanticLink) (store : SCRTStore)
    (grammar : ClinicalOntology) (observation : ClinicalObservationData) :
    List SCRTInferenceResult :=
  let m := buildObsMap links store grammar observation
  let candidateIds := searchMedicalIndex store (obsMapKeys m)
  sortResultsDesc (candidateIds.filterMap (fun nodeId =>
    (store.nodes.find? (fun n => n.node_id == nodeId)).map
      (convolveNode links store grammar.elements m observation)))

-- ---------------------------------------------------------------------------
-- Graph expansion (Step 4 of querySCRT, lines 1071–1133)
-- ---------------------------------------------------------------------------

/-- State of the expansion loop: the (live) scored list and the accumulated
linked-only results. -/
structure ExpandState where
  scored : List SCRTInferenceResult
  linked : List SCRTInferenceResult
deriving Repr

/-- In-place update of the first result matching a node id (the
`sorted.find(...)` alias mutation). -/
def updateFirstResult (p : SCRTInferenceResult → Bool)
    (f : SCRTInferenceResult → SCRTInferenceResult) :
    List SCRTInferenceResult → List SCRTInferenceResult
  | [] => []
  | r :: rest => if p r then f r :: rest else r :: updateFirstResult p f rest

/-- A linked-only result inherited through an edge or legacy link. -/
def mkLinkedResult (node : SCRTNode) (score : ℚ) (reason : String) :
    SCRTInferenceResult :=
  { node := node, score := score, activeModalities := [], activeSyndromes := []
    reasoningPath := [reason], matchedConcepts := [], unmatchedConcepts := []
    obsKeys := [] }

/-- Processing of one outbound graph edge of the top node at position `i`
(lines 1081–1109).  `res` is re-read from the live scored list, as the JS
object aliasing does. -/
def processEdge (store : SCRTStore) (i : Nat) (st : ExpandState) (edge : SCRTEdge) :
    ExpandState :=
  match st.scored.get? i with
  | none => st
  | some res =>
      match store.nodes.find? (fun n => n.node_id == edge.target_id) with
      | none => st
      | some linkedNode =>
          if st.scored.any (fun r => r.node.node_id == linkedNode.node_id) then
            let boost := fun (r : SCRTInferenceResult) =>
              { r with
                  score := max r.score res.score
                  reasoningPath :=
                    if r.reasoningPath.contains ("Boosted by " ++ res.node.pathology)
                    then r.reasoningPath
                    else r.reasoningPath ++
                      ["Boosted by " ++ res.node.pathology ++ " (" ++ edge.relation ++ ")"] }
            let scored' := updateFirstResult
              (fun r => r.node.node_id == linkedNode.node_id) boost st.scored
            { st with scored := scored' }
          else if st.linked.any (fun r => r.node.node_id == linkedNode.node_id) then st
          else
            { st with linked := st.linked ++
                [mkLinkedResult linkedNode res.score
                  ("Linked to " ++ res.node.pathology ++ " via edge (" ++ edge.relation ++ ")")] }

/-- Processing of one legacy node-level link of the top node at position `i`
(lines 1112–1130): only adds nodes not yet scored or linked; an
already-scored target is left untouched. -/
def processLink (store : SCRTStore) (i : Nat) (st : ExpandState) (link : SCRTNodeLink) :
    ExpandState :=
  match st.scored.get? i with
  | none => st
  | some res =>
      match store.nodes.find? (fun n => n.node_id == link.target_node_id) with
      | none => st
      | some linkedNode =>
          if st.scored.any (fun r => r.node.node_id == linkedNode.node_id) ||
              st.linked.any (fun r => r.node.node_id == linkedNode.node_id) then st
          else
            { st with linked := st.linked ++
                [mkLinkedResult linkedNode res.score
                  ("Linked to " ++ res.node.pathology ++ " (" ++ link.relation ++ ")")] }

/-- Expansion of the top node at position `i`: its graph edges, then its
legacy links. -/
def processTop (store : SCRTStore) (edges : List SCRTEdge) (st : ExpandState)
    (i : Nat) : ExpandState :=
  match st.scored.get? i with
  | none => st
  | some res0 =>
      let node := res0.node
      let relevantEdges := edges.filter (fun e => e.source_id == node.node_id)
      let st1 := relevantEdges.foldl (processEdge store i) st
      (node.links.getD []).foldl (processLink store i) st1

/-- The expansion of the top 5 scored nodes. -/
def expandResults (store : SCRTStore) (edges : List SCRTEdge)
    (sorted : List SCRTInferenceResult) : ExpandState :=
  (List.range (min 5 sorted.length)).foldl (processTop store edges)
    { scored := sorted, linked := [] }

/-- `querySCRT` (grammarService.ts lines 900–1146).  The implicit stores read
from `localStorage` (`scrt_get_store`, `getGrammar`, `getSemanticLinks`,
`scrt_get_edges`) are explicit parameters. -/
def querySCRT (links : List SemanticLink) (store : SCRTStore)
    (grammar : ClinicalOntology) (edges : List SCRTEdge)
    (observation : ClinicalObservationData) : List SCRTInferenceResult :=
  let sorted := convResults links store grammar observation
  let expanded := expandResults store edges sorted
  sortResultsDesc (expanded.scored ++ expanded.linked)

-- ===========================================================================
-- Ingestion (`scrt_store_ingestion_result` and helpers,
-- grammarService.ts lines 1148–1618)
-- ===========================================================================

/-- `q.trim().replace(',', '.')`: a string-pattern `replace` substitutes only
the FIRST occurrence. -/
def replaceFirstComma (s : String) : String :=
  let rec go : List Char → List Char
    | [] => []
    | c :: rest => if c = ',' then '.' :: rest else c :: go rest
  (go s.toList).asString

/-- Attempt of the regex `(<=|>=|<|>|=)\s*?(\d+(\.\d+)?)` at one position:
comparator (alternation order `<=`, `>=`, `<`, `>`, `=`), optional
whitespace, then an integer with optional decimal part. -/
def tryNumericCondAt (cs : List Char) : Option (LogicalOperator × ℚ) :=
  let opAndRest : Option (LogicalOperator × List Char) :=
    match cs with
    | '<' :: '=' :: r => some (.lte, r)
    | '>' :: '=' :: r => some (.gte, r)
    | '<' :: r => some (.lt, r)
    | '>' :: r => some (.gt, r)
    | '=' :: r => some (.eq, r)
    | _ => none
  match opAndRest with
  | none => none
  | some (op, r) =>
      let afterWs := r.dropWhile Char.isWhitespace
      let intDigits := afterWs.takeWhile Char.isDigit
      if intDigits.isEmpty then none
      else
        let afterInt := afterWs.drop intDigits.length
        let intVal : ℕ := decimalDigitsVal intDigits
        match afterInt with
        | '.' :: fracPart =>
            let fracDigits := fracPart.takeWhile Char.isDigit
            if fracDigits.isEmpty then some (op, mkRat intVal 1)
            else
              some (op, mkRat (intVal * 10 ^ fracDigits.length + decimalDigitsVal fracDigits)
                (10 ^ fracDigits.length))
        | _ => some (op, mkRat intVal 1)

/-- Leftmost regex match: try each position in turn. -/
def scanNumericCond : List Char → Option (LogicalOperator × ℚ)
  | [] => none
  | c :: rest =>
      match tryNumericCondAt (c :: rest) with
      | some r => some r
      | none => scanNumericCond rest

/-- `parseNumericCondition` (grammarService.ts lines 1151–1179). -/
def parseNumericCondition (q : String) : Option (LogicalOperator × ℚ) :=
  scanNumericCond (replaceFirstComma (myTrim q)).toList

/-- The modality built for one free-text qualifier during ingestion
(grammarService.ts lines 1429–1437): parsed numeric condition, or fallback to
literal equality against the qualifier string. -/
def mkQualifierModality (q : String) : SCRTModality :=
  match parseNumericCondition q with
  | some (op, v) =>
      { label := q, mclass := .M3, score := 8
        condition := { operator := op, threshold := .jnum v } }
  | none =>
      { label := q, mclass := .M3, score := 8
        condition := { operator := .eq, threshold := .jstr q } }

/-- The synthetic "Present" modality for elements without qualifiers
(line 1438). -/
def presentModality : SCRTModality :=
  { label := "Present", mclass := .M1, score := 4
    condition := { operator := .eq, threshold := .jbool true } }

/-- One extracted clinical element of an `ExtractionResult`. -/
structure ClinicalElementSpec where
  root_term : String
  type : ElementType
  characteristics : List String
  values : List String
  unit : Option String := none
deriving DecidableEq, Repr

/-- `MERGE_MAP` (grammarService.ts lines 1187–1199), in entry order. -/
def MERGE_MAP : List (String × String) :=
  [("palmar", "erythema"), ("spider", "angiomas"), ("shifting", "dullness"),
   ("collateral", "circulation"), ("foetor", "hepaticus"), ("fetor", "hepaticus"),
   ("pitting", "edema"), ("digital", "hippocratism"), ("neutrophil", "count"),
   ("white", "cell count"), ("testicular", "atrophy")]

/-- One `MERGE_MAP` entry of `cleanAndMergeExtractionResults`
(lines 1202–1237): merge an isolated adjective fragment into its head-noun
fragment and record a `partie_de` semantic link. -/
def mergeFragmentStep (now : Nat)
    (st : List ClinicalElementSpec × List SemanticLink) (pair : String × String) :
    List ClinicalElementSpec × List SemanticLink :=
  let (els, links) := st
  let (adj, noun) := pair
  match els.findIdx? (fun e => myLower e.root_term == adj),
      els.findIdx? (fun e =>
        myLower e.root_term == noun || strIncludes (myLower e.root_term) noun) with
  | some adjIdx, some nounIdx =>
      if adjIdx ≠ nounIdx then
        match els.get? adjIdx, els.get? nounIdx with
        | some adjEl, some nounEl =>
            let compoundTerm :=
              if strIncludes (myLower nounEl.root_term) adj then nounEl.root_term
              else capitalizeFirst adj ++ " " ++ myLower nounEl.root_term
            let nounEl' :=
              { nounEl with
                  root_term := compoundTerm
                  characteristics :=
                    jsSetDedup (nounEl.characteristics ++ adjEl.characteristics) }
            let links' := saveSemanticLink now
              { concept_source := adjEl.root_term
                relation := "partie_de"
                concept_cible := compoundTerm
                strength := some 1
                sources := some ["auto_merge_ingestion"] } links
            ((els.set nounIdx nounEl').eraseIdx adjIdx, links')
        | _, _ => st
      else st
  | _, _ => st

/-- `cleanAndMergeExtractionResults` (grammarService.ts lines 1182–1240). -/
def cleanAndMergeExtractionResults (now : Nat) (elements : List ClinicalElementSpec)
    (links : List SemanticLink) : List ClinicalElementSpec × List SemanticLink :=
  MERGE_MAP.foldl (mergeFragmentStep now) (elements, links)

/-- `s || d` on plain strings (JS truthiness). -/
def jsStrOrP (s d : String) : String := if s = "" then d else s

def NodeKind.str : NodeKind → String
  | .pathology => "pathology" | .syndrome => "syndrome" | .protocol => "protocol"
  | .guideline => "guideline" | .reference => "reference" | .rule => "rule"

/-- `generateNodeKey` (grammarService.ts lines 1243–1254). -/
def generateNodeKey (kind : Option NodeKind) (pathology : String)
    (title : Option String) : String :=
  let k := kind.getD .pathology
  if k = .pathology ∨ k = .syndrome then
    normKey k.str ++ ":" ++ normKey pathology
  else
    let label := jsStrOr title (jsStrOrP pathology "untitled")
    normKey k.str ++ ":" ++ normKey label

-- ---------------------------------------------------------------------------
-- Auto-linker (grammarService.ts lines 1256–1382)
-- ---------------------------------------------------------------------------

/-- `getConceptSet` (lines 1258–1264): concept ids of the node's clinical
trees, in insertion order without duplicates. -/
def getConceptSet (node : SCRTNode) : List String :=
  jsSetDedup ((node.clinique.symptomes ++ node.clinique.signes).map (·.concept_id))

/-- `TRIGGER_CONCEPTS` (lines 1273–1276). -/
def TRIGGER_CONCEPTS : List String :=
  ["scorpion", "sting", "envenomation", "venom", "toxin", "poisoning",
   "snake", "bite", "trauma", "alcohol", "gallstone"]

/-- One similarity match candidate of the auto-linker. -/
structure LinkMatch where
  otherId : String
  score : ℚ
  relation : String
deriving DecidableEq, Repr

/-- Similarity evaluation of `autoLinkNode`'s `forEach` for one other node
(lines 1290–1334). -/
def evalLinkMatch (node : SCRTNode) (other : SCRTNode) : Option LinkMatch :=
  if other.node_id = node.node_id then none
  else
    let nodeConcepts := getConceptSet node
    let nodeLabelNorm := normC node.pathology
    let otherLabelNorm := normC other.pathology
    let otherConcepts := getConceptSet other
    let intersection := nodeConcepts.filter (fun x => otherConcepts.contains x)
    let unionSize := (jsSetDedup (nodeConcepts ++ otherConcepts)).length
    let jaccard : ℚ :=
      if unionSize > 0 then qDiv (qOfNat intersection.length) (qOfNat unionSize) else 0
    let sharedTrigger := TRIGGER_CONCEPTS.find? (fun t =>
      strIncludes nodeLabelNorm t && strIncludes otherLabelNorm t)
    let isSubstring :=
      strIncludes nodeLabelNorm otherLabelNorm || strIncludes otherLabelNorm nodeLabelNorm
    let score := qAdd (qAdd jaccard (if sharedTrigger.isSome then mkRat 1 2 else 0))
      (if isSubstring then mkRat 4 5 else 0)
    let relation :=
      if isSubstring then
        if strIncludes nodeLabelNorm otherLabelNorm then "is_specific_of"
        else "is_generalization_of"
      else if sharedTrigger.isSome then "same_etiology_as"
      else "related_to"
    if score ≥ mkRat 1 4 || sharedTrigger.isSome || isSubstring then
      some { otherId := other.node_id, score := score, relation := relation }
    else none

/-- Stable descending insertion for link matches. -/
def insertMatchDesc (x : LinkMatch) : List LinkMatch → List LinkMatch
  | [] => [x]
  | h :: t => if x.score ≥ h.score then x :: h :: t else h :: insertMatchDesc x t

def sortMatchesDesc : List LinkMatch → List LinkMatch
  | [] => []
  | a :: rest => insertMatchDesc a (sortMatchesDesc rest)

/-- Relation inversion table of the auto-linker (lines 1356–1359). -/
def reverseRelationOf (relation : String) : String :=
  if relation = "is_specific_of" then "has_variant"
  else if relation = "is_generalization_of" then "is_specific_of"
  else if relation = "same_etiology_as" then "same_etiology_as"
  else "related_to"

/-- In-place update of the first node matching a predicate. -/
def updateFirstNode (p : SCRTNode → Bool) (f : SCRTNode → SCRTNode) :
    List SCRTNode → List SCRTNode
  | [] => []
  | n :: rest => if p n then f n :: rest else n :: updateFirstNode p f rest

/-- `node.links` mirror update: ensure the list exists and append the link if
no link to that target is present (any relation). -/
def addNodeLink (nodes : List SCRTNode) (id relation target : String) : List SCRTNode :=
  updateFirstNode (fun n => n.node_id == id)
    (fun n =>
      let ls := n.links.getD []
      let ls' := if ls.any (fun l => l.target_node_id == target) then ls
        else ls ++ [{ relation := relation, target_node_id := target }]
      { n with links := some ls' })
    nodes

/-- Application of one kept match (lines 1340–1379): forward and reverse
graph edges plus mirrored node-level links. -/
def applyLinkMatch (now : Nat) (nodeId : String)
    (st : SCRTStore × List SCRTEdge) (m : LinkMatch) : SCRTStore × List SCRTEdge :=
  let store := st.1
  let edges := st.2
  let edges1 := scrt_upsert_edge now
    { source_id := nodeId, relation := m.relation, target_id := m.otherId
      strength := some (min m.score 1), sources := some ["auto_link_ingestion"] } edges
  let reverseRel := reverseRelationOf m.relation
  let edges2 := scrt_upsert_edge now
    { source_id := m.otherId, relation := reverseRel, target_id := nodeId
      strength := some (min m.score 1), sources := some ["auto_link_ingestion"] } edges1
  let nodes1 := addNodeLink store.nodes nodeId m.relation m.otherId
  let nodes2 := addNodeLink nodes1 m.otherId reverseRel nodeId
  ({ store with nodes := nodes2 }, edges2)

/-- `autoLinkNode` (grammarService.ts lines 1266–1382): similarity scores
against every other node, top 5 kept, edges and mirrored links created. -/
def autoLinkNode (now : Nat) (store : SCRTStore) (edges : List SCRTEdge)
    (nodeId : String) : SCRTStore × List SCRTEdge :=
  match store.nodes.find? (fun n => n.node_id == nodeId) with
  | none => (store, edges)
  | some node =>
      let ms := store.nodes.filterMap (evalLinkMatch node)
      let topMatches := (sortMatchesDesc ms).take 5
      topMatches.foldl (applyLinkMatch now nodeId) (store, edges)

-- ---------------------------------------------------------------------------
-- `scrt_store_ingestion_result` (grammarService.ts lines 1384–1618)
-- ---------------------------------------------------------------------------

/-- One entry of `ExtractionResult.links`. -/
structure LinkSpec where
  relation : String
  target_label : String
deriving DecidableEq, Repr

/-- One entry of `ExtractionResult.syndromes`. -/
structure SyndromeSpec where
  name : String
  description : String
  associated_signs : List String
deriving DecidableEq, Repr

/-- `taxonomy` of an `ExtractionResult`. -/
structure Taxonomy where
  discipline : String
  specialty : String
deriving DecidableEq, Repr

/-- `ExtractionResult` of types.ts. -/
structure ExtractionResult where
  pathology : String
  title : Option String := none
  applies_to : Option String := none
  links : Option (List LinkSpec) := none
  node_kind : Option NodeKind := none
  taxonomy : Taxonomy
  contexte : SCRTContext
  syndromes : List SyndromeSpec := []
  clinical_elements : List ClinicalElementSpec := []
  modalites_pivots : List String := []
deriving DecidableEq, Repr

/-- The whole persisted snapshot: grammar ontology, semantic links, SCRT
store and node-to-node edges (four `localStorage` keys in the source). -/
structure AppState where
  grammar : ClinicalOntology
  semLinks : List SemanticLink
  scrt : SCRTStore
  edges : List SCRTEdge

/-- `s.toUpperCase().replace(/\s+/g, '_')` for syndrome ids: whitespace runs
become single underscores (also at the ends, as the regex does). -/
def syndromeIdOf (name : String) : String :=
  let upper := myUpper name
  let rec go (lastWs : Bool) : List Char → List Char
    | [] => []
    | c :: rest =>
        if c.isWhitespace then
          if lastWs then go true rest else '_' :: go true rest
        else c :: go false rest
  "SYN_" ++ (go false upper.toList).asString

/-- Concept-and-grammar processing of one cleaned clinical element
(lines 1393–1442): admission gate, concept upsert, concept-tree item. -/
def ingestElementStep (now : Nat) (semLinks : List SemanticLink)
    (st : ClinicalOntology × SCRTStore × List (SCRTConceptTree × ElementType))
    (item : ClinicalElementSpec) :
    ClinicalOntology × SCRTStore × List (SCRTConceptTree × ElementType) :=
  let grammar := st.1
  let store := st.2.1
  let features := st.2.2
  let av := addValidatedElement now
    { id := none
      name := some item.root_term
      type := some item.type
      mode_description := some
        { type := if item.unit.isSome then .numeric else .options
          unit := item.unit
          options := some (item.characteristics ++ item.values) } } grammar
  let validatedEl := av.1
  let grammar' := av.2
  if myStartsWith validatedEl.id TEMP_REJECT_PREFIX then
    (grammar', store, features)
  else
    let uc := scrt_upsert_concept now semLinks store
      { label := item.root_term, type := item.type, unit := item.unit }
    let conceptId := uc.1
    let store' := uc.2
    let allQualifiers := item.characteristics ++ item.values
    let treeItem : SCRTConceptTree :=
      { concept_id := conceptId
        characteristics := item.characteristics
        modalities :=
          if allQualifiers.length > 0 then allQualifiers.map mkQualifierModality
          else [presentModality] }
    (grammar', store', features ++ [(treeItem, item.type)])

/-- Syndrome upsert of one extracted syndrome (lines 1449–1472). -/
def ingestSyndromeStep (semLinks : List SemanticLink)
    (st : SCRTStore × List String) (syn : SyndromeSpec) : SCRTStore × List String :=
  let store := st.1
  let ids := st.2
  let synId := syndromeIdOf syn.name
  let linkedConcepts := syn.associated_signs.filterMap
    (fun signLabel => resolveToConceptId semLinks store signLabel)
  let newSyn : SCRTSyndrome :=
    { id := synId, label := syn.name, description := syn.description
      concept_ids := linkedConcepts }
  let syndromes' :=
    match store.syndromes.findIdx? (fun s => s.id = synId) with
    | some i => store.syndromes.set i newSyn
    | none => store.syndromes ++ [newSyn]
  ({ store with syndromes := syndromes' }, ids ++ [synId])

/-- The node-matching predicate of the ingestion upsert (lines 1478–1496):
exact `node_key` match, else same kind and same normalized label. -/
def nodeMatches (result : ExtractionResult) (nodeKey : String) (n : SCRTNode) : Bool :=
  (n.node_key.isSome && n.node_key == some nodeKey) ||
    (let nKind := n.node_kind.getD .pathology
     let resKind := result.node_kind.getD .pathology
     if nKind ≠ resKind then false
     else
       let nLabel := if nKind = .pathology ∨ nKind = .syndrome then n.pathology
         else jsStrOr n.title n.pathology
       let resLabel := if resKind = .pathology ∨ resKind = .syndrome then result.pathology
         else jsStrOr result.title result.pathology
       normC nLabel == normC resLabel)

/-- `applies_to || links.find(applies_to)?.target_label` (lines 1523–1527). -/
def extractAppliesTarget (result : ExtractionResult) : Option String :=
  match result.applies_to with
  | some t => some t
  | none =>
      match result.links with
      | none => none
      | some ls => (ls.find? (fun l => l.relation == "applies_to")).map (·.target_label)

/-- The target-node search predicate of the applies_to step (lines 1537–1542). -/
def appliesTargetMatches (targetKey targetName resolvedTargetName : String)
    (n : SCRTNode) : Bool :=
  n.node_key == some targetKey ||
    normC n.pathology == normC targetName ||
    (n.title.isSome && normC (n.title.getD "") == normC targetName) ||
    normC n.pathology == normC resolvedTargetName

/-- The auto-generated placeholder condition node (lines 1546–1567). -/
def placeholderTarget (now : Nat) (result : ExtractionResult)
    (targetKey targetName : String) : SCRTNode :=
  { node_id := "NODE_PATH_" ++ toString now ++ "_AUTO"
    node_key := some targetKey
    pathology := targetName
    node_kind := some .pathology
    discipline := result.taxonomy.discipline
    specialty := result.taxonomy.specialty
    contexte :=
      { definition := "Auto-generated placeholder for guideline target."
        epidemiologie := {}
        lesionnel := { typical_sites := [], red_flags := [], anatomical_context := "" }
        examens_preuves := []
        prise_en_charge := { medicale := [], chirurgicale := [], surveillance := [] }
        commentaire_pedagogique := [] }
    clinique := { symptomes := [], signes := [], modalites_pivots := [] }
    syndromes := []
    last_updated := now
    links := some []
    tree := []
    clinical_forms := [] }

/-- The applies_to handling (lines 1530–1602): resolve or create the target
condition node, then write reciprocal links and edges.  Returns the updated
source node data, nodes list and edge store. -/
def handleAppliesTo (now : Nat) (semLinks : List SemanticLink)
    (result : ExtractionResult) (newNodeData : SCRTNode) (nodes : List SCRTNode)
    (edges : List SCRTEdge) (targetName : String) :
    SCRTNode × List SCRTNode × List SCRTEdge :=
  let targetKey := generateNodeKey (some .pathology) targetName none
  let resolvedTargetName := resolveLabelSemantics semLinks targetName
  let pred := appliesTargetMatches targetKey targetName resolvedTargetName
  let (targetId, nodes1) :=
    match nodes.find? pred with
    | some targetNode => (targetNode.node_id, nodes)
    | none =>
        let newTarget := placeholderTarget now result targetKey targetName
        (newTarget.node_id, nodes ++ [newTarget])
  -- forward link on the source node being built
  let srcLinks := newNodeData.links.getD []
  let srcLinks' :=
    if srcLinks.any (fun l => l.target_node_id == targetId && l.relation == "applies_to")
    then srcLinks else srcLinks ++ [{ relation := "applies_to", target_node_id := targetId }]
  let newNodeData' := { newNodeData with links := some srcLinks' }
  -- reverse link on the target node (first node satisfying the search)
  let reverseRel := if result.node_kind = some NodeKind.syndrome then "has_syndrome"
    else "has_protocol"
  let nodes2 := updateFirstNode pred
    (fun t =>
      let tls := t.links.getD []
      let tls' :=
        if tls.any (fun l =>
            l.target_node_id == newNodeData'.node_id && l.relation == reverseRel)
        then tls else tls ++ [{ relation := reverseRel, target_node_id := newNodeData'.node_id }]
      { t with links := some tls' })
    nodes1
  let edges1 := scrt_upsert_edge now
    { source_id := newNodeData'.node_id, relation := "applies_to", target_id := targetId
      strength := some 1, sources := some ["ingestion_auto_link"] } edges
  let edges2 := scrt_upsert_edge now
    { source_id := targetId, relation := reverseRel, target_id := newNodeData'.node_id
      strength := some 1, sources := some ["ingestion_auto_link_reverse"] } edges1
  (newNodeData', nodes2, edges2)

/-- `scrt_store_ingestion_result` (grammarService.ts lines 1384–1618). -/
def scrt_store_ingestion_result (now : Nat) (result : ExtractionResult)
    (st : AppState) : AppState :=
  -- STEP 2: fragment auto-merge (also records `partie_de` semantic links)
  let cm := cleanAndMergeExtractionResults now result.clinical_elements st.semLinks
  let cleanedElements := cm.1
  let semLinks1 := cm.2
  -- 1. concepts: admission gate, concept store upsert, tree items
  let ing := cleanedElements.foldl (ingestElementStep now semLinks1) (st.grammar, st.scrt, [])
  let grammar1 := ing.1
  let store1 := ing.2.1
  let features := ing.2.2
  -- STEP 3: learning-loop consolidation
  let grammar2 := consolidateTemporaryMemory now grammar1
  -- 2. syndromes
  let sy := result.syndromes.foldl (ingestSyndromeStep semLinks1) (store1, [])
  let store2 := sy.1
  let syndromeIds := sy.2
  -- 3. node upsert
  let nodeKey := generateNodeKey result.node_kind result.pathology result.title
  let existingIdx := store2.nodes.findIdx? (nodeMatches result nodeKey)
  let existingNode := existingIdx.bind (fun i => store2.nodes.get? i)
  let newNodeData : SCRTNode :=
    { node_id :=
        match existingNode with
        | some n => n.node_id
        | none =>
            "NODE_" ++ myUpper ((result.node_kind.map (·.str)).getD "path") ++ "_" ++
              toString now
      node_key := some nodeKey
      pathology := jsStrOr result.title result.pathology
      title := result.title
      node_kind := some (result.node_kind.getD .pathology)
      discipline := result.taxonomy.discipline
      specialty := result.taxonomy.specialty
      contexte := result.contexte
      clinique :=
        { symptomes := (features.filter (fun f =>
            f.2 = .symptome ∨ f.2 = .antecedent)).map (·.1)
          signes := (features.filter (fun f =>
            ¬(f.2 = .symptome ∨ f.2 = .antecedent))).map (·.1)
          modalites_pivots := result.modalites_pivots }
      syndromes := syndromeIds
      description := some result.contexte.definition
      tree := features.map (·.1)
      clinical_forms := []
      last_updated := now
      links := some ((existingNode.bind (·.links)).getD []) }
  -- 4. applies_to handling (may push a placeholder target node)
  let afterApplies :=
    match extractAppliesTarget result with
    | some targetName =>
        handleAppliesTo now semLinks1 result newNodeData store2.nodes st.edges targetName
    | none => (newNodeData, store2.nodes, st.edges)
  let newNodeData1 := afterApplies.1
  let nodes1 := afterApplies.2.1
  let edges1 := afterApplies.2.2
  -- upsert the node (the index was computed before the placeholder push,
  -- which only appends, so positions are stable)
  let nodes2 :=
    match existingIdx with
    | some i => nodes1.set i newNodeData1
    | none => nodes1 ++ [newNodeData1]
  let store3 := { store2 with nodes := nodes2 }
  -- 6. auto-linking on the affected node
  let al := autoLinkNode now store3 edges1 newNodeData1.node_id
  let store4 := al.1
  let edges2 := al.2
  -- 5. rebuild the discipline/specialty index
  let store5 := rebuildMedicalIndex store4
  { grammar := grammar2, semLinks := semLinks1, scrt := store5, edges := edges2 }

-- ===========================================================================
-- Theorems
-- ===========================================================================

-- ---------------------------------------------------------------------------
-- C8: termination and cycle behaviour of transitive resolution
-- ---------------------------------------------------------------------------

/-- The resolution loop never takes more hops than its fuel. -/
theorem resolveLabelSemanticsAux_hops_le (links : List SemanticLink) :
    ∀ (fuel : Nat) (visited : List String) (current : String),
      (resolveLabelSemanticsAux links fuel visited current).2 ≤ fuel := by
  intro fuel
  induction fuel with
  | zero => intro visited current; simp [resolveLabelSemanticsAux]
  | succ n ih =>
      intro visited current
      simp only [resolveLabelSemanticsAux]
      cases h : firstOutgoingLink links current with
      | none => simp
      | some link =>
          simp only []
          split
          · simp
          · have := ih (normNC link.concept_cible :: visited) (normNC link.concept_cible)
            simp only []
            omega

/-- The two-link cycle of the spec's termination test. -/
def cycleLinksC8 : List SemanticLink :=
  [{ concept_source := "A", relation := "synonyme_de", concept_cible := "B" },
   { concept_source := "B", relation := "synonyme_de", concept_cible := "A" }]

/-- C8: for every semantic-link store and label, `resolveLabelSemantics`
takes at most `maxHops = 6` hops (it is total by construction, so it never
loops forever); on the cycle `A synonym_of B, B synonym_of A` it detects the
revisit and returns the label reached so far (`"b"`), not an error. -/
theorem resolveLabel_terminates_within_maxHops :
    (∀ (links : List SemanticLink) (label : String),
        resolveLabelSemanticsHops links label ≤ 6) ∧
    resolveLabelSemantics cycleLinksC8 "A" = "b" := by
  refine ⟨fun links label => ?_, by decide⟩
  exact resolveLabelSemanticsAux_hops_le links 6 [normNC label] (normNC label)

-- ---------------------------------------------------------------------------
-- C1: which link is followed at each hop
-- ---------------------------------------------------------------------------

/-- A store with two outgoing synonym links from `a`: the first (in store
order) has strength 1, the second strength 5. -/
def demoLinksC1 : List SemanticLink :=
  [{ concept_source := "a", relation := "synonyme_de", concept_cible := "b",
     strength := some 1 },
   { concept_source := "a", relation := "synonyme_de", concept_cible := "c",
     strength := some 5 }]

/-- C1 counterexample: `resolveLabelSemantics` does NOT pick the
highest-strength link — it follows the first matching link in store order
(`links.find`), reaching `b` (strength 1), while `resolveConcept` on the same
store follows the strength-5 link to `c`.  Since the two functions disagree,
the claim that every one of them follows the highest-strength edge at every
hop is false. -/
theorem resolveLabelSemantics_ignores_strength :
    resolveLabelSemantics demoLinksC1 "a" = "b" ∧
    resolveConcept demoLinksC1 "a" = "c" ∧
    ("b" : String) ≠ "c" := by
  refine ⟨by decide, by decide, by decide⟩

/-- The lexicographic `(strength || 1, count_seen || 1)` preference order. -/
def linkLE (c b : SemanticLink) : Prop :=
  jsOr1 c.strength < jsOr1 b.strength ∨
    (jsOr1 c.strength = jsOr1 b.strength ∧ jsOr1N c.count_seen ≤ jsOr1N b.count_seen)

/-- `linkLE` is transitive. -/
theorem linkLE_trans {a b c : SemanticLink} (hab : linkLE a b) (hbc : linkLE b c) :
    linkLE a c := by
  rcases hab with h₁ | ⟨h₁, h₁'⟩ <;> rcases hbc with h₂ | ⟨h₂, h₂'⟩
  · exact Or.inl (h₁.trans h₂)
  · exact Or.inl (h₂ ▸ h₁)
  · exact Or.inl (h₁ ▸ h₂)
  · exact Or.inr ⟨h₁.trans h₂, h₁'.trans h₂'⟩

/-- A failed strict-preference test yields the (non-strict) reverse order. -/
theorem linkLE_of_not_strictlyStronger {c b : SemanticLink}
    (h : strictlyStronger c b = false) : linkLE c b := by
  by_cases h1 : jsOr1 c.strength < jsOr1 b.strength
  · exact Or.inl h1
  · have hgt : ¬ jsOr1 b.strength < jsOr1 c.strength := by
      intro hlt
      have : strictlyStronger c b = true := by
        simp [strictlyStronger, hlt]
      simp [this] at h
    have heq : jsOr1 c.strength = jsOr1 b.strength :=
      le_antisymm (not_lt.mp hgt) (not_lt.mp h1)
    refine Or.inr ⟨heq, ?_⟩
    by_contra hn
    have hlt : jsOr1N b.count_seen < jsOr1N c.count_seen := Nat.not_le.mp hn
    have : strictlyStronger c b = true := by
      simp [strictlyStronger, heq, hlt]
    simp [this] at h

/-- A successful strict-preference test yields the reverse order. -/
theorem linkLE_of_strictlyStronger {c b : SemanticLink}
    (h : strictlyStronger c b = true) : linkLE b c := by
  simp only [strictlyStronger, Bool.or_eq_true, Bool.and_eq_true,
    decide_eq_true_eq, beq_iff_eq] at h
  rcases h with h | ⟨h₁, h₂⟩
  · exact Or.inl h
  · exact Or.inr ⟨h₁.symm, le_of_lt h₂⟩

/-- `chooseBest` of a nonempty list is never `none`. -/
theorem chooseBest_cons_ne_none (x : SemanticLink) (xs : List SemanticLink) :
    chooseBest (x :: xs) ≠ none := by
  simp only [chooseBest]
  cases hxs : chooseBest xs with
  | none => simp
  | some b => by_cases h : strictlyStronger b x = true <;> simp [h]

/-- `chooseBest` returns a member of its input. -/
theorem chooseBest_mem : ∀ (cands : List SemanticLink) (b : SemanticLink),
    chooseBest cands = some b → b ∈ cands := by
  intro cands
  induction cands with
  | nil => intro b h; simp [chooseBest] at h
  | cons c rest ih =>
      intro b h
      simp only [chooseBest] at h
      cases hr : chooseBest rest with
      | none => rw [hr] at h; simp at h; simp [h]
      | some b' =>
          rw [hr] at h
          by_cases hs : strictlyStronger b' c = true
          · simp [hs] at h; subst h
            exact List.mem_cons_of_mem _ (ih _ hr)
          · simp only [Bool.not_eq_true] at hs
            simp [hs] at h; subst h
            exact List.mem_cons_self _ _

/-- `chooseBest` returns a lexicographic maximum of
`(strength || 1, count_seen || 1)` over its input. -/
theorem chooseBest_maximal : ∀ (cands : List SemanticLink) (b : SemanticLink),
    chooseBest cands = some b → ∀ c ∈ cands, linkLE c b := by
  intro cands
  induction cands with
  | nil => intro b h; simp [chooseBest] at h
  | cons a rest ih =>
      intro b h c hc
      simp only [chooseBest] at h
      cases hr : chooseBest rest with
      | none =>
          rw [hr] at h; simp at h; subst h
          cases rest with
          | nil =>
              rcases List.mem_cons.mp hc with rfl | h'
              · exact Or.inr ⟨rfl, le_refl _⟩
              · simp at h'
          | cons x xs => exact absurd hr (chooseBest_cons_ne_none x xs)
      | some b' =>
          rw [hr] at h
          by_cases hs : strictlyStronger b' a = true
          · simp [hs] at h; subst h
            rcases List.mem_cons.mp hc with rfl | hc'
            · exact linkLE_of_strictlyStronger hs
            · exact ih _ hr c hc'
          · simp only [Bool.not_eq_true] at hs
            simp [hs] at h; subst h
            rcases List.mem_cons.mp hc with rfl | hc'
            · exact Or.inr ⟨rfl, le_refl _⟩
            · exact linkLE_trans (ih _ hr c hc') (linkLE_of_not_strictlyStronger hs)

/-- C1 amended: at every hop, `resolveConcept` (which advances along
`chooseBest (candidateLinks links current)`) follows a link that is maximal
for strength, tie-broken by `count_seen`, among the outgoing
`synonyme_de`/`est_un` candidates; `resolveLabelSemantics`, by contrast,
follows the first matching link in store order
(`resolveLabelSemantics_ignores_strength`). -/
theorem resolveConcept_follows_strongest_link :
    ∀ (links : List SemanticLink) (currentNorm : String) (b : SemanticLink),
      chooseBest (candidateLinks links currentNorm) = some b →
      b ∈ candidateLinks links currentNorm ∧
        ∀ c ∈ candidateLinks links currentNorm, linkLE c b :=
  fun _ _ b h => ⟨chooseBest_mem _ b h, chooseBest_maximal _ b h⟩

/-- The strength-5 link of `demoLinksC1`. -/
def bestLinkC1 : SemanticLink :=
  { concept_source := "a", relation := "synonyme_de", concept_cible := "c",
    strength := some 5 }

/-- Witness for `resolveConcept_follows_strongest_link` at the concrete
two-candidate store `demoLinksC1`. -/
theorem resolveConcept_follows_strongest_link_witness :
    bestLinkC1 ∈ candidateLinks demoLinksC1 "a" ∧
      ∀ c ∈ candidateLinks demoLinksC1 "a", linkLE c bestLinkC1 :=
  resolveConcept_follows_strongest_link demoLinksC1 "a" bestLinkC1 (by decide)

-- ---------------------------------------------------------------------------
-- C3: reinforcement-not-duplication of semantic links and graph edges
-- ---------------------------------------------------------------------------

theorem jsOr1_some_of_ne {q : ℚ} (h : q ≠ 0) : jsOr1 (some q) = q := by
  simp [jsOr1, h]

theorem jsOr1N_some_of_ne {n : ℕ} (h : n ≠ 0) : jsOr1N (some n) = n := by
  simp [jsOr1N, h]

/-- `freshLink` keeps the key fields of its input. -/
theorem linkKeyMatches_freshLink (now : Nat) (p : SemanticLink) (sN rN tN : String) :
    linkKeyMatches sN rN tN (freshLink now p) = linkKeyMatches sN rN tN p := by
  simp [linkKeyMatches, freshLink]

/-- `reinforceLink` keeps the key fields of the stored link. -/
theorem linkKeyMatches_reinforceLink (now : Nat) (p m : SemanticLink) (sN rN tN : String) :
    linkKeyMatches sN rN tN (reinforceLink now p m) = linkKeyMatches sN rN tN m := by
  simp [linkKeyMatches, reinforceLink]

/-- With no key match in the store, the upsert appends a fresh record. -/
theorem upsertLinkList_no_match (now : Nat) (p : SemanticLink) (sN rN tN : String) :
    ∀ (ls : List SemanticLink), (∀ l ∈ ls, linkKeyMatches sN rN tN l = false) →
      upsertLinkList now p sN rN tN ls = ls ++ [freshLink now p] := by
  intro ls
  induction ls with
  | nil => intro _; simp [upsertLinkList]
  | cons l rest ih =>
      intro h
      have hl : linkKeyMatches sN rN tN l = false := h l (List.mem_cons_self _ _)
      simp only [upsertLinkList, hl, Bool.false_eq_true, if_false, List.cons_append,
        List.cons.injEq, true_and]
      exact ih (fun x hx => h x (List.mem_cons_of_mem _ hx))

/-- With exactly one trailing key match, the upsert reinforces it in place. -/
theorem upsertLinkList_single_match (now : Nat) (p : SemanticLink) (sN rN tN : String)
    (m : SemanticLink) (hm : linkKeyMatches sN rN tN m = true) :
    ∀ (ls0 : List SemanticLink), (∀ l ∈ ls0, linkKeyMatches sN rN tN l = false) →
      upsertLinkList now p sN rN tN (ls0 ++ [m]) = ls0 ++ [reinforceLink now p m] := by
  intro ls0
  induction ls0 with
  | nil => intro _; simp [upsertLinkList, hm]
  | cons l rest ih =>
      intro h
      have hl : linkKeyMatches sN rN tN l = false := h l (List.mem_cons_self _ _)
      simp only [List.cons_append, upsertLinkList, hl, Bool.false_eq_true, if_false,
        List.cons.injEq, true_and]
      exact ih (fun x hx => h x (List.mem_cons_of_mem _ hx))

/-- Fold invariant for repeated same-key semantic-link upserts: the store
stays `links0 ++ [single record]`, whose counters accumulate. -/
theorem saveSemanticLink_fold_invariant (sN rN tN : String)
    (hsN : sN ≠ "") (hrN : rN ≠ "") (htN : tN ≠ "") (hst : sN ≠ tN) :
    ∀ (calls : List (Nat × SemanticLink)),
      (∀ c ∈ calls, normC c.2.concept_source = sN ∧ normC c.2.relation = rN ∧
        normC c.2.concept_cible = tN) →
      (∀ c ∈ calls, 1 ≤ jsOr1 c.2.strength) →
      ∀ (links0 : List SemanticLink), (∀ l ∈ links0, linkKeyMatches sN rN tN l = false) →
      ∀ (L : SemanticLink) (k : ℕ) (σ : ℚ),
        linkKeyMatches sN rN tN L = true →
        L.count_seen = some k → 1 ≤ k →
        L.strength = some σ → 1 ≤ σ →
        ∃ L', calls.foldl (fun ls c => saveSemanticLink c.1 c.2 ls) (links0 ++ [L]) =
            links0 ++ [L'] ∧
          linkKeyMatches sN rN tN L' = true ∧
          L'.count_seen = some (k + calls.length) ∧
          L'.strength = some (σ + ((calls.map (fun c => jsOr1 c.2.strength)).sum)) := by
  intro calls
  induction calls with
  | nil =>
      intro _ _ links0 _ L k σ hL hk hk1 hσ hσ1
      exact ⟨L, by simp, hL, by simpa using hk, by simpa using hσ⟩
  | cons c cs ih =>
      intro hkeys hpos links0 h0 L k σ hL hk hk1 hσ hσ1
      obtain ⟨hcs, hcr, hct⟩ := hkeys c (List.mem_cons_self _ _)
      have hcpos := hpos c (List.mem_cons_self _ _)
      -- the first fold step reinforces L
      have hstep : saveSemanticLink c.1 c.2 (links0 ++ [L]) =
          links0 ++ [reinforceLink c.1 c.2 L] := by
        unfold saveSemanticLink
        rw [hcs, hcr, hct]
        simp only [hsN, hrN, htN, hst, if_false, Bool.or_self, Bool.false_or]
        simp only [decide_eq_true_eq, if_neg hsN, if_neg hst]
        exact upsertLinkList_single_match c.1 c.2 sN rN tN L hL links0 h0
      rw [List.foldl_cons, hstep]
      have hL' : linkKeyMatches sN rN tN (reinforceLink c.1 c.2 L) = true := by
        rw [linkKeyMatches_reinforceLink]; exact hL
      have hkcount : (reinforceLink c.1 c.2 L).count_seen = some (k + 1) := by
        simp [reinforceLink, hk, jsOr1N_some_of_ne (by omega : k ≠ 0)]
      have hkstr : (reinforceLink c.1 c.2 L).strength =
          some (σ + jsOr1 c.2.strength) := by
        simp [reinforceLink, hσ, jsOr1_some_of_ne (by linarith : σ ≠ 0), qAdd_eq]
      obtain ⟨L', hfold, hkey', hcount', hstr'⟩ :=
        ih (fun x hx => hkeys x (List.mem_cons_of_mem _ hx))
          (fun x hx => hpos x (List.mem_cons_of_mem _ hx))
          links0 h0 (reinforceLink c.1 c.2 L) (k + 1) (σ + jsOr1 c.2.strength)
          hL' hkcount (by omega) hkstr (by linarith)
      refine ⟨L', hfold, hkey', ?_, ?_⟩
      · rw [hcount']; simp [Nat.add_assoc, Nat.add_comm 1]
      · rw [hstr']; simp only [List.map_cons, List.sum_cons]; ring_nf

theorem edgeKey_freshEdge (now : Nat) (e : SCRTEdge) : edgeKey (freshEdge now e) = edgeKey e := by
  simp [edgeKey, freshEdge]

theorem edgeKey_reinforceEdge (now : Nat) (e x : SCRTEdge) :
    edgeKey (reinforceEdge now e x) = edgeKey x := by
  simp [edgeKey, reinforceEdge]

theorem upsertEdgeList_no_match (now : Nat) (e : SCRTEdge) :
    ∀ (es : List SCRTEdge), (∀ x ∈ es, edgeKey x ≠ edgeKey e) →
      upsertEdgeList now e es = es ++ [freshEdge now e] := by
  intro es
  induction es with
  | nil => intro _; simp [upsertEdgeList]
  | cons x rest ih =>
      intro h
      have hx : ¬ edgeKey x = edgeKey e := h x (List.mem_cons_self _ _)
      simp only [upsertEdgeList, hx, if_false, List.cons_append, List.cons.injEq, true_and]
      exact ih (fun y hy => h y (List.mem_cons_of_mem _ hy))

theorem upsertEdgeList_single_match (now : Nat) (e m : SCRTEdge)
    (hm : edgeKey m = edgeKey e) :
    ∀ (es0 : List SCRTEdge), (∀ x ∈ es0, edgeKey x ≠ edgeKey e) →
      upsertEdgeList now e (es0 ++ [m]) = es0 ++ [reinforceEdge now e m] := by
  intro es0
  induction es0 with
  | nil => intro _; simp [upsertEdgeList, hm]
  | cons x rest ih =>
      intro h
      have hx : ¬ edgeKey x = edgeKey e := h x (List.mem_cons_self _ _)
      simp only [List.cons_append, upsertEdgeList, hx, if_false, List.cons.injEq, true_and]
      exact ih (fun y hy => h y (List.mem_cons_of_mem _ hy))

/-- Fold invariant for repeated same-key edge upserts. -/
theorem scrt_upsert_edge_fold_invariant (K : String × String × String) :
    ∀ (ecalls : List (Nat × SCRTEdge)),
      (∀ c ∈ ecalls, edgeKey c.2 = K) →
      (∀ c ∈ ecalls, 1 ≤ jsOr1 c.2.strength) →
      ∀ (edges0 : List SCRTEdge), (∀ x ∈ edges0, edgeKey x ≠ K) →
      ∀ (E : SCRTEdge) (k : ℕ) (σ : ℚ),
        edgeKey E = K →
        E.count_seen = some k → 1 ≤ k →
        E.strength = some σ → 1 ≤ σ →
        ∃ E', ecalls.foldl (fun es c => scrt_upsert_edge c.1 c.2 es) (edges0 ++ [E]) =
            edges0 ++ [E'] ∧
          edgeKey E' = K ∧
          E'.count_seen = some (k + ecalls.length) ∧
          E'.strength = some (σ + ((ecalls.map (fun c => jsOr1 c.2.strength)).sum)) := by
  intro ecalls
  induction ecalls with
  | nil =>
      intro _ _ edges0 _ E k σ hE hk hk1 hσ hσ1
      exact ⟨E, by simp, hE, by simpa using hk, by simpa using hσ⟩
  | cons c cs ih =>
      intro hkeys hpos edges0 h0 E k σ hE hk hk1 hσ hσ1
      have hck := hkeys c (List.mem_cons_self _ _)
      have hcpos := hpos c (List.mem_cons_self _ _)
      have hstep : scrt_upsert_edge c.1 c.2 (edges0 ++ [E]) =
          edges0 ++ [reinforceEdge c.1 c.2 E] := by
        unfold scrt_upsert_edge
        exact upsertEdgeList_single_match c.1 c.2 E (by rw [hE, hck]) edges0
          (fun x hx h => h0 x hx (by rw [h, hck]))
      rw [List.foldl_cons, hstep]
      have hkcount : (reinforceEdge c.1 c.2 E).count_seen = some (k + 1) := by
        simp [reinforceEdge, hk, jsOr1N_some_of_ne (by omega : k ≠ 0)]
      have hkstr : (reinforceEdge c.1 c.2 E).strength = some (σ + jsOr1 c.2.strength) := by
        simp [reinforceEdge, hσ, jsOr1_some_of_ne (by linarith : σ ≠ 0), qAdd_eq]
      obtain ⟨E', hfold, hkey', hcount', hstr'⟩ :=
        ih (fun x hx => hkeys x (List.mem_cons_of_mem _ hx))
          (fun x hx => hpos x (List.mem_cons_of_mem _ hx))
          edges0 h0 (reinforceEdge c.1 c.2 E) (k + 1) (σ + jsOr1 c.2.strength)
          (by rw [edgeKey_reinforceEdge, hE]) hkcount (by omega) hkstr (by linarith)
      refine ⟨E', hfold, hkey', ?_, ?_⟩
      · rw [hcount']; simp [Nat.add_assoc, Nat.add_comm 1]
      · rw [hstr']; simp only [List.map_cons, List.sum_cons]; ring_nf

/-- C3 amended: upserting semantic links of one normalized key — nonempty,
non-self-loop, with per-call strengths ≥ 1 (the data-model invariant; 1 when
unspecified) — N times into a store without that key leaves exactly one
record, with `count_seen = N` and `strength` the sum of the per-call
strengths; and likewise for node-to-node graph edges (any key).  The original
claim fails only at degenerate semantic-link keys (see
`saveSemanticLink_self_loop_no_record`). -/
theorem link_and_edge_reinforcement :
    (∀ (calls : List (Nat × SemanticLink)) (sN rN tN : String)
        (links0 : List SemanticLink),
      calls ≠ [] →
      (∀ c ∈ calls, normC c.2.concept_source = sN ∧ normC c.2.relation = rN ∧
        normC c.2.concept_cible = tN) →
      (∀ c ∈ calls, 1 ≤ jsOr1 c.2.strength) →
      sN ≠ "" → rN ≠ "" → tN ≠ "" → sN ≠ tN →
      (∀ l ∈ links0, linkKeyMatches sN rN tN l = false) →
      ((calls.foldl (fun ls c => saveSemanticLink c.1 c.2 ls) links0).filter
          (linkKeyMatches sN rN tN)).length = 1 ∧
        ∀ l ∈ (calls.foldl (fun ls c => saveSemanticLink c.1 c.2 ls) links0).filter
            (linkKeyMatches sN rN tN),
          l.count_seen = some calls.length ∧
          l.strength = some ((calls.map (fun c => jsOr1 c.2.strength)).sum)) ∧
    (∀ (ecalls : List (Nat × SCRTEdge)) (K : String × String × String)
        (edges0 : List SCRTEdge),
      ecalls ≠ [] →
      (∀ c ∈ ecalls, edgeKey c.2 = K) →
      (∀ c ∈ ecalls, 1 ≤ jsOr1 c.2.strength) →
      (∀ x ∈ edges0, edgeKey x ≠ K) →
      ((ecalls.foldl (fun es c => scrt_upsert_edge c.1 c.2 es) edges0).filter
          (fun x => edgeKey x == K)).length = 1 ∧
        ∀ x ∈ (ecalls.foldl (fun es c => scrt_upsert_edge c.1 c.2 es) edges0).filter
            (fun x => edgeKey x == K),
          x.count_seen = some ecalls.length ∧
          x.strength = some ((ecalls.map (fun c => jsOr1 c.2.strength)).sum)) := by
  constructor
  · rintro (_ | ⟨c, cs⟩) sN rN tN links0 hne hkeys hpos hsN hrN htN hst h0
    · exact absurd rfl hne
    · obtain ⟨hcs, hcr, hct⟩ := hkeys c (List.mem_cons_self _ _)
      have hcpos := hpos c (List.mem_cons_self _ _)
      have hstep : saveSemanticLink c.1 c.2 links0 = links0 ++ [freshLink c.1 c.2] := by
        unfold saveSemanticLink
        rw [hcs, hcr, hct]
        simp only [hsN, hrN, htN, hst, if_false, decide_eq_true_eq, if_neg hsN, if_neg hst]
        exact upsertLinkList_no_match c.1 c.2 sN rN tN links0 h0
      have hfreshkey : linkKeyMatches sN rN tN (freshLink c.1 c.2) = true := by
        rw [linkKeyMatches_freshLink]
        simp [linkKeyMatches, hcs, hcr, hct]
      obtain ⟨L', hfold, hkey', hcount', hstr'⟩ :=
        saveSemanticLink_fold_invariant sN rN tN hsN hrN htN hst cs
          (fun x hx => hkeys x (List.mem_cons_of_mem _ hx))
          (fun x hx => hpos x (List.mem_cons_of_mem _ hx))
          links0 h0 (freshLink c.1 c.2) 1 (jsOr1 c.2.strength)
          hfreshkey (by simp [freshLink]) (le_refl _) (by simp [freshLink]) hcpos
      rw [List.foldl_cons, hstep, hfold]
      rw [List.filter_append]
      have h0' : links0.filter (linkKeyMatches sN rN tN) = [] :=
        List.filter_eq_nil_iff.mpr (fun l hl => by simp [h0 l hl])
      rw [h0']
      simp only [List.nil_append, List.filter, hkey', List.length_cons,
        List.length_nil, List.mem_cons]
      refine ⟨trivial, ?_⟩
      rintro l (rfl | h)
      · constructor
        · rw [hcount']; simp [Nat.add_comm]
        · rw [hstr']; simp only [List.map_cons, List.sum_cons]
      · simp at h
  · rintro (_ | ⟨c, cs⟩) K edges0 hne hkeys hpos h0
    · exact absurd rfl hne
    · have hck := hkeys c (List.mem_cons_self _ _)
      have hcpos := hpos c (List.mem_cons_self _ _)
      have hstep : scrt_upsert_edge c.1 c.2 edges0 = edges0 ++ [freshEdge c.1 c.2] := by
        unfold scrt_upsert_edge
        exact upsertEdgeList_no_match c.1 c.2 edges0
          (fun x hx h => h0 x hx (by rw [h, hck]))
      obtain ⟨E', hfold, hkey', hcount', hstr'⟩ :=
        scrt_upsert_edge_fold_invariant K cs
          (fun x hx => hkeys x (List.mem_cons_of_mem _ hx))
          (fun x hx => hpos x (List.mem_cons_of_mem _ hx))
          edges0 h0 (freshEdge c.1 c.2) 1 (jsOr1 c.2.strength)
          (by rw [edgeKey_freshEdge, hck]) (by simp [freshEdge]) (le_refl _)
          (by simp [freshEdge]) hcpos
      rw [List.foldl_cons, hstep, hfold]
      rw [List.filter_append]
      have h0' : edges0.filter (fun x => edgeKey x == K) = [] :=
        List.filter_eq_nil_iff.mpr (fun x hx => by simp [h0 x hx])
      rw [h0']
      simp only [List.nil_append, List.filter, hkey', beq_self_eq_true, List.length_cons,
        List.length_nil, List.mem_cons]
      refine ⟨trivial, ?_⟩
      rintro x (rfl | h)
      · constructor
        · rw [hcount']; simp [Nat.add_comm]
        · rw [hstr']; simp only [List.map_cons, List.sum_cons]
      · simp at h

/-- C3 counterexample: at a degenerate normalized key (source = target), the
semantic-link upsert rejects the write — upserting the link once (N = 1)
leaves ZERO stored records for the key, not exactly one with
`count_seen = 1` as the claim requires for every key. -/
theorem saveSemanticLink_self_loop_no_record :
    saveSemanticLink 0
      { concept_source := "anemia", relation := "synonyme_de",
        concept_cible := "anemia", strength := some 1 } [] = [] := by decide

/-- One-call witness input for `link_and_edge_reinforcement`. -/
def linkCallC3 : SemanticLink :=
  { concept_source := "a", relation := "synonyme_de", concept_cible := "b",
    strength := some 1 }

/-- One-call witness input for the edge half of `link_and_edge_reinforcement`. -/
def edgeCallC3 : SCRTEdge :=
  { source_id := "n1", relation := "related_to", target_id := "n2",
    strength := some 1 }

/-- Witness for `link_and_edge_reinforcement`: a single upsert of a fresh
link and a fresh edge each leave exactly one record with `count_seen = 1` and
`strength = 1`. -/
theorem link_and_edge_reinforcement_witness :
    ((([(0, linkCallC3)].foldl (fun ls c => saveSemanticLink c.1 c.2 ls) []).filter
        (linkKeyMatches "a" "synonyme_de" "b")).length = 1 ∧
      ∀ l ∈ ([(0, linkCallC3)].foldl (fun ls c => saveSemanticLink c.1 c.2 ls) []).filter
          (linkKeyMatches "a" "synonyme_de" "b"),
        l.count_seen = some 1 ∧ l.strength = some 1) ∧
    ((([(0, edgeCallC3)].foldl (fun es c => scrt_upsert_edge c.1 c.2 es) []).filter
        (fun x => edgeKey x == ("n1", "related_to", "n2"))).length = 1 ∧
      ∀ x ∈ ([(0, edgeCallC3)].foldl (fun es c => scrt_upsert_edge c.1 c.2 es) []).filter
          (fun x => edgeKey x == ("n1", "related_to", "n2")),
        x.count_seen = some 1 ∧ x.strength = some 1) := by
  constructor
  · have h := link_and_edge_reinforcement.1 [(0, linkCallC3)] "a" "synonyme_de" "b" []
      (by simp) (by decide) (by decide) (by decide) (by decide) (by decide) (by decide)
      (by simp)
    simpa using h
  · have h := link_and_edge_reinforcement.2 [(0, edgeCallC3)] ("n1", "related_to", "n2") []
      (by simp) (by decide) (by decide) (by simp)
    simpa using h

-- ---------------------------------------------------------------------------
-- C10: the edge store accepts self-loops; the semantic-link store refuses them
-- ---------------------------------------------------------------------------

/-- One edge upsert always adds exactly one to the total `count_seen` of the
records at its key (insert-or-reinforce). -/
theorem scrt_upsert_edge_count_sum (now : Nat) (e : SCRTEdge) :
    ∀ (edges : List SCRTEdge),
      (((scrt_upsert_edge now e edges).filter (fun x => edgeKey x == edgeKey e)).map
          (fun r => jsOr1N r.count_seen)).sum =
        ((edges.filter (fun x => edgeKey x == edgeKey e)).map
          (fun r => jsOr1N r.count_seen)).sum + 1 := by
  intro edges
  induction edges with
  | nil =>
      simp only [scrt_upsert_edge, upsertEdgeList, List.filter_cons, List.filter_nil,
        edgeKey_freshEdge, beq_self_eq_true, if_true, List.map_cons, List.map_nil,
        List.sum_cons, List.sum_nil]
      simp [freshEdge, jsOr1N]
  | cons x rest ih =>
      by_cases hx : edgeKey x = edgeKey e
      · simp only [scrt_upsert_edge, upsertEdgeList, hx, if_true]
        rw [List.filter_cons, List.filter_cons]
        simp only [edgeKey_reinforceEdge, hx, beq_self_eq_true, if_true]
        simp only [List.map_cons, List.sum_cons, reinforceEdge,
          jsOr1N_some_of_ne (Nat.succ_ne_zero _)]
        omega
      · simp only [scrt_upsert_edge, upsertEdgeList, hx, if_false]
        rw [List.filter_cons, List.filter_cons]
        have hxb : (edgeKey x == edgeKey e) = false := by simp [hx]
        simp only [hxb, Bool.false_eq_true, if_false]
        exact ih

/-- C10: the node-to-node edge upsert has no self-loop guard — for every edge
whose source and target ids coincide (even after normalization) it inserts a
self-loop record or reinforces the existing one (total `count_seen` at the
key always grows by one) — whereas `saveSemanticLink` refuses self-loops and
returns the store unchanged. -/
theorem scrt_upsert_edge_accepts_self_loops :
    (∀ (now : Nat) (e : SCRTEdge) (edges : List SCRTEdge),
      normC e.source_id = normC e.target_id →
      (((scrt_upsert_edge now e edges).filter (fun x => edgeKey x == edgeKey e)).map
          (fun r => jsOr1N r.count_seen)).sum =
        ((edges.filter (fun x => edgeKey x == edgeKey e)).map
          (fun r => jsOr1N r.count_seen)).sum + 1) ∧
    (∀ (now : Nat) (l : SemanticLink) (links : List SemanticLink),
      normC l.concept_source = normC l.concept_cible →
      saveSemanticLink now l links = links) := by
  constructor
  · intro now e edges _
    exact scrt_upsert_edge_count_sum now e edges
  · intro now l links h
    unfold saveSemanticLink
    by_cases h1 : normC l.concept_source = ""
    · simp [h1]
    · simp [h1, h]

/-- The concrete self-loop edge of the C10 witness. -/
def selfLoopEdgeC10 : SCRTEdge :=
  { source_id := "n1", relation := "related_to", target_id := "n1", strength := some 1 }

/-- The concrete self-loop semantic link of the C10 witness. -/
def selfLoopLinkC10 : SemanticLink :=
  { concept_source := "n1", relation := "related_to", concept_cible := "n1",
    strength := some 1 }

/-- Witness for `scrt_upsert_edge_accepts_self_loops`: a concrete self-loop
edge is inserted into an empty edge store, while the same-shaped semantic
link is refused. -/
theorem scrt_upsert_edge_accepts_self_loops_witness :
    ((((scrt_upsert_edge 0 selfLoopEdgeC10 []).filter
        (fun x => edgeKey x == edgeKey selfLoopEdgeC10)).map
          (fun r => jsOr1N r.count_seen)).sum =
      ((([] : List SCRTEdge).filter (fun x => edgeKey x == edgeKey selfLoopEdgeC10)).map
          (fun r => jsOr1N r.count_seen)).sum + 1) ∧
    saveSemanticLink 0 selfLoopLinkC10 [] = [] :=
  ⟨scrt_upsert_edge_accepts_self_loops.1 0 selfLoopEdgeC10 [] (by decide),
   scrt_upsert_edge_accepts_self_loops.2 0 selfLoopLinkC10 [] (by decide)⟩

-- ---------------------------------------------------------------------------
-- C6: type-directed presence evaluation
-- ---------------------------------------------------------------------------

/-- C6: presence is type-directed.  For every store, grammar-element list and
concept-tree branch: when the branch's concept resolves to the numeric type,
the value `0` counts as present; when it resolves to the boolean type, the
value `false` counts as absent (only strictly `true` is present); when it
resolves to the text type, the empty string counts as absent. -/
theorem presence_is_type_directed :
    ∀ (store : SCRTStore) (elements : List ClinicalElement) (branch : SCRTConceptTree),
      (presenceTypeOf store elements branch.concept_id (.jnum 0) = .numeric →
          isPresentByConcept store elements branch (.jnum 0) = true) ∧
      (presenceTypeOf store elements branch.concept_id (.jbool false) = .boolean →
          isPresentByConcept store elements branch (.jbool false) = false) ∧
      (presenceTypeOf store elements branch.concept_id (.jstr "") = .text →
          isPresentByConcept store elements branch (.jstr "") = false) := by
  intro store elements branch
  refine ⟨fun h => ?_, fun h => ?_, fun h => ?_⟩
  · simp [isPresentByConcept, h]
  · simp [isPresentByConcept, h]
  · simp [isPresentByConcept, h]

/-- A concept store fixing one concept of each widget type, for the C6
witness. -/
def presenceStoreC6 : SCRTStore :=
  { nodes := []
    syndromes := []
    concept_store :=
      { concepts :=
          [{ concept_id := "CPT_NUM", label := "Hb", type := .mesure, synonyms := []
             negatable := true, unit := some "g/dL"
             ui_config := { section_default := .parametres_vitaux, widget_type := .numeric } },
           { concept_id := "CPT_BOOL", label := "Fever", type := .symptome, synonyms := []
             negatable := true
             ui_config := { section_default := .symptome, widget_type := .boolean } },
           { concept_id := "CPT_TEXT", label := "Notes", type := .symptome, synonyms := []
             negatable := true
             ui_config := { section_default := .symptome, widget_type := .options } }] }
    index := { root := .mk "MEDICINE" "Medicine" [] [] } }

/-- Witness for `presence_is_type_directed` on `presenceStoreC6`: numeric
`0` present, boolean `false` absent, text `""` absent. -/
theorem presence_is_type_directed_witness :
    isPresentByConcept presenceStoreC6 []
      { concept_id := "CPT_NUM", characteristics := [], modalities := [] } (.jnum 0) = true ∧
    isPresentByConcept presenceStoreC6 []
      { concept_id := "CPT_BOOL", characteristics := [], modalities := [] } (.jbool false) = false ∧
    isPresentByConcept presenceStoreC6 []
      { concept_id := "CPT_TEXT", characteristics := [], modalities := [] } (.jstr "") = false :=
  ⟨(presence_is_type_directed presenceStoreC6 []
      { concept_id := "CPT_NUM", characteristics := [], modalities := [] }).1 (by decide),
   (presence_is_type_directed presenceStoreC6 []
      { concept_id := "CPT_BOOL", characteristics := [], modalities := [] }).2.1 (by decide),
   (presence_is_type_directed presenceStoreC6 []
      { concept_id := "CPT_TEXT", characteristics := [], modalities := [] }).2.2 (by decide)⟩

-- ---------------------------------------------------------------------------
-- C7: numeric-condition parsing of free-text qualifiers
-- ---------------------------------------------------------------------------

/-- Modelled from the spec: "locale decimal commas are normalized to dots
before parsing" — a variant of `parseNumericCondition` that replaces EVERY
comma by a dot, as the spec's wording describes.  The source's
`replace(',', '.')` replaces only the first comma. -/
def parseNumericConditionSpec (q : String) : Option (LogicalOperator × ℚ) :=
  scanNumericCond (((myTrim q).toList.map (fun c => if c = ',' then '.' else c)))

/-- C7 counterexample: on a qualifier with a comma before the decimal comma,
the source normalizes only the FIRST comma, so `"PLT 150, Hb < 9,5"` parses
to threshold `9` (the decimal comma survives and truncates the number),
while the spec-described normalization of all decimal commas yields `9.5`. -/
theorem parseNumericCondition_first_comma_only :
    parseNumericCondition "PLT 150, Hb < 9,5" = some (.lt, mkRat 9 1) ∧
    parseNumericConditionSpec "PLT 150, Hb < 9,5" = some (.lt, mkRat 19 2) ∧
    (mkRat 9 1 : ℚ) ≠ mkRat 19 2 := by
  refine ⟨by decide, by decide, by decide⟩

/-- C7 amended: modality construction parses a comparator
(`<, <=, >, >=, =` mapping to `lt, lte, gt, gte, eq`) optionally followed by
whitespace and a decimal number, with only the FIRST comma of the qualifier
normalized to a dot; `"Hb < 9 g/dL"` yields `{operator := lt, threshold :=
9}`; and whenever parsing fails the modality's condition falls back to
equality against the literal qualifier string instead of raising. -/
theorem parseNumericCondition_maps_comparators :
    parseNumericCondition "Hb < 9 g/dL" = some (.lt, mkRat 9 1) ∧
    mkQualifierModality "Hb < 9 g/dL" =
      { label := "Hb < 9 g/dL", mclass := .M3, score := 8
        condition := { operator := .lt, threshold := .jnum (mkRat 9 1) } } ∧
    parseNumericCondition "x <= 2" = some (.lte, mkRat 2 1) ∧
    parseNumericCondition ">= 3.5" = some (.gte, mkRat 7 2) ∧
    parseNumericCondition "> 1" = some (.gt, mkRat 1 1) ∧
    parseNumericCondition "= 4" = some (.eq, mkRat 4 1) ∧
    parseNumericCondition "Hb < 9,5" = some (.lt, mkRat 19 2) ∧
    (∀ q : String, parseNumericCondition q = none →
      mkQualifierModality q =
        { label := q, mclass := .M3, score := 8
          condition := { operator := .eq, threshold := .jstr q } }) := by
  refine ⟨by decide, by decide, by decide, by decide, by decide, by decide, by decide, ?_⟩
  intro q h
  simp [mkQualifierModality, h]

/-- Witness for `parseNumericCondition_maps_comparators` at the unparseable
qualifier `"positive"`: the fallback condition is literal equality. -/
theorem parseNumericCondition_maps_comparators_witness :
    mkQualifierModality "positive" =
      { label := "positive", mclass := .M3, score := 8
        condition := { operator := .eq, threshold := .jstr "positive" } } :=
  parseNumericCondition_maps_comparators.2.2.2.2.2.2.2 "positive" (by decide)

-- ---------------------------------------------------------------------------
-- Shared concrete fixtures
-- ---------------------------------------------------------------------------

/-- An empty `SCRTContext`, used by the concrete stores below. -/
def emptyContexte : SCRTContext :=
  { definition := ""
    epidemiologie := {}
    lesionnel := { typical_sites := [], red_flags := [], anatomical_context := "" }
    examens_preuves := []
    prise_en_charge := { medicale := [], chirurgicale := [], surveillance := [] }
    commentaire_pedagogique := [] }

/-- A boolean-widget concept for the concrete stores below. -/
def mkBoolConcept (cid lbl : String) : SCRTConcept :=
  { concept_id := cid, label := lbl, type := .symptome, synonyms := []
    negatable := true
    ui_config := { section_default := .symptome, widget_type := .boolean } }

/-- A node with one syndrome-free clinical tree, for the concrete stores
below. -/
def mkTestNode (id lbl : String) (signes : List SCRTConceptTree)
    (links : List SCRTNodeLink) : SCRTNode :=
  { node_id := id, pathology := lbl, discipline := "d", specialty := "s"
    contexte := emptyContexte
    clinique := { symptomes := [], signes := signes, modalites_pivots := [] }
    syndromes := [], last_updated := 0, tree := [], clinical_forms := []
    links := some links }

/-- A branch with a single `eq true` modality of the given score. -/
def mkBoolBranch (cid : String) (mscore : ℚ) : SCRTConceptTree :=
  { concept_id := cid, characteristics := []
    modalities := [{ label := "Present", mclass := .M1, score := mscore
                     condition := { operator := .eq, threshold := .jbool true } }] }

-- ---------------------------------------------------------------------------
-- C2: block list and whitelist behaviour of the admission flow
-- ---------------------------------------------------------------------------

set_option maxHeartbeats 2000000 in
/-- C2 counterexample: `"palmar"` is on the single-token block list, yet with
element type `mesure` the gate's measure exception (checked BEFORE the block
list) admits it: the admission flow ingests the element instead of
quarantining it, so a blocked label is not quarantined for every element
type. -/
theorem blocklisted_measure_admitted :
    BLOCK_SINGLE_TOKENS.contains "palmar" = true ∧
    isValidConceptLabel "palmar" .mesure = true ∧
    (addValidatedElement 0 { name := some "palmar", type := some .mesure }
        ⟨[], []⟩).2.temporary_memory = [] ∧
    ((addValidatedElement 0 { name := some "palmar", type := some .mesure }
        ⟨[], []⟩).2.elements.map (fun e => e.name)) = ["Palmar"] ∧
    myStartsWith (addValidatedElement 0 { name := some "palmar", type := some .mesure }
        ⟨[], []⟩).1.id TEMP_REJECT_PREFIX = false := by decide

set_option maxHeartbeats 4000000 in
/-- C2 amended: for every label on the single-token block list: if the label
is ALSO on the contextual-discard list (a check that runs before the
single-token measure exception), the admission flow quarantines it for EVERY
element type, `mesure` and `signe_paraclinique` included; otherwise it is
quarantined for every element type except `mesure`/`signe_paraclinique`, for
which the measure exception (checked before the block list) admits it.  Every
label on the standalone-clinical-entity whitelist is admitted for every
element type. -/
theorem gate_blocklist_contextual_measures_whitelist :
    (∀ lbl ∈ BLOCK_SINGLE_TOKENS, ∀ ty : ElementType,
      (lbl ∈ CONTEXTUAL_DISCARDS ∨ (ty ≠ .mesure ∧ ty ≠ .signe_paraclinique)) →
      isValidConceptLabel lbl ty = false ∧ shouldAutoApprove lbl ty = false ∧
      (addValidatedElement 0 { name := some lbl, type := some ty } ⟨[], []⟩).2.elements = [] ∧
      ((addValidatedElement 0 { name := some lbl, type := some ty }
          ⟨[], []⟩).2.temporary_memory.map (fun t => t.raw_label)) = [lbl] ∧
      myStartsWith (addValidatedElement 0 { name := some lbl, type := some ty }
          ⟨[], []⟩).1.id TEMP_REJECT_PREFIX = true) ∧
    (∀ lbl ∈ BLOCK_SINGLE_TOKENS, lbl ∉ CONTEXTUAL_DISCARDS →
      ∀ ty : ElementType, (ty = .mesure ∨ ty = .signe_paraclinique) →
      isValidConceptLabel lbl ty = true ∧
      ((addValidatedElement 0 { name := some lbl, type := some ty }
          ⟨[], []⟩).2.elements.map (fun e => normC e.name)) = [lbl] ∧
      (addValidatedElement 0 { name := some lbl, type := some ty }
          ⟨[], []⟩).2.temporary_memory = [] ∧
      myStartsWith (addValidatedElement 0 { name := some lbl, type := some ty }
          ⟨[], []⟩).1.id TEMP_REJECT_PREFIX = false) ∧
    (∀ lbl ∈ STANDALONE_CLINICAL_ENTITIES, ∀ ty : ElementType,
      isValidConceptLabel lbl ty = true ∧
      ((addValidatedElement 0 { name := some lbl, type := some ty }
          ⟨[], []⟩).2.elements.map (fun e => normC e.name)) = [lbl] ∧
      (addValidatedElement 0 { name := some lbl, type := some ty }
          ⟨[], []⟩).2.temporary_memory = [] ∧
      myStartsWith (addValidatedElement 0 { name := some lbl, type := some ty }
          ⟨[], []⟩).1.id TEMP_REJECT_PREFIX = false) := by
  refine ⟨?_, ?_, ?_⟩
  · decide
  · decide
  · decide

/-- Witness for `gate_blocklist_contextual_measures_whitelist`: `"palmar"` as
a symptom is quarantined; `"left"` (block list ∩ contextual discards) as a
measure is quarantined; `"spider"` (block list only) as a measure is
admitted; `"fever"` as an antecedent is admitted. -/
theorem gate_blocklist_whitelist_witness :
    (isValidConceptLabel "palmar" .symptome = false ∧
      shouldAutoApprove "palmar" .symptome = false ∧
      (addValidatedElement 0 { name := some "palmar", type := some .symptome }
          ⟨[], []⟩).2.elements = [] ∧
      ((addValidatedElement 0 { name := some "palmar", type := some .symptome }
          ⟨[], []⟩).2.temporary_memory.map (fun t => t.raw_label)) = ["palmar"] ∧
      myStartsWith (addValidatedElement 0 { name := some "palmar", type := some .symptome }
          ⟨[], []⟩).1.id TEMP_REJECT_PREFIX = true) ∧
    (isValidConceptLabel "left" .mesure = false ∧
      shouldAutoApprove "left" .mesure = false ∧
      (addValidatedElement 0 { name := some "left", type := some .mesure }
          ⟨[], []⟩).2.elements = [] ∧
      ((addValidatedElement 0 { name := some "left", type := some .mesure }
          ⟨[], []⟩).2.temporary_memory.map (fun t => t.raw_label)) = ["left"] ∧
      myStartsWith (addValidatedElement 0 { name := some "left", type := some .mesure }
          ⟨[], []⟩).1.id TEMP_REJECT_PREFIX = true) ∧
    (isValidConceptLabel "spider" .mesure = true ∧
      ((addValidatedElement 0 { name := some "spider", type := some .mesure }
          ⟨[], []⟩).2.elements.map (fun e => normC e.name)) = ["spider"] ∧
      (addValidatedElement 0 { name := some "spider", type := some .mesure }
          ⟨[], []⟩).2.temporary_memory = [] ∧
      myStartsWith (addValidatedElement 0 { name := some "spider", type := some .mesure }
          ⟨[], []⟩).1.id TEMP_REJECT_PREFIX = false) ∧
    (isValidConceptLabel "fever" .antecedent = true ∧
      ((addValidatedElement 0 { name := some "fever", type := some .antecedent }
          ⟨[], []⟩).2.elements.map (fun e => normC e.name)) = ["fever"] ∧
      (addValidatedElement 0 { name := some "fever", type := some .antecedent }
          ⟨[], []⟩).2.temporary_memory = [] ∧
      myStartsWith (addValidatedElement 0 { name := some "fever", type := some .antecedent }
          ⟨[], []⟩).1.id TEMP_REJECT_PREFIX = false) :=
  ⟨gate_blocklist_contextual_measures_whitelist.1 "palmar" (by decide) .symptome
      (by decide),
   gate_blocklist_contextual_measures_whitelist.1 "left" (by decide) .mesure
      (by decide),
   gate_blocklist_contextual_measures_whitelist.2.1 "spider" (by decide) (by decide)
      .mesure (by decide),
   gate_blocklist_contextual_measures_whitelist.2.2 "fever" (by decide) .antecedent⟩

-- ---------------------------------------------------------------------------
-- C4: monotonicity of scores under observation extension
-- ---------------------------------------------------------------------------

/-- Score of the result entry (first by node id) in a query result list. -/
def finalScoreOf (results : List SCRTInferenceResult) (nodeId : String) : Option ℚ :=
  (results.find? (fun r => r.node.node_id == nodeId)).map (·.score)

/-- C4 counterexample store: `S` (scored 20 through concept `CS`), `X`
(holding the unmatched branch `C0`, boosted by the edge `S → X`), and five
nodes `A1`–`A5` with high-score modalities on `C0`. -/
def storeC4 : SCRTStore :=
  { nodes :=
      [mkTestNode "S" "Sepsis" [mkBoolBranch "CS" 19] [],
       mkTestNode "X" "Xcondition"
         [{ concept_id := "C0", characteristics := [], modalities := [] }] [],
       mkTestNode "A1" "A1" [mkBoolBranch "C0" 25] [],
       mkTestNode "A2" "A2" [mkBoolBranch "C0" 25] [],
       mkTestNode "A3" "A3" [mkBoolBranch "C0" 25] [],
       mkTestNode "A4" "A4" [mkBoolBranch "C0" 25] [],
       mkTestNode "A5" "A5" [mkBoolBranch "C0" 25] []]
    syndromes := []
    concept_store := { concepts := [mkBoolConcept "CS" "Fever", mkBoolConcept "C0" "Crackles"] }
    index := { root := .mk "MEDICINE" "Medicine" [] [] } }

def edgesC4 : List SCRTEdge :=
  [{ source_id := "S", relation := "has_protocol", target_id := "X", strength := some 1 }]

def obs1C4 : ClinicalObservationData :=
  { values := [{ element_id := "CS", value := .jbool true }], reconstructedText := "" }

def obs2C4 : ClinicalObservationData :=
  { values := [{ element_id := "CS", value := .jbool true },
               { element_id := "C0", value := .jbool true }]
    reconstructedText := "" }

set_option maxHeartbeats 2000000 in
/-- C4 counterexample: extending the observation with the truthful value
`C0 = true` — which matches node `X`'s previously unmatched branch `C0` —
DROPS `X`'s final post-expansion score from 20 to 1: the added value lifts
`A1`–`A5` above `S` in the ranking, `S` falls out of the top 5, and `X`
loses the edge boost it previously inherited from `S`. -/
theorem querySCRT_score_not_monotone :
    obs2C4.values = obs1C4.values ++ [{ element_id := "C0", value := .jbool true }] ∧
    finalScoreOf (querySCRT [] storeC4 ⟨[], []⟩ edgesC4 obs1C4) "X" = some 20 ∧
    finalScoreOf (querySCRT [] storeC4 ⟨[], []⟩ edgesC4 obs2C4) "X" = some 1 ∧
    (∃ r ∈ convResults [] storeC4 ⟨[], []⟩ obs1C4,
      r.node.node_id = "X" ∧ r.unmatchedConcepts = ["C0"]) ∧
    (∃ r ∈ convResults [] storeC4 ⟨[], []⟩ obs2C4,
      r.node.node_id = "X" ∧ r.matchedConcepts = ["C0"]) ∧
    (1 : ℚ) < 20 := by decide

/-- Score contribution of one branch (presence point plus best triggered
modality), as added by `convolveBranch`. -/
def branchContribution (links : List SemanticLink) (store : SCRTStore)
    (elements : List ClinicalElement) (m : ObsMap) (branch : SCRTConceptTree) : ℚ :=
  let vNorm := normalizeObsValue (branchRawValue links elements m branch)
  if isPresentByConcept store elements branch vNorm then
    1 + (match chooseTopModality
        (branch.modalities.filter (fun mo => evaluateCondition mo.condition vNorm)) with
      | some t => t.score
      | none => 0)
  else 0

theorem convolveBranch_score (links : List SemanticLink) (store : SCRTStore)
    (elements : List ClinicalElement) (m : ObsMap) (acc : BranchAcc)
    (branch : SCRTConceptTree) :
    (convolveBranch links store elements m acc branch).score =
      acc.score + branchContribution links store elements m branch := by
  unfold convolveBranch branchContribution
  by_cases hp : isPresentByConcept store elements branch
      (normalizeObsValue (branchRawValue links elements m branch)) = true
  · simp only [hp, if_true]
    cases h : chooseTopModality
        (branch.modalities.filter (fun mo => evaluateCondition mo.condition
          (normalizeObsValue (branchRawValue links elements m branch)))) with
    | none => simp [h, qAdd_eq]
    | some t => simp [h, qAdd_eq]; ring
  · simp only [Bool.not_eq_true] at hp
    simp [hp]

theorem convolveBranch_ids (links : List SemanticLink) (store : SCRTStore)
    (elements : List ClinicalElement) (m : ObsMap) (acc : BranchAcc)
    (branch : SCRTConceptTree) (x : String) :
    x ∈ (convolveBranch links store elements m acc branch).activeConceptIds ↔
      (x ∈ acc.activeConceptIds ∨
        (isPresentByConcept store elements branch
            (normalizeObsValue (branchRawValue links elements m branch)) = true ∧
          x = branch.concept_id)) := by
  unfold convolveBranch
  by_cases hp : isPresentByConcept store elements branch
      (normalizeObsValue (branchRawValue links elements m branch)) = true
  · simp only [hp, if_true, true_and]
    cases h : chooseTopModality
        (branch.modalities.filter (fun mo => evaluateCondition mo.condition
          (normalizeObsValue (branchRawValue links elements m branch)))) with
    | none =>
        simp only [h]
        by_cases hc : acc.activeConceptIds.contains branch.concept_id
        · simp only [hc, if_true]
          constructor
          · exact Or.inl
          · rintro (hx | rfl)
            · exact hx
            · exact List.elem_iff.mp hc
        · simp only [hc, Bool.false_eq_true, if_false, List.mem_append,
            List.mem_singleton]
    | some t =>
        simp only [h]
        by_cases hc : acc.activeConceptIds.contains branch.concept_id
        · simp only [hc, if_true]
          constructor
          · exact Or.inl
          · rintro (hx | rfl)
            · exact hx
            · exact List.elem_iff.mp hc
        · simp only [hc, Bool.false_eq_true, if_false, List.mem_append,
            List.mem_singleton]
  · simp only [Bool.not_eq_true] at hp
    simp [hp]

theorem chooseTopModality_mem : ∀ (l : List SCRTModality) (t : SCRTModality),
    chooseTopModality l = some t → t ∈ l := by
  intro l
  induction l with
  | nil => intro t h; simp [chooseTopModality] at h
  | cons a rest ih =>
      intro t h
      simp only [chooseTopModality] at h
      cases hr : chooseTopModality rest with
      | none => rw [hr] at h; simp at h; simp [h]
      | some b =>
          rw [hr] at h
          by_cases hgt : b.score > a.score
          · simp [hgt] at h; subst h; exact List.mem_cons_of_mem _ (ih _ hr)
          · simp [hgt] at h; subst h; exact List.mem_cons_self _ _

/-- With nonnegative modality scores, every branch contribution is
nonnegative. -/
theorem branchContribution_nonneg (links : List SemanticLink) (store : SCRTStore)
    (elements : List ClinicalElement) (m : ObsMap) (branch : SCRTConceptTree)
    (hmod : ∀ mo ∈ branch.modalities, 0 ≤ mo.score) :
    0 ≤ branchContribution links store elements m branch := by
  unfold branchContribution
  by_cases hp : isPresentByConcept store elements branch
      (normalizeObsValue (branchRawValue links elements m branch)) = true
  · simp only [hp, if_true]
    cases h : chooseTopModality
        (branch.modalities.filter (fun mo => evaluateCondition mo.condition
          (normalizeObsValue (branchRawValue links elements m branch)))) with
    | none => norm_num
    | some t =>
        have ht := chooseTopModality_mem _ _ h
        have htmem : t ∈ branch.modalities := (List.mem_filter.mp ht).1
        have := hmod t htmem
        simp only [h]
        linarith
  · simp only [Bool.not_eq_true] at hp
    simp [hp]

theorem length_filter_mono {α : Type} (l : List α) (p q : α → Bool)
    (h : ∀ a ∈ l, p a = true → q a = true) :
    (l.filter p).length ≤ (l.filter q).length := by
  induction l with
  | nil => simp
  | cons a rest ih =>
      rw [List.filter_cons, List.filter_cons]
      have ih' := ih (fun x hx => h x (List.mem_cons_of_mem _ hx))
      by_cases hp : p a = true
      · rw [hp, h a (List.mem_cons_self _ _) hp]
        simpa using ih'
      · simp only [Bool.not_eq_true] at hp
        rw [hp]
        by_cases hq : q a = true
        · rw [hq]
          simp only [Bool.false_eq_true, if_false, if_true, List.length_cons]
          omega
        · simp only [Bool.not_eq_true] at hq
          rw [hq]
          simpa using ih'

/-- Monotonicity of the branch fold: if every branch either sees the same
raw value under both maps or is absent under the first, scores and active
concept sets only grow. -/
theorem convolveFold_mono (links : List SemanticLink) (store : SCRTStore)
    (elements : List ClinicalElement) (m m' : ObsMap) :
    ∀ (tree : List SCRTConceptTree) (accm accm' : BranchAcc),
      (∀ b ∈ tree,
        branchRawValue links elements m' b = branchRawValue links elements m b ∨
          isPresentByConcept store elements b
            (normalizeObsValue (branchRawValue links elements m b)) = false) →
      (∀ b ∈ tree, ∀ mo ∈ b.modalities, 0 ≤ mo.score) →
      accm.score ≤ accm'.score →
      (∀ x, x ∈ accm.activeConceptIds → x ∈ accm'.activeConceptIds) →
      (tree.foldl (convolveBranch links store elements m) accm).score ≤
          (tree.foldl (convolveBranch links store elements m') accm').score ∧
        ∀ x, x ∈ (tree.foldl (convolveBranch links store elements m) accm).activeConceptIds →
          x ∈ (tree.foldl (convolveBranch links store elements m') accm').activeConceptIds := by
  intro tree
  induction tree with
  | nil => intro accm accm' _ _ hs hids; exact ⟨hs, hids⟩
  | cons b rest ih =>
      intro accm accm' hb hmod hs hids
      simp only [List.foldl_cons]
      have hbhead := hb b (List.mem_cons_self _ _)
      have hmodhead := hmod b (List.mem_cons_self _ _)
      -- step inequality and id transfer for the head branch
      have hstep : (convolveBranch links store elements m accm b).score ≤
          (convolveBranch links store elements m' accm' b).score := by
        rw [convolveBranch_score, convolveBranch_score]
        rcases hbhead with heq | habs
        · have : branchContribution links store elements m' b =
              branchContribution links store elements m b := by
            unfold branchContribution
            rw [heq]
          rw [this]
          linarith
        · have h0 : branchContribution links store elements m b = 0 := by
            unfold branchContribution
            simp [habs]
          rw [h0]
          have := branchContribution_nonneg links store elements m' b hmodhead
          linarith
      have hidstep : ∀ x, x ∈ (convolveBranch links store elements m accm b).activeConceptIds →
          x ∈ (convolveBranch links store elements m' accm' b).activeConceptIds := by
        intro x hx
        rw [convolveBranch_ids] at hx ⊢
        rcases hx with hx | ⟨hpres, rfl⟩
        · exact Or.inl (hids x hx)
        · rcases hbhead with heq | habs
          · exact Or.inr ⟨by rw [heq]; exact hpres, rfl⟩
          · rw [habs] at hpres; exact absurd hpres (by simp)
      exact ih _ _ (fun x hx => hb x (List.mem_cons_of_mem _ hx))
        (fun x hx => hmod x (List.mem_cons_of_mem _ hx)) hstep hidstep

set_option maxHeartbeats 1000000 in
/-- C4 amended: the convolution (pre-expansion) score is monotone under
adding one observation value: if every other branch of the node's concept
tree looks up the same raw value, the target branch was previously absent,
and the node's modality scores are nonnegative (as ingestion produces), then
the node's convolution score cannot decrease.  The post-expansion final
score CAN decrease (`querySCRT_score_not_monotone`): the top-5 boost set
changes. -/
theorem convolution_score_monotone
    (links : List SemanticLink) (store : SCRTStore) (elements : List ClinicalElement)
    (m m' : ObsMap) (observation : ClinicalObservationData) (node : SCRTNode)
    (target : SCRTConceptTree)
    (hothers : ∀ b ∈ node.clinique.symptomes ++ node.clinique.signes, b ≠ target →
      branchRawValue links elements m' b = branchRawValue links elements m b)
    (habsent : isPresentByConcept store elements target
      (normalizeObsValue (branchRawValue links elements m target)) = false)
    (hmod : ∀ b ∈ node.clinique.symptomes ++ node.clinique.signes,
      ∀ mo ∈ b.modalities, 0 ≤ mo.score) :
    (convolveNode links store elements m observation node).score ≤
      (convolveNode links store elements m' observation node).score := by
  have hb : ∀ b ∈ node.clinique.symptomes ++ node.clinique.signes,
      branchRawValue links elements m' b = branchRawValue links elements m b ∨
        isPresentByConcept store elements b
          (normalizeObsValue (branchRawValue links elements m b)) = false := by
    intro b hbmem
    by_cases hbt : b = target
    · subst hbt; exact Or.inr habsent
    · exact Or.inl (hothers b hbmem hbt)
  obtain ⟨hscore, hids⟩ := convolveFold_mono links store elements m m'
    (node.clinique.symptomes ++ node.clinique.signes)
    { score := 0, activeModalities := [], activeConceptIds := []
      matchedConcepts := [], unmatchedConcepts := [] }
    { score := 0, activeModalities := [], activeConceptIds := []
      matchedConcepts := [], unmatchedConcepts := [] }
    hb hmod (le_refl _) (fun x hx => hx)
  unfold convolveNode
  simp only [qAdd_eq, qMul_eq, qOfNat_eq]
  have hsyn : (store.syndromes.filter (fun syn =>
        node.syndromes.contains syn.id &&
          (syn.concept_ids.filter (fun cid =>
            ((node.clinique.symptomes ++ node.clinique.signes).foldl
              (convolveBranch links store elements m)
              { score := 0, activeModalities := [], activeConceptIds := []
                matchedConcepts := [], unmatchedConcepts := [] }).activeConceptIds.contains
              cid)).length ≥ 1)).length ≤
      (store.syndromes.filter (fun syn =>
        node.syndromes.contains syn.id &&
          (syn.concept_ids.filter (fun cid =>
            ((node.clinique.symptomes ++ node.clinique.signes).foldl
              (convolveBranch links store elements m')
              { score := 0, activeModalities := [], activeConceptIds := []
                matchedConcepts := [], unmatchedConcepts := [] }).activeConceptIds.contains
              cid)).length ≥ 1)).length := by
    apply length_filter_mono
    intro syn _ hp
    simp only [Bool.and_eq_true, decide_eq_true_eq] at hp ⊢
    obtain ⟨hmem, hlen⟩ := hp
    refine ⟨hmem, ?_⟩
    have hpos : 0 < (syn.concept_ids.filter (fun cid =>
        ((node.clinique.symptomes ++ node.clinique.signes).foldl
          (convolveBranch links store elements m)
          { score := 0, activeModalities := [], activeConceptIds := []
            matchedConcepts := [], unmatchedConcepts := [] }).activeConceptIds.contains
          cid)).length := by omega
    obtain ⟨cid, hcid⟩ := List.exists_mem_of_length_pos hpos
    have ⟨hcmem, hcont⟩ := List.mem_filter.mp hcid
    have hcont' : cid ∈ ((node.clinique.symptomes ++ node.clinique.signes).foldl
        (convolveBranch links store elements m)
        { score := 0, activeModalities := [], activeConceptIds := []
          matchedConcepts := [], unmatchedConcepts := [] }).activeConceptIds :=
      List.elem_iff.mp hcont
    have hin' := hids cid hcont'
    have : cid ∈ (syn.concept_ids.filter (fun cid =>
        ((node.clinique.symptomes ++ node.clinique.signes).foldl
          (convolveBranch links store elements m')
          { score := 0, activeModalities := [], activeConceptIds := []
            matchedConcepts := [], unmatchedConcepts := [] }).activeConceptIds.contains
          cid)) :=
      List.mem_filter.mpr ⟨hcmem, List.elem_iff.mpr hin'⟩
    have := List.length_pos_of_mem this
    omega
  have hsynq : ((store.syndromes.filter (fun syn =>
        node.syndromes.contains syn.id &&
          (syn.concept_ids.filter (fun cid =>
            ((node.clinique.symptomes ++ node.clinique.signes).foldl
              (convolveBranch links store elements m)
              { score := 0, activeModalities := [], activeConceptIds := []
                matchedConcepts := [], unmatchedConcepts := [] }).activeConceptIds.contains
              cid)).length ≥ 1)).length : ℚ) ≤
      ((store.syndromes.filter (fun syn =>
        node.syndromes.contains syn.id &&
          (syn.concept_ids.filter (fun cid =>
            ((node.clinique.symptomes ++ node.clinique.signes).foldl
              (convolveBranch links store elements m')
              { score := 0, activeModalities := [], activeConceptIds := []
                matchedConcepts := [], unmatchedConcepts := [] }).activeConceptIds.contains
              cid)).length ≥ 1)).length : ℚ) := by
    exact_mod_cast hsyn
  linarith

/-- The target branch of the C4 witness. -/
def targetBranchC4 : SCRTConceptTree :=
  { concept_id := "C0", characteristics := [], modalities := [] }

/-- Witness for `convolution_score_monotone`: adding the observation value
`C0 = true` to an empty map cannot decrease the convolution score of the
node holding the unmatched branch `C0`. -/
theorem convolution_score_monotone_witness :
    (convolveNode [] storeC4 [] [] obs1C4
        (mkTestNode "X" "Xcondition" [targetBranchC4] [])).score ≤
      (convolveNode [] storeC4 [] [("C0", JSValue.jbool true)] obs1C4
        (mkTestNode "X" "Xcondition" [targetBranchC4] [])).score :=
  convolution_score_monotone [] storeC4 [] [] [("C0", JSValue.jbool true)] obs1C4
    (mkTestNode "X" "Xcondition" [targetBranchC4] []) targetBranchC4
    (by
      intro b hb hne
      simp [mkTestNode] at hb
      exact absurd hb hne)
    (by decide) (by decide)

-- ---------------------------------------------------------------------------
-- C5: graph expansion — boosting, never lowering, skipping missing nodes
-- ---------------------------------------------------------------------------

/-- Entrywise domination: same node, score not lower. -/
def DomR (a b : SCRTInferenceResult) : Prop := b.node = a.node ∧ a.score ≤ b.score

theorem DomR_refl (a : SCRTInferenceResult) : DomR a a := ⟨rfl, le_refl _⟩

theorem DomR_trans {a b c : SCRTInferenceResult} (h1 : DomR a b) (h2 : DomR b c) :
    DomR a c := ⟨h2.1.trans h1.1, h1.2.trans h2.2⟩

theorem forall2_domR_refl : ∀ (l : List SCRTInferenceResult), List.Forall₂ DomR l l := by
  intro l
  induction l with
  | nil => exact List.Forall₂.nil
  | cons a rest ih => exact List.Forall₂.cons (DomR_refl a) ih

theorem forall2_domR_trans :
    ∀ {l1 l2 l3 : List SCRTInferenceResult},
      List.Forall₂ DomR l1 l2 → List.Forall₂ DomR l2 l3 → List.Forall₂ DomR l1 l3 := by
  intro l1 l2 l3 h12
  induction h12 generalizing l3 with
  | nil => intro h; cases h; exact List.Forall₂.nil
  | cons hab _ ih =>
      intro h
      cases h with
      | cons hbc htail => exact List.Forall₂.cons (DomR_trans hab hbc) (ih htail)

theorem forall2_domR_get? :
    ∀ {l1 l2 : List SCRTInferenceResult}, List.Forall₂ DomR l1 l2 →
      ∀ {i : Nat} {a : SCRTInferenceResult}, l1.get? i = some a →
        ∃ b, l2.get? i = some b ∧ DomR a b := by
  intro l1 l2 h
  induction h with
  | nil => intro i a ha; simp at ha
  | cons hab htail ih =>
      intro i a ha
      cases i with
      | zero => simp at ha; subst ha; exact ⟨_, by simp, hab⟩
      | succ n =>
          simp only [List.get?_cons_succ] at ha ⊢
          exact ih ha

theorem forall2_domR_mem :
    ∀ {l1 l2 : List SCRTInferenceResult}, List.Forall₂ DomR l1 l2 →
      ∀ {a : SCRTInferenceResult}, a ∈ l1 → ∃ b ∈ l2, DomR a b := by
  intro l1 l2 h
  induction h with
  | nil => intro a ha; simp at ha
  | cons hab htail ih =>
      intro a ha
      rcases List.mem_cons.mp ha with rfl | ha'
      · exact ⟨_, List.mem_cons_self _ _, hab⟩
      · obtain ⟨b, hb, hd⟩ := ih ha'
        exact ⟨b, List.mem_cons_of_mem _ hb, hd⟩

theorem forall2_domR_updateFirst (p : SCRTInferenceResult → Bool)
    (f : SCRTInferenceResult → SCRTInferenceResult)
    (hf : ∀ r, DomR r (f r)) :
    ∀ (l : List SCRTInferenceResult), List.Forall₂ DomR l (updateFirstResult p f l) := by
  intro l
  induction l with
  | nil => exact List.Forall₂.nil
  | cons a rest ih =>
      simp only [updateFirstResult]
      by_cases hp : p a = true
      · rw [if_pos hp]
        exact List.Forall₂.cons (hf a) (forall2_domR_refl rest)
      · rw [if_neg hp]
        exact List.Forall₂.cons (DomR_refl a) ih

theorem mem_updateFirstResult (p : SCRTInferenceResult → Bool)
    (f : SCRTInferenceResult → SCRTInferenceResult) :
    ∀ (l : List SCRTInferenceResult) (r : SCRTInferenceResult),
      r ∈ updateFirstResult p f l → r ∈ l ∨ ∃ x ∈ l, r = f x := by
  intro l
  induction l with
  | nil => intro r h; simp [updateFirstResult] at h
  | cons a rest ih =>
      intro r h
      simp only [updateFirstResult] at h
      by_cases hp : p a = true
      · rw [if_pos hp] at h
        rcases List.mem_cons.mp h with rfl | h'
        · exact Or.inr ⟨a, List.mem_cons_self _ _, rfl⟩
        · exact Or.inl (List.mem_cons_of_mem _ h')
      · rw [if_neg hp] at h
        rcases List.mem_cons.mp h with rfl | h'
        · exact Or.inl (List.mem_cons_self _ _)
        · rcases ih r h' with h'' | ⟨x, hx, rfl⟩
          · exact Or.inl (List.mem_cons_of_mem _ h'')
          · exact Or.inr ⟨x, List.mem_cons_of_mem _ hx, rfl⟩

/-- First-match update: when some element satisfies the predicate, the
result contains the updated first match. -/
theorem updateFirstResult_hit (p : SCRTInferenceResult → Bool)
    (f : SCRTInferenceResult → SCRTInferenceResult) :
    ∀ (l : List SCRTInferenceResult), l.any p = true →
      ∃ x ∈ l, p x = true ∧ f x ∈ updateFirstResult p f l := by
  intro l
  induction l with
  | nil => intro h; simp at h
  | cons a rest ih =>
      intro h
      simp only [updateFirstResult]
      by_cases hp : p a = true
      · rw [if_pos hp]
        exact ⟨a, List.mem_cons_self _ _, hp, List.mem_cons_self _ _⟩
      · rw [if_neg hp]
        have h' : rest.any p = true := by
          simp only [List.any_cons, hp, Bool.false_or] at h
          exact h
        obtain ⟨x, hx, hpx, hfx⟩ := ih h'
        exact ⟨x, List.mem_cons_of_mem _ hx, hpx, List.mem_cons_of_mem _ hfx⟩

theorem mem_insertResultDesc (x r : SCRTInferenceResult) :
    ∀ (l : List SCRTInferenceResult), r ∈ insertResultDesc x l ↔ r = x ∨ r ∈ l := by
  intro l
  induction l with
  | nil => simp [insertResultDesc]
  | cons a rest ih =>
      simp only [insertResultDesc]
      by_cases h : x.score ≥ a.score
      · rw [if_pos h]; simp
      · rw [if_neg h]
        simp only [List.mem_cons, ih]
        tauto

theorem mem_sortResultsDesc (r : SCRTInferenceResult) :
    ∀ (l : List SCRTInferenceResult), r ∈ sortResultsDesc l ↔ r ∈ l := by
  intro l
  induction l with
  | nil => simp [sortResultsDesc]
  | cons a rest ih =>
      simp only [sortResultsDesc, mem_insertResultDesc, List.mem_cons, ih]

/-- Generic fold-preservation. -/
theorem foldl_preserves {σ ι : Type} (step : σ → ι → σ) (P : σ → Prop)
    (h : ∀ s y, P s → P (step s y)) :
    ∀ (l : List ι) (s : σ), P s → P (l.foldl step s) := by
  intro l
  induction l with
  | nil => intro s hs; exact hs
  | cons y t ih => intro s hs; exact ih _ (h s y hs)

/-- Generic fold-establishment: an element of the list establishes `Q` from
any `P`-state, and both `P` and `Q` are preserved. -/
theorem foldl_establishes {σ ι : Type} (step : σ → ι → σ) (P Q : σ → Prop) (x : ι)
    (hP : ∀ s y, P s → P (step s y))
    (hQ : ∀ s y, Q s → Q (step s y))
    (hEst : ∀ s, P s → Q (step s x)) :
    ∀ (l : List ι) (s : σ), x ∈ l → P s → Q (l.foldl step s) := by
  intro l
  induction l with
  | nil => intro s hx; simp at hx
  | cons y t ih =>
      intro s hx hs
      rcases List.mem_cons.mp hx with rfl | hx'
      · exact foldl_preserves step Q hQ t _ (hEst s hs)
      · exact ih _ hx' (hP s y hs)

/-- State-to-state relation along expansion steps: scored entries dominate
entrywise, linked entries persist. -/
def StepRel (st st' : ExpandState) : Prop :=
  List.Forall₂ DomR st.scored st'.scored ∧ ∀ r ∈ st.linked, r ∈ st'.linked

theorem StepRel_refl (st : ExpandState) : StepRel st st :=
  ⟨forall2_domR_refl _, fun _ h => h⟩

theorem StepRel_trans {s1 s2 s3 : ExpandState} (h1 : StepRel s1 s2) (h2 : StepRel s2 s3) :
    StepRel s1 s3 :=
  ⟨forall2_domR_trans h1.1 h2.1, fun r hr => h2.2 r (h1.2 r hr)⟩

theorem processEdge_rel (store : SCRTStore) (i : Nat) (st : ExpandState) (e : SCRTEdge) :
    StepRel st (processEdge store i st e) := by
  unfold processEdge
  cases st.scored.get? i with
  | none => exact StepRel_refl st
  | some res =>
      simp only []
      cases store.nodes.find? (fun n => n.node_id == e.target_id) with
      | none => exact StepRel_refl st
      | some linkedNode =>
          simp only []
          by_cases hany : st.scored.any (fun r => r.node.node_id == linkedNode.node_id) = true
          · rw [if_pos hany]
            refine ⟨?_, fun r hr => hr⟩
            apply forall2_domR_updateFirst
            intro r
            exact ⟨rfl, le_max_left _ _⟩
          · rw [if_neg hany]
            by_cases hl : st.linked.any (fun r => r.node.node_id == linkedNode.node_id) = true
            · rw [if_pos hl]; exact StepRel_refl st
            · rw [if_neg hl]
              exact ⟨forall2_domR_refl _, fun r hr => List.mem_append_left _ hr⟩

theorem processLink_rel (store : SCRTStore) (i : Nat) (st : ExpandState)
    (link : SCRTNodeLink) : StepRel st (processLink store i st link) := by
  unfold processLink
  cases st.scored.get? i with
  | none => exact StepRel_refl st
  | some res =>
      simp only []
      cases store.nodes.find? (fun n => n.node_id == link.target_node_id) with
      | none => exact StepRel_refl st
      | some linkedNode =>
          simp only []
          by_cases hc : (st.scored.any (fun r => r.node.node_id == linkedNode.node_id) ||
              st.linked.any (fun r => r.node.node_id == linkedNode.node_id)) = true
          · rw [if_pos hc]; exact StepRel_refl st
          · rw [if_neg hc]
            exact ⟨forall2_domR_refl _, fun r hr => List.mem_append_left _ hr⟩

theorem processTop_rel (store : SCRTStore) (edges : List SCRTEdge) (st : ExpandState)
    (i : Nat) : StepRel st (processTop store edges st i) := by
  unfold processTop
  cases st.scored.get? i with
  | none => exact StepRel_refl st
  | some res0 =>
      simp only []
      have h1 : StepRel st ((edges.filter
          (fun e => e.source_id == res0.node.node_id)).foldl (processEdge store i) st) := by
        apply foldl_preserves (P := StepRel st)
        · intro s y hs
          exact StepRel_trans hs (processEdge_rel store i s y)
        · exact StepRel_refl st
      refine StepRel_trans h1 ?_
      apply foldl_preserves (P := StepRel _)
      · intro s y hs
        exact StepRel_trans hs (processLink_rel store i s y)
      · exact StepRel_refl _

/-- The target-reached property tracked through the expansion. -/
def Reached (tid : String) (s0 : ℚ) (st : ExpandState) : Prop :=
  ∃ r, (r ∈ st.scored ∨ r ∈ st.linked) ∧ r.node.node_id = tid ∧ s0 ≤ r.score

theorem Reached_of_StepRel {tid : String} {s0 : ℚ} {st st' : ExpandState}
    (hrel : StepRel st st') (h : Reached tid s0 st) : Reached tid s0 st' := by
  obtain ⟨r, hr, hid, hs⟩ := h
  rcases hr with hr | hr
  · obtain ⟨r', hr', hd⟩ := forall2_domR_mem hrel.1 hr
    exact ⟨r', Or.inl hr', by rw [hd.1, hid], hs.trans hd.2⟩
  · exact ⟨r, Or.inr (hrel.2 r hr), hid, hs⟩

/-- Every convolution result carries a node of the store. -/
theorem convResults_node_mem (links : List SemanticLink) (store : SCRTStore)
    (grammar : ClinicalOntology) (observation : ClinicalObservationData) :
    ∀ r ∈ convResults links store grammar observation, r.node ∈ store.nodes := by
  intro r hr
  unfold convResults at hr
  rw [mem_sortResultsDesc] at hr
  obtain ⟨a, _, hfa⟩ := List.mem_filterMap.mp hr
  obtain ⟨n, hfind, hconv⟩ := Option.map_eq_some'.mp hfa
  have hmem : n ∈ store.nodes := List.mem_of_find?_eq_some hfind
  have hnode : r.node = n := by
    rw [← hconv]
    simp [convolveNode]
  rw [hnode]
  exact hmem

/-- Processing an edge of the top node at position `i` whose target is
already scored reaches the target with at least the position-`i` convolution
score. -/
theorem processEdge_est (store : SCRTStore) (i : Nat)
    (sorted0 : List SCRTInferenceResult) (r0 : SCRTInferenceResult) (e : SCRTEdge)
    (hr0 : sorted0.get? i = some r0)
    (htid : ∃ rt ∈ sorted0, rt.node.node_id = e.target_id)
    (hstore : ∀ r ∈ sorted0, r.node ∈ store.nodes) :
    ∀ st : ExpandState, StepRel ⟨sorted0, []⟩ st →
      Reached e.target_id r0.score (processEdge store i st e) := by
  intro st hrel
  obtain ⟨res, hres, hdom⟩ := forall2_domR_get? hrel.1 hr0
  obtain ⟨rt, hrtmem, hrtid⟩ := htid
  have hsome : (store.nodes.find? (fun n => n.node_id == e.target_id)).isSome := by
    rw [List.find?_isSome]
    exact ⟨rt.node, hstore rt hrtmem, by simp [hrtid]⟩
  obtain ⟨linkedNode, hln⟩ := Option.isSome_iff_exists.mp hsome
  have hlnid : linkedNode.node_id = e.target_id := by
    have := List.find?_some hln
    simpa using this
  obtain ⟨r', hr'mem, hd'⟩ := forall2_domR_mem hrel.1 hrtmem
  have hany : st.scored.any (fun r => r.node.node_id == linkedNode.node_id) = true := by
    rw [List.any_eq_true]
    refine ⟨r', hr'mem, ?_⟩
    rw [hd'.1]
    simp [hrtid, hlnid]
  unfold processEdge
  rw [hres, hln]
  simp only []
  rw [if_pos hany]
  obtain ⟨x, hxmem, hpx, hfmem⟩ := updateFirstResult_hit
    (fun r => r.node.node_id == linkedNode.node_id)
    (fun r =>
      { r with
          score := max r.score res.score
          reasoningPath :=
            if r.reasoningPath.contains ("Boosted by " ++ res.node.pathology)
            then r.reasoningPath
            else r.reasoningPath ++
              ["Boosted by " ++ res.node.pathology ++ " (" ++ e.relation ++ ")"] })
    st.scored hany
  refine ⟨_, Or.inl hfmem, ?_, ?_⟩
  · simp only []
    have : x.node.node_id = linkedNode.node_id := by simpa using hpx
    rw [this, hlnid]
  · simp only []
    exact hdom.2.trans (le_max_right _ _)

/-- All result nodes (scored and linked) belong to the store. -/
def NodesOK (store : SCRTStore) (st : ExpandState) : Prop :=
  (∀ r ∈ st.scored, r.node ∈ store.nodes) ∧ (∀ r ∈ st.linked, r.node ∈ store.nodes)

theorem processEdge_nodesOK (store : SCRTStore) (i : Nat) (st : ExpandState)
    (e : SCRTEdge) (h : NodesOK store st) : NodesOK store (processEdge store i st e) := by
  unfold processEdge
  cases st.scored.get? i with
  | none => exact h
  | some res =>
      simp only []
      cases hln : store.nodes.find? (fun n => n.node_id == e.target_id) with
      | none => exact h
      | some linkedNode =>
          simp only []
          by_cases hany : st.scored.any (fun r => r.node.node_id == linkedNode.node_id) = true
          · rw [if_pos hany]
            refine ⟨?_, h.2⟩
            intro r hr
            rcases mem_updateFirstResult _ _ _ r hr with hr' | ⟨x, hx, rfl⟩
            · exact h.1 r hr'
            · exact h.1 x hx
          · rw [if_neg hany]
            by_cases hl : st.linked.any (fun r => r.node.node_id == linkedNode.node_id) = true
            · rw [if_pos hl]; exact h
            · rw [if_neg hl]
              refine ⟨h.1, ?_⟩
              intro r hr
              rcases List.mem_append.mp hr with hr' | hr'
              · exact h.2 r hr'
              · rw [List.mem_singleton] at hr'
                subst hr'
                exact List.mem_of_find?_eq_some hln
  
theorem processLink_nodesOK (store : SCRTStore) (i : Nat) (st : ExpandState)
    (link : SCRTNodeLink) (h : NodesOK store st) :
    NodesOK store (processLink store i st link) := by
  unfold processLink
  cases st.scored.get? i with
  | none => exact h
  | some res =>
      simp only []
      cases hln : store.nodes.find? (fun n => n.node_id == link.target_node_id) with
      | none => exact h
      | some linkedNode =>
          simp only []
          by_cases hc : (st.scored.any (fun r => r.node.node_id == linkedNode.node_id) ||
              st.linked.any (fun r => r.node.node_id == linkedNode.node_id)) = true
          · rw [if_pos hc]; exact h
          · rw [if_neg hc]
            refine ⟨h.1, ?_⟩
            intro r hr
            rcases List.mem_append.mp hr with hr' | hr'
            · exact h.2 r hr'
            · rw [List.mem_singleton] at hr'
              subst hr'
              exact List.mem_of_find?_eq_some hln

theorem processTop_nodesOK (store : SCRTStore) (edges : List SCRTEdge)
    (st : ExpandState) (i : Nat) (h : NodesOK store st) :
    NodesOK store (processTop store edges st i) := by
  unfold processTop
  cases st.scored.get? i with
  | none => exact h
  | some res0 =>
      simp only []
      have h1 := foldl_preserves (processEdge store i) (NodesOK store)
        (fun s y hs => processEdge_nodesOK store i s y hs)
        (edges.filter (fun e => e.source_id == res0.node.node_id)) st h
      exact foldl_preserves (processLink store i) (NodesOK store)
        (fun s y hs => processLink_nodesOK store i s y hs) _ _ h1

set_option maxHeartbeats 1000000 in
/-- C5 amended: during graph expansion, (1) no score is ever lowered — every
convolution entry appears in the final results with the same node and a
score at least its convolution score; (2) for every top-5 node (position
`i < 5` of the sorted convolution results) and every outbound graph EDGE to
an already-scored target, the final results hold the target with a score at
least the source's convolution score; (3) nodes absent from the store are
skipped — every final result's node is a store node.  Legacy node-level
links, by contrast, never boost an already-scored target
(`legacy_link_no_boost`): they only add results for yet-unscored nodes. -/
theorem expansion_boosts_edges_and_skips_missing
    (links : List SemanticLink) (store : SCRTStore) (grammar : ClinicalOntology)
    (edges : List SCRTEdge) (observation : ClinicalObservationData) :
    (∀ r0 ∈ convResults links store grammar observation,
      ∃ r ∈ querySCRT links store grammar edges observation,
        r.node = r0.node ∧ r0.score ≤ r.score) ∧
    (∀ (i : Nat) (r0 : SCRTInferenceResult),
      (convResults links store grammar observation).get? i = some r0 → i < 5 →
      ∀ e ∈ edges, e.source_id = r0.node.node_id →
      (∃ rt ∈ convResults links store grammar observation,
        rt.node.node_id = e.target_id) →
      ∃ r ∈ querySCRT links store grammar edges observation,
        r.node.node_id = e.target_id ∧ r0.score ≤ r.score) ∧
    (∀ r ∈ querySCRT links store grammar edges observation, r.node ∈ store.nodes) := by
  have hstoremem := convResults_node_mem links store grammar observation
  have hfinal : querySCRT links store grammar edges observation =
      sortResultsDesc
        ((expandResults store edges (convResults links store grammar observation)).scored ++
          (expandResults store edges (convResults links store grammar observation)).linked) := by
    unfold querySCRT
    rfl
  have hrelfinal : StepRel ⟨convResults links store grammar observation, []⟩
      (expandResults store edges (convResults links store grammar observation)) := by
    unfold expandResults
    exact foldl_preserves (processTop store edges)
      (StepRel ⟨convResults links store grammar observation, []⟩)
      (fun s y hs => StepRel_trans hs (processTop_rel store edges s y)) _ _
      (StepRel_refl _)
  refine ⟨?_, ?_, ?_⟩
  · -- (1) never lowered
    intro r0 hr0
    obtain ⟨r', hr'mem, hd⟩ := forall2_domR_mem hrelfinal.1 hr0
    refine ⟨r', ?_, hd.1, hd.2⟩
    rw [hfinal, mem_sortResultsDesc]
    exact List.mem_append_left _ hr'mem
  · -- (2) edge boost from a top-5 node
    intro i r0 hir0 hi5 e hemem hsrc htgt
    have hilen : i < (convResults links store grammar observation).length :=
      (List.get?_eq_some.mp hir0).1
    have hEstTop : ∀ st, StepRel ⟨convResults links store grammar observation, []⟩ st →
        Reached e.target_id r0.score (processTop store edges st i) := by
      intro st hrel
      obtain ⟨res0, hres0, hdom0⟩ := forall2_domR_get? hrel.1 hir0
      unfold processTop
      rw [hres0]
      simp only []
      have hmemE : e ∈ edges.filter (fun e' => e'.source_id == res0.node.node_id) := by
        rw [List.mem_filter]
        refine ⟨hemem, ?_⟩
        rw [hdom0.1]
        simp [hsrc]
      have hinner : Reached e.target_id r0.score
          ((edges.filter (fun e' => e'.source_id == res0.node.node_id)).foldl
            (processEdge store i) st) :=
        foldl_establishes (processEdge store i)
          (StepRel ⟨convResults links store grammar observation, []⟩)
          (Reached e.target_id r0.score) e
          (fun s y hs => StepRel_trans hs (processEdge_rel store i s y))
          (fun s y hq => Reached_of_StepRel (processEdge_rel store i s y) hq)
          (fun s hs => processEdge_est store i _ r0 e hir0 htgt hstoremem s hs)
          _ st hmemE hrel
      exact foldl_preserves (processLink store i) (Reached e.target_id r0.score)
        (fun s y hq => Reached_of_StepRel (processLink_rel store i s y) hq) _ _ hinner
    have hQ : Reached e.target_id r0.score
        (expandResults store edges (convResults links store grammar observation)) := by
      unfold expandResults
      exact foldl_establishes (processTop store edges)
        (StepRel ⟨convResults links store grammar observation, []⟩)
        (Reached e.target_id r0.score) i
        (fun s y hs => StepRel_trans hs (processTop_rel store edges s y))
        (fun s y hq => Reached_of_StepRel (processTop_rel store edges s y) hq)
        hEstTop _ _ (List.mem_range.mpr (lt_min hi5 hilen)) (StepRel_refl _)
    obtain ⟨r, hr, hid, hs⟩ := hQ
    refine ⟨r, ?_, hid, hs⟩
    rw [hfinal, mem_sortResultsDesc]
    rcases hr with hr | hr
    · exact List.mem_append_left _ hr
    · exact List.mem_append_right _ hr
  · -- (3) nodes absent from the store are skipped
    intro r hr
    have hok : NodesOK store
        (expandResults store edges (convResults links store grammar observation)) := by
      unfold expandResults
      exact foldl_preserves (processTop store edges) (NodesOK store)
        (fun s y hs => processTop_nodesOK store edges s y hs) _ _
        ⟨hstoremem, fun r hr => by simp at hr⟩
    rw [hfinal, mem_sortResultsDesc] at hr
    rcases List.mem_append.mp hr with hr' | hr'
    · exact hok.1 r hr'
    · exact hok.2 r hr'

/-- C5 counterexample store: top node `S` holds only a LEGACY node-level link
to the already-scored node `X`; the edge store is empty. -/
def storeC5 : SCRTStore :=
  { nodes :=
      [mkTestNode "S" "Sepsis" [mkBoolBranch "CS" 19]
        [{ relation := "has_protocol", target_node_id := "X" }],
       mkTestNode "X" "Xcondition" [] []]
    syndromes := []
    concept_store := { concepts := [mkBoolConcept "CS" "Fever"] }
    index := { root := .mk "MEDICINE" "Medicine" [] [] } }

set_option maxHeartbeats 1000000 in
/-- C5 counterexample: node `X` is scored (score 0) and reached from the top
node `S` (score 20) via a LEGACY node-level link, yet its final score stays
0 — the legacy-link branch of the expansion only adds yet-unscored nodes and
never raises an already-scored target to the source's score, contradicting
the claim for legacy links. -/
theorem legacy_link_no_boost :
    ((convResults [] storeC5 ⟨[], []⟩ obs1C4).map (fun r => (r.node.node_id, r.score))) =
      [("S", 20), ("X", 0)] ∧
    (∃ n ∈ storeC5.nodes, n.node_id = "S" ∧
      n.links = some [{ relation := "has_protocol", target_node_id := "X" }]) ∧
    finalScoreOf (querySCRT [] storeC5 ⟨[], []⟩ [] obs1C4) "X" = some 0 ∧
    ¬ ((20 : ℚ) ≤ 0) := by decide

/-- The position-0 convolution result of the C4 store under `obs1C4`, used by
the C5 witness. -/
def r0C5 : SCRTInferenceResult :=
  { node := mkTestNode "S" "Sepsis" [mkBoolBranch "CS" 19] []
    score := 20
    activeModalities := [{ label := "Present", mclass := .M1, score := 19
                           condition := { operator := .eq, threshold := .jbool true } }]
    activeSyndromes := []
    reasoningPath := ["M1: Present"]
    matchedConcepts := ["CS"]
    unmatchedConcepts := []
    obsKeys := ["CS"] }

set_option maxHeartbeats 1000000 in
/-- Witness for `expansion_boosts_edges_and_skips_missing`: in the C4 store,
the top node `S` (convolution score 20) has an edge to the scored node `X`,
and the final results hold `X` with score at least 20. -/
theorem expansion_boost_witness :
    ∃ r ∈ querySCRT [] storeC4 ⟨[], []⟩ edgesC4 obs1C4,
      r.node.node_id = "X" ∧ (20 : ℚ) ≤ r.score := by
  obtain ⟨r, hr, hid, hs⟩ :=
    (expansion_boosts_edges_and_skips_missing [] storeC4 ⟨[], []⟩ edgesC4 obs1C4).2.1
      0 r0C5 (by decide) (by decide)
      { source_id := "S", relation := "has_protocol", target_id := "X", strength := some 1 }
      (by decide) (by decide) (by decide)
  exact ⟨r, hr, hid, hs⟩

-- ---------------------------------------------------------------------------
-- C9: node ingestion is an idempotent upsert keyed by node_key
-- ---------------------------------------------------------------------------

/-- The identity-relevant fields of a node: id, upsert key, kind, label,
title.  Everything the upsert matcher and the claim inspect. -/
def identN (n : SCRTNode) : String × Option String × Option NodeKind × String × Option String :=
  (n.node_id, n.node_key, n.node_kind, n.pathology, n.title)

/-- `nodeMatches` only reads the identity fields. -/
theorem nodeMatches_congr (res : ExtractionResult) (key : String) {a b : SCRTNode}
    (h : identN a = identN b) : nodeMatches res key a = nodeMatches res key b := by
  unfold identN at h
  simp only [Prod.mk.injEq] at h
  obtain ⟨h1, h2, h3, h4, h5⟩ := h
  unfold nodeMatches
  rw [h2, h3, h4, h5]

/-- Filtering commutes with any identity-respecting projection. -/
theorem filter_congr_map {α β : Type} (f : α → β) (P : α → Bool)
    (hP : ∀ a b, f a = f b → P a = P b) :
    ∀ (l1 l2 : List α), l1.map f = l2.map f →
      (l1.filter P).map f = (l2.filter P).map f := by
  intro l1
  induction l1 with
  | nil => intro l2 h; cases l2 with
      | nil => rfl
      | cons b t => simp at h
  | cons a t ih =>
      intro l2 h
      cases l2 with
      | nil => simp at h
      | cons b t2 =>
          simp only [List.map_cons, List.cons.injEq] at h
          obtain ⟨hab, ht⟩ := h
          rw [List.filter_cons, List.filter_cons, hP a b hab]
          by_cases hb : P b = true
          · rw [hb]
            simp only [if_true, List.map_cons, List.cons.injEq]
            exact ⟨hab, ih t2 ht⟩
          · simp only [Bool.not_eq_true] at hb
            rw [hb]
            simp only [Bool.false_eq_true, if_false]
            exact ih t2 ht

/-- `findIdx?`-position and `find?` agree. -/
theorem findIdx?_bind_get?_eq_find? {α : Type} (P : α → Bool) :
    ∀ (l : List α), (l.findIdx? P).bind l.get? = l.find? P := by
  intro l
  induction l with
  | nil => rfl
  | cons a t ih =>
      by_cases ha : P a = true
      · rw [List.find?_cons_of_pos _ ha]
        simp [List.findIdx?_cons, ha]
      · rw [List.find?_cons_of_neg _ ha]
        have hfa : P a = false := by simpa using ha
        rw [List.findIdx?_cons, hfa]
        simp only [Bool.false_eq_true, if_false, List.findIdx?_succ]
        rw [← ih]
        cases ht : t.findIdx? P with
        | none => rfl
        | some i =>
            simp

/-- `find?` returns the head of the filtered list. -/
theorem find?_eq_head_filter {α : Type} (P : α → Bool) :
    ∀ (l : List α) (x : α) (xs : List α), l.filter P = x :: xs → l.find? P = some x := by
  intro l
  induction l with
  | nil => intro x xs h; simp at h
  | cons a t ih =>
      intro x xs h
      by_cases ha : P a = true
      · rw [List.filter_cons_of_pos ha] at h
        rw [List.find?_cons_of_pos _ ha]
        injection h with h1 h2
        rw [h1]
      · rw [List.filter_cons_of_neg ha] at h
        rw [List.find?_cons_of_neg _ ha]
        exact ih x xs h

/-- The concept upsert never touches the node list. -/
theorem scrt_upsert_concept_nodes (now : Nat) (links : List SemanticLink)
    (store : SCRTStore) (p : ConceptPartial) :
    (scrt_upsert_concept now links store p).2.nodes = store.nodes := by
  unfold scrt_upsert_concept
  cases resolveToConceptId links store p.label <;> rfl

/-- One concept-ingestion step never touches the node list. -/
theorem ingestElementStep_nodes (now : Nat) (sl : List SemanticLink)
    (st : ClinicalOntology × SCRTStore × List (SCRTConceptTree × ElementType))
    (item : ClinicalElementSpec) :
    (ingestElementStep now sl st item).2.1.nodes = st.2.1.nodes := by
  unfold ingestElementStep
  by_cases h : myStartsWith (addValidatedElement now
    { id := none
      name := some item.root_term
      type := some item.type
      mode_description := some
        { type := if item.unit.isSome then ModeType.numeric else ModeType.options
          unit := item.unit
          options := some (item.characteristics ++ item.values) } } st.1).1.id
      TEMP_REJECT_PREFIX
  · simp only [h, if_true]
  · simp only [h, if_false]
    exact scrt_upsert_concept_nodes now sl st.2.1 _

/-- The concept-ingestion fold never touches the node list. -/
theorem ingestElements_nodes (now : Nat) (sl : List SemanticLink) :
    ∀ (items : List ClinicalElementSpec)
      (st : ClinicalOntology × SCRTStore × List (SCRTConceptTree × ElementType)),
      ((items.foldl (ingestElementStep now sl) st).2.1).nodes = st.2.1.nodes := by
  intro items
  induction items with
  | nil => intro st; rfl
  | cons a t ih =>
      intro st
      rw [List.foldl_cons, ih, ingestElementStep_nodes]

/-- One syndrome-ingestion step never touches the node list. -/
theorem ingestSyndromeStep_nodes (sl : List SemanticLink)
    (st : SCRTStore × List String) (syn : SyndromeSpec) :
    (ingestSyndromeStep sl st syn).1.nodes = st.1.nodes := rfl

/-- The syndrome-ingestion fold never touches the node list. -/
theorem ingestSyndromes_nodes (sl : List SemanticLink) :
    ∀ (syns : List SyndromeSpec) (st : SCRTStore × List String),
      ((syns.foldl (ingestSyndromeStep sl) st).1).nodes = st.1.nodes := by
  intro syns
  induction syns with
  | nil => intro st; rfl
  | cons a t ih =>
      intro st
      rw [List.foldl_cons, ih, ingestSyndromeStep_nodes]

/-- Rebuilding the discipline index leaves the node list untouched. -/
theorem rebuildMedicalIndex_nodes (store : SCRTStore) :
    (rebuildMedicalIndex store).nodes = store.nodes := rfl

/-- `updateFirstNode` with an identity-preserving update keeps the node
identities of the whole list. -/
theorem updateFirstNode_map_identN (p : SCRTNode → Bool) (f : SCRTNode → SCRTNode)
    (hf : ∀ n, identN (f n) = identN n) :
    ∀ (l : List SCRTNode), (updateFirstNode p f l).map identN = l.map identN := by
  intro l
  induction l with
  | nil => rfl
  | cons n rest ih =>
      unfold updateFirstNode
      by_cases h : p n = true
      · simp [h, hf n]
      · simp [h, ih]

/-- Mirrored node-level links never change node identities. -/
theorem addNodeLink_map_identN (nodes : List SCRTNode) (id relation target : String) :
    (addNodeLink nodes id relation target).map identN = nodes.map identN := by
  unfold addNodeLink
  apply updateFirstNode_map_identN
  intro n
  rfl

/-- Applying one auto-link match never changes node identities. -/
theorem applyLinkMatch_map_identN (now : Nat) (nodeId : String)
    (st : SCRTStore × List SCRTEdge) (m : LinkMatch) :
    ((applyLinkMatch now nodeId st m).1).nodes.map identN = st.1.nodes.map identN := by
  unfold applyLinkMatch
  simp only []
  rw [addNodeLink_map_identN, addNodeLink_map_identN]

/-- The auto-link fold never changes node identities. -/
theorem applyLinkMatch_fold_map_identN (now : Nat) (nodeId : String) :
    ∀ (ms : List LinkMatch) (st : SCRTStore × List SCRTEdge),
      ((ms.foldl (applyLinkMatch now nodeId) st).1).nodes.map identN
        = st.1.nodes.map identN := by
  intro ms
  induction ms with
  | nil => intro st; rfl
  | cons m rest ih =>
      intro st
      rw [List.foldl_cons, ih, applyLinkMatch_map_identN]

/-- `autoLinkNode` never changes node identities. -/
theorem autoLinkNode_map_identN (now : Nat) (store : SCRTStore)
    (edges : List SCRTEdge) (nodeId : String) :
    ((autoLinkNode now store edges nodeId).1).nodes.map identN
      = store.nodes.map identN := by
  unfold autoLinkNode
  cases store.nodes.find? (fun n => n.node_id == nodeId) with
  | none => rfl
  | some node => exact applyLinkMatch_fold_map_identN now nodeId _ _

/-- Appending one matching element to a match-free list filters to it alone. -/
theorem upsert_filter_none {α : Type} (P : α → Bool) (new : α) (hP : P new = true)
    (l : List α) (h : l.findIdx? P = none) : (l ++ [new]).filter P = [new] := by
  have hall : ∀ x ∈ l, P x = false := List.findIdx?_eq_none_iff.mp h
  rw [List.filter_append]
  have : l.filter P = [] := by
    rw [List.filter_eq_nil_iff]
    intro a ha
    simp [hall a ha]
  rw [this]
  simp [hP]

/-- Overwriting the first match in a list with at most one match filters to
the replacement alone. -/
theorem upsert_filter_some {α : Type} (P : α → Bool) (new : α) (hP : P new = true) :
    ∀ (l : List α) (i : Nat), l.findIdx? P = some i → (l.filter P).length ≤ 1 →
      (l.set i new).filter P = [new] := by
  intro l
  induction l with
  | nil => intro i hi; simp at hi
  | cons a t ih =>
      intro i hi hlen
      by_cases ha : P a = true
      · have h0 : i = 0 := by
          rw [List.findIdx?_cons, ha] at hi
          simp at hi
          omega
      -- the head matches: i = 0 and the tail is match-free
        subst h0
        rw [List.set_cons_zero, List.filter_cons_of_pos hP]
        have htail : t.filter P = [] := by
          rw [List.filter_cons_of_pos ha] at hlen
          simp only [List.length_cons] at hlen
          have : (t.filter P).length = 0 := by omega
          exact List.eq_nil_of_length_eq_zero this
        rw [htail]
      · have hfa : P a = false := by simpa using ha
        rw [List.findIdx?_cons, hfa] at hi
        simp only [Bool.false_eq_true, if_false, List.findIdx?_succ,
          Option.map_eq_map, Option.map_eq_some'] at hi
        obtain ⟨j, hj, hji⟩ := hi
        rw [List.filter_cons_of_neg ha] at hlen
        rw [← hji, List.set_cons_succ, List.filter_cons_of_neg ha]
        exact ih j hj hlen

/-- A list whose image is a singleton is a singleton with that image. -/
theorem map_eq_singleton {α β : Type} (f : α → β) :
    ∀ (l : List α) (b : β), l.map f = [b] → ∃ a, l = [a] ∧ f a = b := by
  intro l b h
  cases l with
  | nil => simp at h
  | cons a t =>
      cases t with
      | nil =>
          simp only [List.map_cons, List.map_nil, List.cons.injEq, and_true] at h
          exact ⟨a, rfl, h⟩
      | cons c r => simp at h

/-- The upsert key an extraction result is stored under. -/
def ingestKey (res : ExtractionResult) : String :=
  generateNodeKey res.node_kind res.pathology res.title

/-- The node id the ingestion assigns: the already-stored matching node's id
if one exists, a fresh timestamped id otherwise. -/
def ingestNodeId (now : Nat) (res : ExtractionResult) (st : AppState) : String :=
  match st.scrt.nodes.find? (nodeMatches res (ingestKey res)) with
  | some n => n.node_id
  | none =>
      "NODE_" ++ myUpper ((res.node_kind.map (·.str)).getD "path") ++ "_" ++ toString now

/-- The identity tuple of the node the ingestion writes. -/
def ingestIdent (now : Nat) (res : ExtractionResult) (st : AppState) :
    String × Option String × Option NodeKind × String × Option String :=
  (ingestNodeId now res st, some (ingestKey res),
   some (res.node_kind.getD NodeKind.pathology),
   jsStrOr res.title res.pathology, res.title)

/-- A node carrying the searched `node_key` always matches. -/
theorem nodeMatches_of_key (res : ExtractionResult) (K : String) (n : SCRTNode)
    (h : n.node_key = some K) : nodeMatches res K n = true := by
  simp [nodeMatches, h]

/-- The tail of the node pipeline (auto-link, index rebuild) does not change
which node identities match the upsert predicate. -/
theorem ingest_tail_filter (now : Nat) (res : ExtractionResult) (K : String)
    (store3 : SCRTStore) (edges1 : List SCRTEdge) (nid : String) :
    (((rebuildMedicalIndex (autoLinkNode now store3 edges1 nid).1).nodes.filter
        (nodeMatches res K)).map identN)
      = ((store3.nodes.filter (nodeMatches res K)).map identN) := by
  rw [rebuildMedicalIndex_nodes]
  exact filter_congr_map identN (nodeMatches res K)
    (fun a b hab => nodeMatches_congr res K hab) _ _
    (autoLinkNode_map_identN now store3 edges1 nid)

/-- One ingestion without an applies_to target, into a store satisfying the
key-uniqueness invariant, leaves exactly one node matching the upsert
predicate, and its identity is `ingestIdent`. -/
theorem scrt_store_ingestion_upsert (now : Nat) (res : ExtractionResult) (st : AppState)
    (ha : extractAppliesTarget res = none)
    (h1 : (st.scrt.nodes.filter (nodeMatches res (ingestKey res))).length ≤ 1) :
    ((scrt_store_ingestion_result now res st).scrt.nodes.filter
        (nodeMatches res (ingestKey res))).map identN = [ingestIdent now res st] := by
  unfold scrt_store_ingestion_result
  simp only [ha, ingestKey] at h1 ⊢
  rw [ingest_tail_filter]
  simp only [ingestSyndromes_nodes, ingestElements_nodes]
  cases hidx : List.findIdx?
      (nodeMatches res (generateNodeKey res.node_kind res.pathology res.title)) st.scrt.nodes with
  | none =>
      have hfind : st.scrt.nodes.find?
          (nodeMatches res (generateNodeKey res.node_kind res.pathology res.title)) = none := by
        rw [← findIdx?_bind_get?_eq_find?, hidx]
        rfl
      simp only [hidx, Option.none_bind]
      rw [upsert_filter_none _ _ (nodeMatches_of_key res _ _ rfl) _ hidx]
      simp [identN, ingestIdent, ingestNodeId, ingestKey, hfind]
  | some i =>
      have hfind : st.scrt.nodes.find?
          (nodeMatches res (generateNodeKey res.node_kind res.pathology res.title))
            = st.scrt.nodes.get? i := by
        rw [← findIdx?_bind_get?_eq_find?, hidx]
        rfl
      rw [List.get?_eq_getElem?] at hfind
      simp only [hidx, Option.some_bind]
      rw [upsert_filter_some _ _ (nodeMatches_of_key res _ _ rfl) _ _ hidx h1]
      cases hget : st.scrt.nodes[i]? with
      | none => simp [identN, ingestIdent, ingestNodeId, ingestKey, hfind, hget]
      | some n => simp [identN, ingestIdent, ingestNodeId, ingestKey, hfind, hget]

/-- C9 amended: when the extraction carries no applies_to target, node
ingestion is an idempotent upsert keyed by `node_key`: on any store holding at
most one node matching the upsert predicate (exact `node_key`, else kind plus
normalized label), ingesting the same extraction object twice produces exactly
one matching node, not two, and a third ingestion of a variant with added
clinical elements (same kind, pathology and title) updates that node in
place, keeping `node_id` stable and `node_key` equal to `generateNodeKey`'s
value, rather than creating a duplicate.  (With an applies_to target the
upsert can duplicate the key: see the counterexample below.) -/
theorem ingestion_idempotent_upsert
    (t1 t2 t3 : Nat) (res res' : ExtractionResult) (st : AppState)
    (hk : res'.node_kind = res.node_kind) (hp : res'.pathology = res.pathology)
    (htt : res'.title = res.title)
    (ha : extractAppliesTarget res = none) (ha' : extractAppliesTarget res' = none)
    (h1 : (st.scrt.nodes.filter (nodeMatches res (ingestKey res))).length ≤ 1) :
    ∃ nid : String,
      ((scrt_store_ingestion_result t1 res st).scrt.nodes.filter
          (nodeMatches res (ingestKey res))).map identN
        = [(nid, some (ingestKey res), some (res.node_kind.getD NodeKind.pathology),
            jsStrOr res.title res.pathology, res.title)] ∧
      ((scrt_store_ingestion_result t2 res
          (scrt_store_ingestion_result t1 res st)).scrt.nodes.filter
          (nodeMatches res (ingestKey res))).map identN
        = [(nid, some (ingestKey res), some (res.node_kind.getD NodeKind.pathology),
            jsStrOr res.title res.pathology, res.title)] ∧
      ((scrt_store_ingestion_result t3 res'
          (scrt_store_ingestion_result t2 res
            (scrt_store_ingestion_result t1 res st))).scrt.nodes.filter
          (nodeMatches res (ingestKey res))).map identN
        = [(nid, some (ingestKey res), some (res.node_kind.getD NodeKind.pathology),
            jsStrOr res.title res.pathology, res.title)] := by
  have hKeq : ingestKey res' = ingestKey res := by
    unfold ingestKey
    rw [hk, hp, htt]
  have hPeq : nodeMatches res' (ingestKey res') = nodeMatches res (ingestKey res) := by
    funext n
    rw [hKeq]
    unfold nodeMatches
    rw [hk, hp, htt]
  -- first ingestion
  have E1 := scrt_store_ingestion_upsert t1 res st ha h1
  simp only [ingestIdent] at E1
  have hlen1 : ((scrt_store_ingestion_result t1 res st).scrt.nodes.filter
      (nodeMatches res (ingestKey res))).length ≤ 1 := by
    have hl := congrArg List.length E1
    rw [List.length_map] at hl
    simp only [List.length_cons, List.length_nil] at hl
    omega
  obtain ⟨x1, hx1, hxid1⟩ := map_eq_singleton identN _ _ E1
  have hfind1 : (scrt_store_ingestion_result t1 res st).scrt.nodes.find?
      (nodeMatches res (ingestKey res)) = some x1 :=
    find?_eq_head_filter _ _ _ _ hx1
  have hid1 : x1.node_id = ingestNodeId t1 res st := congrArg Prod.fst hxid1
  -- second ingestion (same object)
  have hNodeId2 : ingestNodeId t2 res (scrt_store_ingestion_result t1 res st)
      = x1.node_id := by
    unfold ingestNodeId
    rw [hfind1]
  have E2 := scrt_store_ingestion_upsert t2 res
    (scrt_store_ingestion_result t1 res st) ha hlen1
  simp only [ingestIdent, hNodeId2, hid1] at E2
  have hlen2 : (((scrt_store_ingestion_result t2 res
      (scrt_store_ingestion_result t1 res st)).scrt.nodes.filter
      (nodeMatches res (ingestKey res)))).length ≤ 1 := by
    have hl := congrArg List.length E2
    rw [List.length_map] at hl
    simp only [List.length_cons, List.length_nil] at hl
    omega
  obtain ⟨x2, hx2, hxid2⟩ := map_eq_singleton identN _ _ E2
  have hfind2 : (scrt_store_ingestion_result t2 res
      (scrt_store_ingestion_result t1 res st)).scrt.nodes.find?
      (nodeMatches res (ingestKey res)) = some x2 :=
    find?_eq_head_filter _ _ _ _ hx2
  have hid2 : x2.node_id = ingestNodeId t1 res st := congrArg Prod.fst hxid2
  -- third ingestion (variant with the same identity fields)
  have hlen2' : (((scrt_store_ingestion_result t2 res
      (scrt_store_ingestion_result t1 res st)).scrt.nodes.filter
      (nodeMatches res' (ingestKey res')))).length ≤ 1 := by
    rw [hPeq]
    exact hlen2
  have hNodeId3 : ingestNodeId t3 res' (scrt_store_ingestion_result t2 res
      (scrt_store_ingestion_result t1 res st)) = x2.node_id := by
    unfold ingestNodeId
    rw [hPeq, hfind2]
  have E3 := scrt_store_ingestion_upsert t3 res'
    (scrt_store_ingestion_result t2 res (scrt_store_ingestion_result t1 res st))
    ha' hlen2'
  rw [hPeq] at E3
  simp only [ingestIdent, hNodeId3, hid2, hKeq, hk, hp, htt] at E3
  exact ⟨ingestNodeId t1 res st, E1, E2, E3⟩

/-- Empty application state for the ingestion run. -/
def emptyAppStateC9 : AppState :=
  { grammar := { elements := [], temporary_memory := [] }
    semLinks := []
    scrt := { nodes := [], syndromes := [], concept_store := { concepts := [] }
              index := { root := .mk "MEDICINE" "Medicine" [] [] } }
    edges := [] }

/-- The extraction object ingested twice. -/
def resC9 : ExtractionResult :=
  { pathology := "Acute Pancreatitis"
    taxonomy := { discipline := "Gastroenterology", specialty := "Pancreatology" }
    contexte := emptyContexte }

/-- The same object with one added clinical element. -/
def resC9v : ExtractionResult :=
  { resC9 with clinical_elements :=
      [{ root_term := "abdominal pain", type := ElementType.symptome
         characteristics := ["epigastric"], values := [] }] }

theorem ingestion_idempotent_upsert_witness :
    resC9v.node_kind = resC9.node_kind ∧ resC9v.pathology = resC9.pathology ∧
    resC9v.title = resC9.title ∧
    extractAppliesTarget resC9 = none ∧ extractAppliesTarget resC9v = none ∧
    (emptyAppStateC9.scrt.nodes.filter
      (nodeMatches resC9 (ingestKey resC9))).length ≤ 1 ∧
    (∃ nid : String,
      ((scrt_store_ingestion_result 100 resC9 emptyAppStateC9).scrt.nodes.filter
          (nodeMatches resC9 (ingestKey resC9))).map identN
        = [(nid, some (ingestKey resC9),
            some (resC9.node_kind.getD NodeKind.pathology),
            jsStrOr resC9.title resC9.pathology, resC9.title)] ∧
      ((scrt_store_ingestion_result 200 resC9
          (scrt_store_ingestion_result 100 resC9 emptyAppStateC9)).scrt.nodes.filter
          (nodeMatches resC9 (ingestKey resC9))).map identN
        = [(nid, some (ingestKey resC9),
            some (resC9.node_kind.getD NodeKind.pathology),
            jsStrOr resC9.title resC9.pathology, resC9.title)] ∧
      ((scrt_store_ingestion_result 300 resC9v
          (scrt_store_ingestion_result 200 resC9
            (scrt_store_ingestion_result 100 resC9 emptyAppStateC9))).scrt.nodes.filter
          (nodeMatches resC9 (ingestKey resC9))).map identN
        = [(nid, some (ingestKey resC9),
            some (resC9.node_kind.getD NodeKind.pathology),
            jsStrOr resC9.title resC9.pathology, resC9.title)]) :=
  ⟨rfl, rfl, rfl, rfl, rfl, by decide,
    ingestion_idempotent_upsert 100 200 300 resC9 resC9v emptyAppStateC9
      rfl rfl rfl rfl rfl (by decide)⟩

/-- An extraction whose applies_to names its own pathology. -/
def resSelfC9 : ExtractionResult :=
  { pathology := "Cholangitis"
    applies_to := some "Cholangitis"
    taxonomy := { discipline := "Gastroenterology", specialty := "Hepatology" }
    contexte := emptyContexte }

/-- C9 counterexample: ingestion is NOT an unconditional idempotent upsert
keyed by `node_key`.  For an extraction whose applies_to names its own
pathology, the applies_to step (which runs before the node upsert, on an
index computed even earlier) pushes a placeholder target node carrying the
very same `node_key`, so one ingestion into an empty store leaves TWO nodes
matching the upsert key, and ingesting the same extraction object a second
time still leaves two nodes, not one. -/
theorem ingestion_self_applies_duplicate :
    extractAppliesTarget resSelfC9 = some "Cholangitis" ∧
    ((scrt_store_ingestion_result 100 resSelfC9 emptyAppStateC9).scrt.nodes.filter
        (nodeMatches resSelfC9 (ingestKey resSelfC9))).length = 2 ∧
    ((scrt_store_ingestion_result 200 resSelfC9
        (scrt_store_ingestion_result 100 resSelfC9 emptyAppStateC9)).scrt.nodes.filter
        (nodeMatches resSelfC9 (ingestKey resSelfC9))).length = 2 := by decide
